import Mathlib

set_option maxRecDepth 8000

/-!
Verification development for the better-icons icon artifact synchronization
subsystem.  The TypeScript sources are shallowly embedded: JavaScript strings
become `String`/`List Char`, `Record` dictionaries become association lists or
functions into `Option`, regular-expression scans become executable recursive
matchers that reproduce the (deterministic) backtracking behaviour of the
concrete patterns used by the code, and fallible operations are modelled with
`Except`/explicit failure oracles.
-/

/-! ## Character classes (JavaScript regular-expression classes, ASCII range) -/

/-- JavaScript `\s` (whitespace), restricted to the ASCII characters that occur
in the strings handled by this system. -/
def isSpaceC (c : Char) : Bool :=
  c = ' ' || c = '\t' || c = '\n' || c = '\r' || c = '\x0b' || c = '\x0c'

/-- JavaScript `\w`: ASCII letters, digits and underscore. -/
def isWordC (c : Char) : Bool :=
  c.isAlpha || c.isDigit || c = '_'

/-- The class `[\w-]` used for the collection part of an icon id. -/
def isIdC1 (c : Char) : Bool :=
  isWordC c || c = '-'

/-- The class `[\w\d.-]` used for the name part of an icon id. -/
def isIdC2 (c : Char) : Bool :=
  isWordC c || c = '.' || c = '-'

/-! ## IconSetResolver: data model and alias resolution (src/icon-utils.ts) -/

/-- Embedding of the `IconData` interface. -/
structure IconData where
  body : String
  width : Option Nat := none
  height : Option Nat := none
  left : Option Nat := none
  top : Option Nat := none
deriving Repr, DecidableEq

/-- Embedding of the `IconSet` interface; the optional `aliases` record maps an
alias name to its parent name (`{ parent: string }`), embedded as an
association list (an absent record behaves as the empty list). -/
structure IconSet where
  icons : List (String × IconData) := []
  aliases : List (String × String) := []
  width : Option Nat := none
  height : Option Nat := none
deriving Repr, DecidableEq

/-- Loop body of `resolveIconAlias`: the `while` loop runs at most `maxDepth`
iterations, so it is embedded as fuel-indexed structural recursion where the
fuel is the number of remaining iterations. -/
def resolveIconAliasGo (iconSet : IconSet) : Nat → String → String
  | 0, current => current
  | depth + 1, current =>
    match iconSet.aliases.lookup current with
    | some parent => resolveIconAliasGo iconSet depth parent
    | none => current

/-- Embedding of `resolveIconAlias(iconSet, name, maxDepth = 10)`. -/
def resolveIconAlias (iconSet : IconSet) (name : String) (maxDepth : Nat) : String :=
  resolveIconAliasGo iconSet maxDepth name

/-- One alias hop: the name's parent if an alias entry exists, otherwise the
name itself.  Used to state how far `resolveIconAlias` walks a chain. -/
def aliasHop (iconSet : IconSet) (n : String) : String :=
  match iconSet.aliases.lookup n with
  | some parent => parent
  | none => n

/-! ## PreferenceStore (the memory module) -/

/-- Embedding of `CollectionUsage`. -/
structure CollectionUsage where
  count : Nat
  lastUsed : String
deriving Repr, DecidableEq

/-- Embedding of `IconHistoryEntry`. -/
structure IconHistoryEntry where
  iconId : String
  timestamp : String
deriving Repr, DecidableEq

/-- The five supported code flavors (`IconFramework`). -/
inductive IconFramework where
  | react
  | vue
  | svelte
  | solid
  | svg
deriving Repr, DecidableEq

/-- Embedding of `Preferences`; the `collections` record is embedded as a
function from collection name to its optional usage entry. -/
structure Preferences where
  collections : String → Option CollectionUsage
  history : List IconHistoryEntry

/-- `MAX_HISTORY_SIZE`. -/
def MAX_HISTORY_SIZE : Nat := 50

/-- `DEFAULT_PREFERENCES`. -/
def DEFAULT_PREFERENCES : Preferences :=
  { collections := fun _ => none, history := [] }

/-- The pure read-modify part of one `trackUsage` attempt: increment the
collection counter (creating the entry if absent, `(existing?.count || 0) + 1`)
and stamp `lastUsed`; when an icon id is supplied, drop any existing history
entry for it, push it to the front and keep the first `MAX_HISTORY_SIZE`
entries. -/
def trackUsageUpdate (prefs : Preferences) (collectionPfx : String)
    (iconId : Option String) (now : String) : Preferences :=
  let newCount : Nat :=
    (match prefs.collections collectionPfx with
     | some existing => existing.count
     | none => 0) + 1
  let collections' : String → Option CollectionUsage :=
    fun k => if k = collectionPfx then some ⟨newCount, now⟩ else prefs.collections k
  let history' : List IconHistoryEntry :=
    match iconId with
    | some id =>
      (⟨id, now⟩ :: prefs.history.filter (fun h => h.iconId != id)).take MAX_HISTORY_SIZE
    | none => prefs.history
  { collections := collections', history := history' }

/-- Caller-observable outcome of a `trackUsage` call: the preferences saved by
the successful attempt (if any), the number of read-modify-write attempts
performed, and whether the final-attempt failure was logged.  The source
swallows every per-attempt exception inside the loop, which the embedding
reflects by giving `trackUsage` a total (never-throwing) result type. -/
structure TrackOutcome where
  saved : Option Preferences
  attemptsMade : Nat
  loggedError : Bool

/-- The retry loop of `trackUsage` (`for attempt in 0..<maxRetries`), with
`remaining` iterations left and `attempt` the current index; `att i` is the
combined load-update-save result of attempt `i` (an `Except` models the
try/catch body). -/
def trackLoop (att : Nat → Except Unit Preferences) : Nat → Nat → TrackOutcome
  | 0, attempt => ⟨none, attempt, true⟩
  | remaining + 1, attempt =>
    match att attempt with
    | .ok p => ⟨some p, attempt + 1, false⟩
    | .error _ => trackLoop att remaining (attempt + 1)

/-- One attempt body of `trackUsage`: load (which itself never throws — the
source's `loadPreferences` catches parse errors and returns the default), apply
the pure update at the current time, then save, which may fail; `loadRes i`
is the preferences state seen by attempt `i` and `saveFails i` tells whether
its `savePreferences` throws. -/
def trackAttempt (loadRes : Nat → Preferences) (saveFails : Nat → Bool)
    (collectionPfx : String) (iconId : Option String) (now : Nat → String)
    (i : Nat) : Except Unit Preferences :=
  let prefs' := trackUsageUpdate (loadRes i) collectionPfx iconId (now i)
  if saveFails i then .error () else .ok prefs'

/-- `maxRetries` of `trackUsage`. -/
def maxRetries : Nat := 3

/-- Embedding of `trackUsage(collectionPrefix, iconId?)` over load/save
oracles. -/
def trackUsage (loadRes : Nat → Preferences) (saveFails : Nat → Bool)
    (collectionPfx : String) (iconId : Option String) (now : Nat → String) :
    TrackOutcome :=
  trackLoop (trackAttempt loadRes saveFails collectionPfx iconId now) maxRetries 0

/-- Folding a whole sequence of (prefix, optional icon id, timestamp)
`trackUsage` events over the pure state, as happens when every attempt's save
succeeds and each call loads the previously saved state. -/
def runTrack (prefs : Preferences) (ops : List (String × Option String × String)) :
    Preferences :=
  ops.foldl (fun p op => trackUsageUpdate p op.1 op.2.1 op.2.2) prefs

/-! ## RankingEngine (src/icon-utils.ts) -/

/-- Embedding of `getIconPrefix`: `iconId.split(":")[0] ?? ""`. -/
def getIconPfx (iconId : String) : String :=
  (iconId.splitOn ":").headD ""

/-- JavaScript `Array.prototype.indexOf` (−1 when absent). -/
def jsIndexOf (l : List String) (x : String) : Int :=
  match l.findIdx? (fun y => y = x) with
  | some i => (i : Int)
  | none => -1

/-- The comparator shared by both ranking functions, returning the JavaScript
comparator value. -/
def preferredCompare (preferred : List String) (a b : String) : Int :=
  let pA := jsIndexOf preferred (getIconPfx a)
  let pB := jsIndexOf preferred (getIconPfx b)
  if pA ≥ 0 && pB ≥ 0 then pA - pB
  else if pA ≥ 0 && pB < 0 then -1
  else if pB ≥ 0 && pA < 0 then 1
  else 0

/-- `[...new Set(l)]`: deduplication preserving first occurrences. -/
def dedupFirst : List String → List String
  | [] => []
  | x :: xs => x :: (dedupFirst xs).filter (fun y => y ≠ x)

/-- Embedding of `sortByPreferredCollections`; `Array.prototype.sort` with a
consistent comparator is a stable sort, embedded as `mergeSort` on the
comparator's `≤ 0` relation applied to a copy of the input. -/
def sortByPreferredCollections (icons : List String)
    (style : String) (learnedPreferences : List String) : List String :=
  let stylePreferred :=
    if style = "solid" then ["mdi", "fa-solid"]
    else if style = "outline" then ["lucide", "tabler", "ph"]
    else ["lucide", "mdi", "heroicons"]
  let preferred := dedupFirst (learnedPreferences ++ stylePreferred)
  icons.mergeSort (fun a b => preferredCompare preferred a b ≤ 0)

/-- Embedding of `sortByLearnedPreferences`. -/
def sortByLearnedPreferences (icons : List String)
    (learnedPreferences : List String) : List String :=
  if learnedPreferences.length = 0 then icons
  else icons.mergeSort (fun a b => preferredCompare learnedPreferences a b ≤ 0)

/-! ## Theorems about IconSetResolver, PreferenceStore and RankingEngine -/

/-- Helper for claim C6: the bounded loop of `resolveIconAlias` computes some
`k ≤ depth` alias hops and, when it stops before exhausting the depth budget,
it stopped because no further alias entry exists. -/
theorem resolveIconAliasGo_spec (doc : IconSet) :
    ∀ (d : Nat) (cur : String), ∃ k ≤ d,
      resolveIconAliasGo doc d cur = (aliasHop doc)^[k] cur ∧
      (k < d → doc.aliases.lookup ((aliasHop doc)^[k] cur) = none) := by
  intro d
  induction d with
  | zero =>
    intro cur
    exact ⟨0, le_refl 0, rfl, fun h => absurd h (Nat.not_lt_zero 0)⟩
  | succ d ih =>
    intro cur
    cases h : doc.aliases.lookup cur with
    | none =>
      refine ⟨0, Nat.zero_le _, ?_, fun _ => ?_⟩
      · simp [resolveIconAliasGo, h]
      · simpa using h
    | some parent =>
      obtain ⟨k, hk, heq, hstop⟩ := ih parent
      have hhop : aliasHop doc cur = parent := by simp [aliasHop, h]
      refine ⟨k + 1, Nat.succ_le_succ hk, ?_, ?_⟩
      · simp [resolveIconAliasGo, h, heq, Function.iterate_succ_apply, hhop]
      · intro hlt
        have := hstop (Nat.lt_of_succ_lt_succ hlt)
        simpa [Function.iterate_succ_apply, hhop] using this

/-- Claim C6: for every icon-set document, starting name and depth budget,
`resolveIconAlias` performs at most `maxDepth` alias hops and returns the name
reached (stopping early exactly when no further alias entry exists, so cyclic
or self-referential alias chains are cut off at the depth bound); a name with
no alias entry is returned unchanged, and with aliases `{a→b, b→c}` the input
`"a"` resolves to `"c"`. -/
theorem C6_resolveAlias_bounded (doc : IconSet) (name : String) (maxDepth : Nat) :
    (∃ k ≤ maxDepth,
      resolveIconAlias doc name maxDepth = (aliasHop doc)^[k] name ∧
      (k < maxDepth → doc.aliases.lookup ((aliasHop doc)^[k] name) = none)) ∧
    (doc.aliases.lookup name = none → resolveIconAlias doc name maxDepth = name) ∧
    resolveIconAlias { aliases := [("a", "b"), ("b", "c")] } "a" 10 = "c" := by
  refine ⟨resolveIconAliasGo_spec doc maxDepth name, ?_, ?_⟩
  · intro h
    cases maxDepth with
    | zero => rfl
    | succ d => simp [resolveIconAlias, resolveIconAliasGo, h]
  · decide

/-- Witness for claim C6 at a concrete input: a name with no alias entry is
returned unchanged. -/
theorem C6_resolveAlias_bounded_witness :
    resolveIconAlias { aliases := [] } "x" 10 = "x" :=
  (C6_resolveAlias_bounded { aliases := [] } "x" 10).2.1 (by decide)

/-- Helper for claim C7: one `trackUsage` update preserves the history
invariants (length at most 50, no duplicated icon id). -/
theorem trackUsageUpdate_history_inv (prefs : Preferences) (pfx : String)
    (iconId : Option String) (now : String)
    (hlen : prefs.history.length ≤ MAX_HISTORY_SIZE)
    (hnodup : (prefs.history.map (fun h => h.iconId)).Nodup) :
    (trackUsageUpdate prefs pfx iconId now).history.length ≤ MAX_HISTORY_SIZE ∧
    ((trackUsageUpdate prefs pfx iconId now).history.map (fun h => h.iconId)).Nodup := by
  cases iconId with
  | none => exact ⟨hlen, hnodup⟩
  | some id =>
    constructor
    · simp [trackUsageUpdate]
    · have hsub :
          List.Sublist
            (((⟨id, now⟩ :: prefs.history.filter (fun h => h.iconId != id)).take
              MAX_HISTORY_SIZE).map (fun h => h.iconId))
            (((⟨id, now⟩ : IconHistoryEntry) :: prefs.history.filter
              (fun h => h.iconId != id)).map (fun h => h.iconId)) :=
        List.Sublist.map _ (List.take_sublist _ _)
      have hfull :
          (((⟨id, now⟩ : IconHistoryEntry) :: prefs.history.filter
            (fun h => h.iconId != id)).map (fun h => h.iconId)).Nodup := by
        refine List.nodup_cons.mpr ⟨?_, ?_⟩
        · intro hmem
          obtain ⟨h, hh, hid⟩ := List.mem_map.mp hmem
          have := List.of_mem_filter hh
          simp [hid] at this
        · exact (List.Sublist.map (fun h : IconHistoryEntry => h.iconId)
            (List.filter_sublist prefs.history)).nodup hnodup
      exact (by simpa [trackUsageUpdate] using hsub.nodup hfull)

/-- Helper for claim C7: the invariants hold after any sequence of updates
starting from an invariant-satisfying state. -/
theorem runTrack_history_inv (ops : List (String × Option String × String)) :
    ∀ prefs : Preferences,
      prefs.history.length ≤ MAX_HISTORY_SIZE →
      (prefs.history.map (fun h => h.iconId)).Nodup →
      (runTrack prefs ops).history.length ≤ MAX_HISTORY_SIZE ∧
      ((runTrack prefs ops).history.map (fun h => h.iconId)).Nodup := by
  induction ops with
  | nil => intro prefs h1 h2; exact ⟨h1, h2⟩
  | cons op rest ih =>
    intro prefs h1 h2
    have step := trackUsageUpdate_history_inv prefs op.1 op.2.1 op.2.2 h1 h2
    exact ih _ step.1 step.2

/-- Claim C7: after any sequence of `trackUsage` events the persisted history
has length at most 50 and mentions each icon id at most once, and an update
carrying an icon id leaves exactly one entry for that id, at index 0. -/
theorem C7_history_bounded_nodup_front :
    (∀ ops : List (String × Option String × String),
      (runTrack DEFAULT_PREFERENCES ops).history.length ≤ 50 ∧
      ((runTrack DEFAULT_PREFERENCES ops).history.map (fun h => h.iconId)).Nodup) ∧
    (∀ (prefs : Preferences) (pfx id now : String),
      (trackUsageUpdate prefs pfx (some id) now).history.head? =
        some ⟨id, now⟩ ∧
      (trackUsageUpdate prefs pfx (some id) now).history.countP
        (fun h => h.iconId == id) = 1) := by
  constructor
  · intro ops
    exact runTrack_history_inv ops DEFAULT_PREFERENCES (by simp [DEFAULT_PREFERENCES])
      (by simp [DEFAULT_PREFERENCES])
  · intro prefs pfx id now
    have htake : MAX_HISTORY_SIZE = 49 + 1 := rfl
    constructor
    · simp [trackUsageUpdate, htake]
    · have hzero :
          ((prefs.history.filter (fun h => h.iconId != id)).take 49).countP
            (fun h => h.iconId == id) = 0 := by
        refine List.countP_eq_zero.mpr ?_
        intro h hmem
        have hmem' : h ∈ prefs.history.filter (fun h => h.iconId != id) :=
          List.mem_of_mem_take hmem
        have := List.of_mem_filter hmem'
        simpa using this
      simp [trackUsageUpdate, htake, List.countP_cons, hzero]

/-- Helper for claim C8: the retry loop performs at most `remaining` further
attempts. -/
theorem trackLoop_attempts_le (att : Nat → Except Unit Preferences) :
    ∀ remaining attempt,
      (trackLoop att remaining attempt).attemptsMade ≤ attempt + remaining := by
  intro remaining
  induction remaining with
  | zero => intro attempt; simp [trackLoop]
  | succ r ih =>
    intro attempt
    cases h : att attempt with
    | ok p => simp [trackLoop, h]
    | error e =>
      have := ih (attempt + 1)
      simp [trackLoop, h]
      omega

/-- Helper for claim C8: when every remaining attempt fails, the loop runs all
of them, saves nothing, and ends having logged the final failure. -/
theorem trackLoop_all_fail (att : Nat → Except Unit Preferences) :
    ∀ remaining attempt,
      (∀ i, attempt ≤ i → i < attempt + remaining → att i = .error ()) →
      trackLoop att remaining attempt = ⟨none, attempt + remaining, true⟩ := by
  intro remaining
  induction remaining with
  | zero => intro attempt _; rfl
  | succ r ih =>
    intro attempt hfail
    have h0 : att attempt = .error () :=
      hfail attempt (le_refl _) (by omega)
    have hrec := ih (attempt + 1) (fun i h1 h2 => hfail i (by omega) (by omega))
    simp [trackLoop, h0, hrec]
    omega

/-- Claim C8: `trackUsage` never raises to its caller (its embedding is a total
function into `TrackOutcome`, reflecting the catch-all around each attempt);
for every prefix, optional icon id and pattern of save failures the
read-modify-write cycle is attempted at most 3 times, and when all attempts
fail nothing is saved and the failure is logged and swallowed. -/
theorem C8_trackUsage_retry_bounded (loadRes : Nat → Preferences)
    (saveFails : Nat → Bool) (collectionPfx : String) (iconId : Option String)
    (now : Nat → String) :
    (trackUsage loadRes saveFails collectionPfx iconId now).attemptsMade ≤ 3 ∧
    ((∀ i, i < 3 → saveFails i = true) →
      trackUsage loadRes saveFails collectionPfx iconId now =
        ⟨none, 3, true⟩) := by
  constructor
  · simpa [trackUsage, maxRetries] using
      trackLoop_attempts_le
        (trackAttempt loadRes saveFails collectionPfx iconId now) 3 0
  · intro hf
    have := trackLoop_all_fail
      (trackAttempt loadRes saveFails collectionPfx iconId now) 3 0
      (fun i _ h2 => by simp [trackAttempt, hf i (by omega)])
    simpa [trackUsage, maxRetries] using this

/-- Witness for claim C8 at a concrete input: with every save failing, the call
returns normally with three attempts made and the failure logged. -/
theorem C8_trackUsage_retry_bounded_witness :
    trackUsage (fun _ => DEFAULT_PREFERENCES) (fun _ => true) "lucide"
      (some "lucide:home") (fun _ => "t") = ⟨none, 3, true⟩ :=
  (C8_trackUsage_retry_bounded (fun _ => DEFAULT_PREFERENCES) (fun _ => true)
    "lucide" (some "lucide:home") (fun _ => "t")).2 (fun _ _ => rfl)

/-- Claim C9: both ranking functions return a permutation of their input; the
source sorts a copy (`[...icons].sort`), so the caller's array is left
unchanged, which the pure embedding reflects. -/
theorem C9_sort_permutation (icons : List String) (style : String)
    (learnedPreferences : List String) :
    (sortByPreferredCollections icons style learnedPreferences).Perm icons ∧
    (sortByLearnedPreferences icons learnedPreferences).Perm icons := by
  constructor
  · simpa [sortByPreferredCollections] using
      List.mergeSort_perm icons
        (fun a b =>
          preferredCompare
            (dedupFirst (learnedPreferences ++
              (if style = "solid" then ["mdi", "fa-solid"]
               else if style = "outline" then ["lucide", "tabler", "ph"]
               else ["lucide", "mdi", "heroicons"]))) a b ≤ 0)
  · by_cases h : learnedPreferences.length = 0
    · simp [sortByLearnedPreferences, h]
    · simpa [sortByLearnedPreferences, h] using
        List.mergeSort_perm icons
          (fun a b => preferredCompare learnedPreferences a b ≤ 0)

/-- Claim C10: a `trackUsage` update touches only its own collection entry
(count incremented by one, `lastUsed` set to the current time); every other
collection entry is unchanged, and the history is unchanged when no icon id is
supplied. -/
theorem C10_trackUsage_frame (prefs : Preferences) (collectionPfx : String)
    (iconId : Option String) (now : String) :
    (trackUsageUpdate prefs collectionPfx iconId now).collections collectionPfx =
      some ⟨(match prefs.collections collectionPfx with
             | some e => e.count
             | none => 0) + 1, now⟩ ∧
    (∀ q, q ≠ collectionPfx →
      (trackUsageUpdate prefs collectionPfx iconId now).collections q =
        prefs.collections q) ∧
    (iconId = none →
      (trackUsageUpdate prefs collectionPfx iconId now).history = prefs.history) := by
  refine ⟨?_, ?_, ?_⟩
  · simp [trackUsageUpdate]
  · intro q hq
    simp [trackUsageUpdate, hq]
  · intro h
    subst h
    rfl

/-- Witness for claim C10 at a concrete input: updating `"lucide"` with no icon
id leaves the `"mdi"` entry and the history unchanged. -/
theorem C10_trackUsage_frame_witness :
    (trackUsageUpdate DEFAULT_PREFERENCES "lucide" none "t").collections "mdi" =
      DEFAULT_PREFERENCES.collections "mdi" ∧
    (trackUsageUpdate DEFAULT_PREFERENCES "lucide" none "t").history =
      DEFAULT_PREFERENCES.history :=
  ⟨(C10_trackUsage_frame DEFAULT_PREFERENCES "lucide" none "t").2.1 "mdi"
      (by decide),
    (C10_trackUsage_frame DEFAULT_PREFERENCES "lucide" none "t").2.2 rfl⟩

/-! ## IconSetResolver: fill injection and SVG assembly (src/icon-utils.ts) -/

/-- Substring occurrence test on character lists. -/
def occursIn (pat : List Char) : List Char → Bool
  | [] => pat.isPrefixOf []
  | c :: rest => pat.isPrefixOf (c :: rest) || occursIn pat rest

/-- Split a character list at its first `>` (the characters before it, and the
characters after it); `none` when no `>` exists.  This is how the lazy group
`([^>]*?)(/?)>` of the fill-injection regex consumes a tag: the match always
ends at the first `>` after the element name. -/
def splitAtGt : List Char → Option (List Char × List Char)
  | [] => none
  | c :: r =>
    if c = '>' then some ([], r)
    else
      match splitAtGt r with
      | some (a, b) => some (c :: a, b)
      | none => none

/-- The negative lookahead `(?![^>]*(?:fill=|stroke=))` of the fill-injection
regex: true when `fill=` or `stroke=` occurs before the first `>`. -/
def hasFillStrokeBeforeGt : List Char → Bool
  | [] => false
  | c :: r =>
    "fill=".data.isPrefixOf (c :: r) || "stroke=".data.isPrefixOf (c :: r) ||
      (c ≠ '>' && hasFillStrokeBeforeGt r)

/-- One global-replace pass of
`new RegExp("<" + element + "(?![^>]*(?:fill=|stroke=))([^>]*?)(/?)>", "g")`
with replacement `<element fill="color"$1$2>`: at each position, if `<` is
followed by the element name, the lookahead admits the tag and a closing `>`
exists, the matched text (which runs to that first `>`) is re-emitted with
` fill="color"` inserted after the element name and scanning resumes after the
match; otherwise scanning advances one character, exactly as `String.replace`
does.  Structural recursion on a fuel bounded by the input length. -/
def injectFillGo (element color : List Char) : Nat → List Char → List Char
  | 0, s => s
  | _ + 1, [] => []
  | fuel + 1, c :: rest =>
    if c = '<' && element.isPrefixOf rest then
      let after := rest.drop element.length
      if hasFillStrokeBeforeGt after then c :: injectFillGo element color fuel rest
      else
        match splitAtGt after with
        | some (before, tailRest) =>
          '<' :: (element ++ (" fill=\"".data ++ color ++ ('"' :: before) ++ ['>'])) ++
            injectFillGo element color fuel tailRest
        | none => c :: injectFillGo element color fuel rest
    else c :: injectFillGo element color fuel rest

/-- String-level wrapper for one element's fill-injection pass. -/
def injectFill (element color : String) (s : String) : String :=
  (injectFillGo element.data color.data s.data.length s.data).asString

/-- `SVG_SHAPE_ELEMENTS`. -/
def SVG_SHAPE_ELEMENTS : List String :=
  ["path", "circle", "rect", "polygon", "polyline", "line", "ellipse"]

/-- Embedding of `applyFillToBody`: the per-element replace passes run in
order over the accumulating result. -/
def applyFillToBody (body color : String) : String :=
  SVG_SHAPE_ELEMENTS.foldl (fun result element => injectFill element color result) body

/-- Defaults argument of `buildSvg` (`{ width?, height? }`). -/
structure SvgDefaults where
  width : Option Nat := none
  height : Option Nat := none
deriving Repr, DecidableEq

/-- Options argument of `buildSvg` (`{ size?, color? }`). -/
structure SvgOptions where
  size : Option Nat := none
  color : Option String := none
deriving Repr, DecidableEq

/-- JavaScript `a || b` on an optional number (`0` and `undefined` are falsy). -/
def numOr (a : Option Nat) (b : Nat) : Nat :=
  match a with
  | some n => if n = 0 then b else n
  | none => b

/-- Embedding of `buildSvg`. -/
def buildSvg (iconData : IconData) (defaults : SvgDefaults)
    (options : SvgOptions) : String :=
  let width := numOr iconData.width (numOr defaults.width 24)
  let height := numOr iconData.height (numOr defaults.height 24)
  let viewBox :=
    toString (numOr iconData.left 0) ++ " " ++ toString (numOr iconData.top 0) ++
      " " ++ toString width ++ " " ++ toString height
  let svgSize :=
    match options.size with
    | some n =>
      if n = 0 then "width=\"1em\" height=\"1em\""
      else "width=\"" ++ toString n ++ "\" height=\"" ++ toString n ++ "\""
    | none => "width=\"1em\" height=\"1em\""
  let color :=
    match options.color with
    | some c => if c = "" then "currentColor" else c
    | none => "currentColor"
  let body := applyFillToBody iconData.body color
  "<svg xmlns=\"http://www.w3.org/2000/svg\" " ++ svgSize ++ " viewBox=\"" ++
    viewBox ++ "\">" ++ body ++ "</svg>"

/-- Formalization of the claim's notion of an opening tag of a given element:
`<` followed by the element name followed by a character that cannot extend an
element name (or the end of input).  Used only to state claim C4. -/
def specOpenTagAt (element : List Char) : List Char → Bool
  | [] => false
  | c :: rest =>
    c = '<' && element.isPrefixOf rest &&
      (match (rest.drop element.length).head? with
       | some d => !(d.isAlpha || d.isDigit || d = '-' || d = '_')
       | none => true)

/-- True when the body contains an opening tag of the element somewhere. -/
def specHasOpenTag (element : List Char) : List Char → Bool
  | [] => false
  | c :: rest => specOpenTagAt element (c :: rest) || specHasOpenTag element rest

/-- Helper: a pattern that does not occur in a list does not occur in its
tail either. -/
theorem occursIn_tail {pat : List Char} {c : Char} {rest : List Char}
    (h : occursIn pat (c :: rest) = false) : occursIn pat rest = false := by
  simp only [occursIn, Bool.or_eq_false_iff] at h
  exact h.2

/-- Helper for claim C4: a replace pass for an element whose name is nowhere
preceded by `<` leaves the body unchanged. -/
theorem injectFillGo_id (e color : List Char) :
    ∀ (fuel : Nat) (s : List Char), occursIn ('<' :: e) s = false →
      injectFillGo e color fuel s = s := by
  intro fuel
  induction fuel with
  | zero => intro s _; rfl
  | succ f ih =>
    intro s h
    cases s with
    | nil => rfl
    | cons c rest =>
      have h' := h
      simp only [occursIn, Bool.or_eq_false_iff] at h'
      have hcond : (c = '<' && e.isPrefixOf rest) = false := by
        by_cases hc : c = '<'
        · subst hc
          simpa [List.isPrefixOf] using h'.1
        · simp [hc]
      simp only [injectFillGo, hcond, Bool.false_eq_true, if_false]
      exact congrArg (c :: ·) (ih rest (occursIn_tail h))

/-- Helper for claim C4: all passes together leave a body unchanged when no
listed element name occurs preceded by `<`. -/
theorem foldl_injectFill_id :
    ∀ (elems : List String) (body color : String),
      (∀ e ∈ elems, occursIn ('<' :: e.data) body.data = false) →
      elems.foldl (fun r el => injectFill el color r) body = body := by
  intro elems
  induction elems with
  | nil => intro body color _; rfl
  | cons e es ih =>
    intro body color h
    have hbody : injectFill e color body = body := by
      show (injectFillGo e.data color.data body.data.length body.data).asString = body
      rw [injectFillGo_id e.data color.data body.data.length body.data
        (h e (List.mem_cons_self e es))]
      rfl
    calc (e :: es).foldl (fun r el => injectFill el color r) body
        = es.foldl (fun r el => injectFill el color r) (injectFill e color body) := rfl
      _ = es.foldl (fun r el => injectFill el color r) body := by rw [hbody]
      _ = body := ih body color (fun e' he' => h e' (List.mem_cons_of_mem e he'))

/-- Counterexample to claim C4 as stated: `<linearGradient id="g"/>` contains
no opening tag of any of the seven shape elements, so the claim requires
`applyFillToBody` to leave it unchanged, yet the element-name match of the
injection regex is a bare prefix match and the `line` pass corrupts the tag. -/
theorem C4_counterexample :
    (SVG_SHAPE_ELEMENTS.all
      (fun e => !specHasOpenTag e.data "<linearGradient id=\"g\"/>".data)) = true ∧
    applyFillToBody "<linearGradient id=\"g\"/>" "currentColor" =
      "<line fill=\"currentColor\"arGradient id=\"g\"/>" ∧
    applyFillToBody "<linearGradient id=\"g\"/>" "currentColor" ≠
      "<linearGradient id=\"g\"/>" := by
  refine ⟨by decide, by decide, by decide⟩

/-! ## JavaScript string-replace primitives (used by the code generator) -/

/-- One `String.prototype.replace` with a string pattern: replace the first
(leftmost) occurrence only. -/
def replaceFirstL (pat rep : List Char) : List Char → List Char
  | [] => if pat.isPrefixOf [] then rep else []
  | c :: rest =>
    if pat.isPrefixOf (c :: rest) then rep ++ (c :: rest).drop pat.length
    else c :: replaceFirstL pat rep rest

/-- Global replace (`/.../g` with a literal pattern): leftmost, non-overlapping
occurrences; structural recursion on a fuel bounded by the input length (the
wrapper only calls it with a non-empty pattern). -/
def replaceAllGo (pat rep : List Char) : Nat → List Char → List Char
  | 0, s => s
  | _ + 1, [] => []
  | fuel + 1, c :: rest =>
    if pat.isPrefixOf (c :: rest) then
      rep ++ replaceAllGo pat rep fuel ((c :: rest).drop pat.length)
    else c :: replaceAllGo pat rep fuel rest

/-- String wrapper for the first-occurrence replace. -/
def jsReplaceFirst (s pat rep : String) : String :=
  (replaceFirstL pat.data rep.data s.data).asString

/-- String wrapper for the global replace; all patterns used by the code are
non-empty, and an empty pattern is returned unchanged. -/
def jsReplaceAll (s pat rep : String) : String :=
  if pat.data.isEmpty then s
  else (replaceAllGo pat.data rep.data s.data.length s.data).asString

/-- JavaScript `trimEnd` (strip trailing whitespace). -/
def jsTrimEnd (s : String) : String :=
  (s.data.reverse.dropWhile isSpaceC).reverse.asString

/-- JavaScript `trim` (strip whitespace at both ends). -/
def jsTrim (s : String) : String :=
  ((s.data.dropWhile isSpaceC).reverse.dropWhile isSpaceC).reverse.asString

/-- Scanner for the end of an XML declaration: the regex `<\?xml[^>]*\?>`
matches up to the first `>` after `<?xml` provided it is directly preceded by
`?`; this helper returns the remainder after that `?>`, or `none` when the
first `>` (if any) is not preceded by `?`. -/
def xmlDeclEnd : List Char → Option (List Char)
  | [] => none
  | '?' :: '>' :: r => some r
  | '>' :: _ => none
  | _ :: r => xmlDeclEnd r

/-- Global removal of XML declarations (`svg.replace(/<\?xml[^>]*\?>/g, "")`). -/
def stripXmlGo : Nat → List Char → List Char
  | 0, s => s
  | _ + 1, [] => []
  | fuel + 1, c :: rest =>
    if "<?xml".data.isPrefixOf (c :: rest) then
      match xmlDeclEnd ((c :: rest).drop 5) with
      | some after => stripXmlGo fuel after
      | none => c :: stripXmlGo fuel rest
    else c :: stripXmlGo fuel rest

/-- The `cleanSvg` computation of `generateIconComponent`: strip XML
declarations, then trim. -/
def cleanSvgOf (svg : String) : String :=
  jsTrim (stripXmlGo svg.data.length svg.data).asString

/-! ## ComponentCodeGenerator (the icon-file module) -/

/-- Split a name on `-` and `_` (JavaScript `name.split(/[-_]/)`). -/
def splitDashUnderscore : List Char → List (List Char)
  | [] => [[]]
  | c :: r =>
    if c = '-' || c = '_' then [] :: splitDashUnderscore r
    else
      match splitDashUnderscore r with
      | seg :: segs => (c :: seg) :: segs
      | [] => [[c]]

/-- Capitalize a segment: first character upper-cased, the rest lower-cased. -/
def capSeg : List Char → List Char
  | [] => []
  | c :: r => c.toUpper :: r.map Char.toLower

/-- Split on `:` (JavaScript `iconId.split(":")`). -/
def splitOnColon : List Char → List (List Char)
  | [] => [[]]
  | c :: r =>
    if c = ':' then [] :: splitOnColon r
    else
      match splitOnColon r with
      | seg :: segs => (c :: seg) :: segs
      | [] => [[c]]

/-- Embedding of `iconIdToComponentName`. -/
def iconIdToComponentName (iconId : String) : String :=
  match splitOnColon iconId.data with
  | _ :: nm :: _ =>
    if nm = [] then "Icon"
    else (((splitDashUnderscore nm).map capSeg).flatten).asString ++ "Icon"
  | _ => "Icon"

/-- Embedding of `generateReactComponent`: HTML attribute names are rewritten
to their camelCase equivalents, a `{...props}` spread is put on the first
`<svg`, and the block is preceded by the `// iconId` marker comment. -/
def generateReactComponent (name svg iconId : String) : String :=
  let reactSvg :=
    jsReplaceAll (jsReplaceAll (jsReplaceAll (jsReplaceAll (jsReplaceAll
      (jsReplaceAll svg "class=" "className=")
      "clip-path=" "clipPath=")
      "fill-rule=" "fillRule=")
      "stroke-width=" "strokeWidth=")
      "stroke-linecap=" "strokeLinecap=")
      "stroke-linejoin=" "strokeLinejoin="
  "// " ++ iconId ++ "\nexport const " ++ name ++
    " = (props: React.SVGProps<SVGSVGElement>) => (\n  " ++
    jsReplaceFirst reactSvg "<svg" "<svg \x7b...props\x7d" ++ "\n);"

/-- Embedding of `generateVueComponent`. -/
def generateVueComponent (name svg iconId : String) : String :=
  let escapedSvg :=
    jsReplaceFirst (jsReplaceAll svg "`" "\\`") "<svg" "<svg v-bind=\"$attrs\""
  "// " ++ iconId ++ "\nexport const " ++ name ++ " = \x7b\n  name: \"" ++ name ++
    "\",\n  inheritAttrs: false,\n  template: `" ++ escapedSvg ++ "`,\n\x7d;"

/-- Embedding of `generateSvelteComponent`: the main export is the raw escaped
markup string; a second helper export substitutes a class name into the root
element. -/
def generateSvelteComponent (name svg iconId : String) : String :=
  let escapedSvg := jsReplaceAll svg "`" "\\`"
  "// " ++ iconId ++ "\n// Use with: \x7b@html " ++ name ++ "\x7d or \x7b@html " ++
    name ++ "WithClass(\"my-class\")\x7d\nexport const " ++ name ++ " = `" ++
    escapedSvg ++ "`;\nexport const " ++ name ++
    "WithClass = (className: string) => `" ++
    jsReplaceFirst escapedSvg "<svg" "<svg class=\"$\x7bclassName\x7d\"" ++ "`;"

/-- Embedding of `generateSolidComponent`. -/
def generateSolidComponent (name svg iconId : String) : String :=
  "// " ++ iconId ++ "\nexport const " ++ name ++
    " = (props: JSX.IntrinsicElements[\"svg\"]) => (\n  " ++
    jsReplaceFirst svg "<svg" "<svg \x7b...props\x7d" ++ "\n);"

/-- Embedding of `generateSvgExport`. -/
def generateSvgExport (name svg iconId : String) : String :=
  "// " ++ iconId ++ "\nexport const " ++ name ++ " = `" ++ svg ++ "`;"

/-- Embedding of `generateIconComponent`. -/
def generateIconComponent (componentName svg iconId : String)
    (framework : IconFramework) : String :=
  let cleanSvg := cleanSvgOf svg
  match framework with
  | .react => generateReactComponent componentName cleanSvg iconId
  | .vue => generateVueComponent componentName cleanSvg iconId
  | .svelte => generateSvelteComponent componentName cleanSvg iconId
  | .solid => generateSolidComponent componentName cleanSvg iconId
  | .svg => generateSvgExport componentName cleanSvg iconId

/-- Embedding of `getFileHeader`. -/
def getFileHeader : IconFramework → String
  | .react =>
    "// Auto-generated icons file - managed by better-icons\n// Do not edit manually - use sync_icon to add new icons\n\nimport type React from \"react\";\n\n"
  | .solid =>
    "// Auto-generated icons file - managed by better-icons\n// Do not edit manually - use sync_icon to add new icons\n\nimport type \x7b JSX \x7d from \"solid-js\";\n\n"
  | .vue =>
    "// Auto-generated icons file - managed by better-icons\n// Do not edit manually - use sync_icon to add new icons\n\n"
  | .svelte =>
    "// Auto-generated icons file - managed by better-icons\n// Do not edit manually - use sync_icon to add new icons\n// Usage: \x7b@html IconName\x7d or \x7b@html IconNameWithClass(\"my-class\")\x7d\n\n"
  | .svg =>
    "// Auto-generated icons file - managed by better-icons\n// Do not edit manually - use sync_icon to add new icons\n\n"

/-! ## ManagedFileStore: parsing the managed file (the icon-file module)

The primary pattern is
`/\/\/\s*([\w-]+:[\w\d.-]+)\s*\n\s*(?:\/\/[^\n]*\n\s*)*export\s+(?:const|function)\s+(\w+)/g`.
Its backtracking is deterministic: every greedy run is delimited by a
character outside its class, so the embedding below uses straight
`takeWhile`/`dropWhile` munching. -/

/-- Consume the rest of a comment body and its terminating newline
(`[^\n]*\n`): the remainder after the first newline, or `none` when the input
ends first (in which case the iteration, and with it the whole match at this
start, fails). -/
def consumeLine : List Char → Option (List Char)
  | [] => none
  | c :: r => if c = '\n' then some r else consumeLine r

/-- The trailing part `(?:const|function)` of the export matcher. -/
def constOrFunction (s : List Char) : Option (List Char) :=
  if "const".data.isPrefixOf s then some (s.drop 5)
  else if "function".data.isPrefixOf s then some (s.drop 8)
  else none

/-- The sub-pattern `export\s+(?:const|function)\s+(\w+)`: returns the captured
word and the remainder after it. -/
def matchExportC (s : List Char) : Option (List Char × List Char) :=
  if "export".data.isPrefixOf s then
    let s1 := s.drop 6
    if (s1.takeWhile isSpaceC).isEmpty then none
    else
      match constOrFunction (s1.dropWhile isSpaceC) with
      | none => none
      | some s3 =>
        if (s3.takeWhile isSpaceC).isEmpty then none
        else
          let s4 := s3.dropWhile isSpaceC
          let w := s4.takeWhile isWordC
          if w.isEmpty then none else some (w, s4.dropWhile isWordC)
  else none

/-- The loop `(?:\/\/[^\n]*\n\s*)*` followed by the export sub-pattern: keep
consuming whole comment lines (each must end in a newline) and trailing
whitespace, then match the export.  When a comment line lacks its newline the
whole match fails — backtracking to fewer iterations would leave `export` to
match at `//`, which cannot succeed. -/
def matchCommentsC : Nat → List Char → Option (List Char × List Char)
  | 0, _ => none
  | fuel + 1, s =>
    if "//".data.isPrefixOf s then
      match consumeLine (s.drop 2) with
      | some rest => matchCommentsC fuel (rest.dropWhile isSpaceC)
      | none => none
    else matchExportC s

/-- After `//\s*[\w-]+:` has been consumed (`p` the collection capture), match
the name part and the rest of the pattern: a `[\w\d.-]+` capture, then a
whitespace run that must contain a newline (`\s*\n\s*`), then the comment-line
loop and the export sub-pattern. -/
def matchNameAt (p : List Char) (s4 : List Char) : Option (String × String × List Char) :=
  let n := s4.takeWhile isIdC2
  let s5 := s4.dropWhile isIdC2
  if n.isEmpty then none
  else if (s5.takeWhile isSpaceC).contains '\n' then
    match matchCommentsC s5.length (s5.dropWhile isSpaceC) with
    | some (w, rest) => some ((p ++ ':' :: n).asString, w.asString, rest)
    | none => none
  else none

/-- After the leading `//` has been consumed, match `\s*`, the `[\w-]+`
collection capture and the `:` separator. -/
def matchIdAt (s1 : List Char) : Option (String × String × List Char) :=
  let s2 := s1.dropWhile isSpaceC
  let p := s2.takeWhile isIdC1
  let s3 := s2.dropWhile isIdC1
  if p.isEmpty then none
  else if s3.head? = some ':' then matchNameAt p s3.tail
  else none

/-- Attempt the primary pattern at the current position: `//`, then optional
whitespace, a `[\w-]+` collection part, `:`, a `[\w\d.-]+` name part, then a
whitespace run that must contain a newline (`\s*\n\s*`), then comment lines and
the export.  Returns the captured icon id and component name, and the
remainder after the match. -/
def matchAt (s : List Char) : Option (String × String × List Char) :=
  if "//".data.isPrefixOf s then matchIdAt (s.drop 2) else none

/-- The global scan of the primary pattern: try to match at every position,
emitting captured pairs and resuming after each match, exactly as repeated
`RegExp.exec` does. -/
def scanPairsGo : Nat → List Char → List (String × String)
  | 0, _ => []
  | _ + 1, [] => []
  | fuel + 1, c :: rest =>
    match matchAt (c :: rest) with
    | some (id, nm, after) => (id, nm) :: scanPairsGo fuel after
    | none => scanPairsGo fuel rest

/-- Attempt the secondary (Vue-style) pattern `<!--\s*([\w-]+:[\w\d.-]+)\s*-->`
at the current position.  Because `-` belongs to the name class, the greedy
name munch can swallow the `--` of the closing delimiter; the regex then backs
off by one or two trailing hyphens (longest first), which is reproduced
explicitly. -/
def vueIdAt (s1 : List Char) : Option (String × List Char) :=
  let s2 := s1.dropWhile isSpaceC
  let p := s2.takeWhile isIdC1
  let s3 := s2.dropWhile isIdC1
  if p.isEmpty then none
  else if s3.head? = some ':' then
    let s4 := s3.tail
    let m := s4.takeWhile isIdC2
    let s5 := s4.dropWhile isIdC2
    if m.isEmpty then none
    else if "-->".data.isPrefixOf (s5.dropWhile isSpaceC) then
      some ((p ++ ':' :: m).asString, (s5.dropWhile isSpaceC).drop 3)
    else if m.getLast? = some '-' && "->".data.isPrefixOf s5 && m.length ≥ 2 then
      some ((p ++ ':' :: m.dropLast).asString, s5.drop 2)
    else if m.getLast? = some '-' && m.dropLast.getLast? = some '-' &&
        ">".data.isPrefixOf s5 && m.length ≥ 3 then
      some ((p ++ ':' :: (m.dropLast.dropLast)).asString, s5.drop 1)
    else none
  else none

/-- Attempt the secondary pattern at the current position: `<!--` followed by
the id and the closing `-->`. -/
def vueMatchAt (s : List Char) : Option (String × List Char) :=
  if "<!--".data.isPrefixOf s then vueIdAt (s.drop 4) else none

/-- First match of the export sub-pattern anywhere in the input
(`afterComment.match(...)`). -/
def findExportC : List Char → Option String
  | [] => none
  | c :: rest =>
    match matchExportC (c :: rest) with
    | some (w, _) => some w.asString
    | none => findExportC rest

/-- The global scan of the Vue-style pattern; for each comment match the
source searches for the next export declaration starting from the match
position (`content.slice(match.index)`), then resumes the scan after the
comment. -/
def vueScanGo : Nat → List Char → List (String × String)
  | 0, _ => []
  | _ + 1, [] => []
  | fuel + 1, c :: rest =>
    match vueMatchAt (c :: rest) with
    | some (id, after) =>
      match findExportC (c :: rest) with
      | some nm => (id, nm) :: vueScanGo fuel after
      | none => vueScanGo fuel after
    | none => vueScanGo fuel rest

/-- The primary-pattern global scan, with enough fuel for its input. -/
def scanPairs (s : List Char) : List (String × String) :=
  scanPairsGo s.length s

/-- The Vue-pattern global scan, with enough fuel for its input. -/
def vueScan (s : List Char) : List (String × String) :=
  vueScanGo s.length s

/-- All (iconId, componentName) pairs recorded by `parseExistingIcons`, in
`icons.set` order: first the primary-pattern matches, then the Vue-style
matches.  The JavaScript `Map` keeps the last value set for a key. -/
def parsePairs (content : String) : List (String × String) :=
  scanPairs content.data ++ vueScan content.data

/-- `Map.has` over the parse result. -/
def parseHas (content : String) (iconId : String) : Bool :=
  (parsePairs content).any (fun pr => pr.1 == iconId)

/-- `Map.get` over the parse result (last `set` wins). -/
def parseGet (content : String) (iconId : String) : Option String :=
  (((parsePairs content).filter (fun pr => pr.1 == iconId)).getLast?).map
    (fun pr => pr.2)

/-- `parseExistingIcons` reads the file at a path; a missing file yields the
empty mapping.  The file system is embedded as the optional file content. -/
def parseFilePairs : Option String → List (String × String)
  | none => []
  | some content => parsePairs content

/-- Result record of `addIconToFile`. -/
structure AddResult where
  componentName : String
  alreadyExists : Bool
  existingName : Option String
deriving Repr, DecidableEq

/-- Embedding of `addIconToFile`: parse the existing file; if the icon id is
already present return its recorded component name and leave the file alone;
otherwise derive the component name (a falsy — absent or empty — custom name
falls back to the derived one), generate the code block, take the existing
content or a fresh flavor header, and append the block after exactly one blank
line.  Returns the call result together with the file content after the
call. -/
def addIconToFile (file : Option String) (iconId svg : String)
    (framework : IconFramework) (customName : Option String) :
    AddResult × Option String :=
  let pairs := parseFilePairs file
  match ((pairs.filter (fun pr => pr.1 == iconId)).getLast?) with
  | some pr =>
    ({ componentName := pr.2, alreadyExists := true, existingName := some pr.2 },
      file)
  | none =>
    let componentName :=
      match customName with
      | some nm => if nm = "" then iconIdToComponentName iconId else nm
      | none => iconIdToComponentName iconId
    let componentCode := generateIconComponent componentName svg iconId framework
    let content :=
      match file with
      | some c => c
      | none => getFileHeader framework
    let content' := jsTrimEnd content ++ "\n\n" ++ componentCode ++ "\n"
    ({ componentName := componentName, alreadyExists := false,
        existingName := none }, some content')

/-- A sequence of `addIconToFile` calls against one path, threading the file
content; each call supplies its own icon id, markup, flavor and optional
custom name. -/
def runAdds (file : Option String)
    (ops : List (String × String × IconFramework × Option String)) :
    Option String :=
  ops.foldl (fun f op => (addIconToFile f op.1 op.2.1 op.2.2.1 op.2.2.2).2) file

/-! ## Scanner toolkit: length bounds and fuel discharge -/

/-- Dropping a while-prefix never lengthens a list. -/
theorem dropWhile_length_le {α : Type} (p : α → Bool) :
    ∀ l : List α, (l.dropWhile p).length ≤ l.length := by
  intro l
  induction l with
  | nil => simp
  | cons c rest ih =>
    by_cases h : p c
    · simp [List.dropWhile_cons, h]
      omega
    · simp [List.dropWhile_cons, h]

/-- `consumeLine` strictly shortens its input. -/
theorem consumeLine_length_lt :
    ∀ s r : List Char, consumeLine s = some r → r.length < s.length := by
  intro s
  induction s with
  | nil => intro r h; simp [consumeLine] at h
  | cons c rest ih =>
    intro r h
    by_cases hc : c = '\n'
    · subst hc
      simp [consumeLine] at h
      subst h
      simp
    · rw [show consumeLine (c :: rest) = consumeLine rest by
        simp [consumeLine, hc]] at h
      exact Nat.lt_trans (ih r h) (by simp)

/-- `matchExportC` returns a suffix-like remainder no longer than its input. -/
theorem matchExportC_length_le :
    ∀ s w rest, matchExportC s = some (w, rest) → rest.length ≤ s.length := by
  intro s w rest h
  simp only [matchExportC] at h
  split at h
  · split at h
    · exact absurd h (by simp)
    · split at h
      · exact absurd h (by simp)
      · rename_i s3 hcf
        split at h
        · exact absurd h (by simp)
        · split at h
          · exact absurd h (by simp)
          · simp only [Option.some.injEq, Prod.mk.injEq] at h
            obtain ⟨_, hrest⟩ := h
            subst hrest
            have h1 : (s.drop 6).length ≤ s.length := by
              simp [List.length_drop]
            have h2 : ((s.drop 6).dropWhile isSpaceC).length ≤ (s.drop 6).length :=
              dropWhile_length_le _ _
            have h3 : s3.length ≤ ((s.drop 6).dropWhile isSpaceC).length := by
              simp only [constOrFunction] at hcf
              split at hcf
              · simp only [Option.some.injEq] at hcf
                subst hcf; simp [List.length_drop]
              · split at hcf
                · simp only [Option.some.injEq] at hcf
                  subst hcf; simp [List.length_drop]
                · exact absurd hcf (by simp)
            have h4 : ((s3.dropWhile isSpaceC).dropWhile isWordC).length ≤ s3.length :=
              Nat.le_trans (dropWhile_length_le _ _) (dropWhile_length_le _ _)
            omega
  · exact absurd h (by simp)

/-- `matchCommentsC` returns a remainder no longer than its input. -/
theorem matchCommentsC_length_le :
    ∀ fuel s w rest, matchCommentsC fuel s = some (w, rest) → rest.length ≤ s.length := by
  intro fuel
  induction fuel with
  | zero => intro s w rest h; simp [matchCommentsC] at h
  | succ f ih =>
    intro s w rest h
    simp only [matchCommentsC] at h
    split at h
    · split at h
      · rename_i mid hmid
        have h1 := consumeLine_length_lt (s.drop 2) mid hmid
        have h2 : (mid.dropWhile isSpaceC).length ≤ mid.length :=
          dropWhile_length_le _ _
        have h3 := ih _ _ _ h
        have h4 : (s.drop 2).length ≤ s.length := by simp [List.length_drop]
        omega
      · exact absurd h (by simp)
    · exact matchExportC_length_le s w rest h

/-- A successful primary-pattern match consumes at least one character. -/
theorem matchAt_length_lt :
    ∀ s id nm rest, matchAt s = some (id, nm, rest) → rest.length < s.length := by
  intro s id nm rest h
  simp only [matchAt] at h
  split at h
  · rename_i hpre
    have hs : 2 ≤ s.length := by
      cases s with
      | nil => simp [List.isPrefixOf] at hpre
      | cons a t =>
        cases t with
        | nil => simp [List.isPrefixOf] at hpre
        | cons b u => simp
    simp only [matchIdAt] at h
    split at h
    · exact absurd h (by simp)
    · split at h
      · simp only [matchNameAt] at h
        split at h
        · exact absurd h (by simp)
        · split at h
          · split at h
            · rename_i w mid hmc
              simp only [Option.some.injEq, Prod.mk.injEq] at h
              obtain ⟨_, _, hrest⟩ := h
              subst hrest
              have h0 := matchCommentsC_length_le _ _ _ _ hmc
              have h1 : ((((s.drop 2).dropWhile isSpaceC).dropWhile
                  isIdC1).tail.dropWhile isIdC2).length ≤ s.length - 2 := by
                have a1 : ((s.drop 2).dropWhile isSpaceC).length ≤ s.length - 2 := by
                  have := dropWhile_length_le isSpaceC (s.drop 2)
                  simp [List.length_drop] at this
                  omega
                have a2 := dropWhile_length_le isIdC1 ((s.drop 2).dropWhile isSpaceC)
                have a3 : ((((s.drop 2).dropWhile isSpaceC).dropWhile
                    isIdC1).tail).length ≤
                    ((((s.drop 2).dropWhile isSpaceC).dropWhile isIdC1)).length := by
                  cases (((s.drop 2).dropWhile isSpaceC).dropWhile isIdC1) with
                  | nil => simp
                  | cons a t => simp
                have a4 := dropWhile_length_le isIdC2
                  ((((s.drop 2).dropWhile isSpaceC).dropWhile isIdC1).tail)
                omega
              have h2 := dropWhile_length_le isSpaceC
                ((((s.drop 2).dropWhile isSpaceC).dropWhile isIdC1).tail.dropWhile isIdC2)
              omega
            · exact absurd h (by simp)
          · exact absurd h (by simp)
      · exact absurd h (by simp)
  · exact absurd h (by simp)

/-- The scan is fuel-irrelevant once the fuel covers the input length. -/
theorem scanPairsGo_fuel :
    ∀ fuel₁ fuel₂ s, s.length ≤ fuel₁ → s.length ≤ fuel₂ →
      scanPairsGo fuel₁ s = scanPairsGo fuel₂ s := by
  intro fuel₁
  induction fuel₁ with
  | zero =>
    intro fuel₂ s h1 _
    have : s = [] := List.length_eq_zero.mp (Nat.le_zero.mp h1)
    subst this
    cases fuel₂ <;> rfl
  | succ f ih =>
    intro fuel₂ s h1 h2
    cases s with
    | nil => cases fuel₂ <;> rfl
    | cons c rest =>
      cases fuel₂ with
      | zero => simp at h2
      | succ f₂ =>
        cases hm : matchAt (c :: rest) with
        | none =>
          simp only [scanPairsGo, hm]
          exact ih f₂ rest (by simp at h1; omega) (by simp at h2; omega)
        | some triple =>
          obtain ⟨id, nm, after⟩ := triple
          have hlt := matchAt_length_lt _ _ _ _ hm
          simp only [List.length_cons] at hlt h1 h2
          simp only [scanPairsGo, hm]
          rw [ih f₂ after (by omega) (by omega)]

/-- Scan equation: the empty input yields no pairs. -/
theorem scanPairs_nil : scanPairs [] = [] := rfl

/-- Scan equation: a failing position is skipped. -/
theorem scanPairs_cons_none {c : Char} {rest : List Char}
    (h : matchAt (c :: rest) = none) :
    scanPairs (c :: rest) = scanPairs rest := by
  simp only [scanPairs, List.length_cons, scanPairsGo, h]

/-- Scan equation: a successful match emits its pair and resumes after it. -/
theorem scanPairs_cons_some {c : Char} {rest : List Char} {id nm : String}
    {after : List Char} (h : matchAt (c :: rest) = some (id, nm, after)) :
    scanPairs (c :: rest) = (id, nm) :: scanPairs after := by
  have hlt := matchAt_length_lt _ _ _ _ h
  simp only [List.length_cons] at hlt
  simp only [scanPairs, List.length_cons, scanPairsGo, h]
  rw [scanPairsGo_fuel rest.length after.length after (by omega) (by omega)]

/-- All positions of the prefix `a` fail to start a primary-pattern match when
followed by `b`. -/
def NoMatchIn (a b : List Char) : Prop :=
  ∀ i, i < a.length → matchAt (a.drop i ++ b) = none

/-- `NoMatchIn` composes over concatenation. -/
theorem NoMatchIn.append {a a' b : List Char}
    (h1 : NoMatchIn a (a' ++ b)) (h2 : NoMatchIn a' b) :
    NoMatchIn (a ++ a') b := by
  intro i hi
  by_cases hcase : i < a.length
  · have : (a ++ a').drop i ++ b = a.drop i ++ (a' ++ b) := by
      rw [List.drop_append_of_le_length (Nat.le_of_lt hcase)]
      simp
    rw [this]
    exact h1 i hcase
  · have hge : a.length ≤ i := Nat.le_of_not_lt hcase
    have : (a ++ a').drop i ++ b = a'.drop (i - a.length) ++ b := by
      rw [List.drop_append_eq_append_drop]
      have : a.drop i = [] := List.drop_eq_nil_of_le (by omega)
      simp [this]
    rw [this]
    refine h2 (i - a.length) ?_
    simp only [List.length_append] at hi
    omega

/-- Skipping a prefix in which no match can start. -/
theorem scanPairs_skip {a b : List Char} (h : NoMatchIn a b) :
    scanPairs (a ++ b) = scanPairs b := by
  induction a with
  | nil => simp
  | cons c a' ih =>
    have h0 : matchAt (c :: (a' ++ b)) = none := h 0 (by simp)
    rw [List.cons_append, scanPairs_cons_none h0]
    exact ih (fun i hi => h (i + 1) (by simp; omega))

/-! ## Occurrence toolkit -/

/-- Positions characterization of `occursIn`. -/
theorem occursIn_eq_false_iff (pat : List Char) :
    ∀ s : List Char, occursIn pat s = false ↔
      ∀ i, pat.isPrefixOf (s.drop i) = false := by
  intro s
  induction s with
  | nil =>
    simp only [occursIn, List.drop_nil]
    constructor
    · intro h i; exact h
    · intro h; exact h 0
  | cons c rest ih =>
    simp only [occursIn, Bool.or_eq_false_iff]
    constructor
    · rintro ⟨h0, hrest⟩ i
      cases i with
      | zero => exact h0
      | succ j => exact (ih.mp hrest) j
    · intro h
      exact ⟨h 0, ih.mpr (fun j => h (j + 1))⟩

/-- A pattern that is a prefix of a list is a prefix of any extension. -/
theorem isPrefixOf_append_of_isPrefixOf {pat a : List Char} (b : List Char)
    (h : pat.isPrefixOf a = true) : pat.isPrefixOf (a ++ b) = true :=
  List.isPrefixOf_iff_prefix.mpr
    ((List.isPrefixOf_iff_prefix.mp h).trans (List.prefix_append a b))

/-- Absence of a pattern in a concatenation gives absence in the left part. -/
theorem occursIn_append_left_false {pat a b : List Char}
    (h : occursIn pat (a ++ b) = false) : occursIn pat a = false := by
  rw [occursIn_eq_false_iff] at h ⊢
  intro i
  by_cases hi : i ≤ a.length
  · have hdrop : (a ++ b).drop i = a.drop i ++ b :=
      List.drop_append_of_le_length hi
    cases hp : pat.isPrefixOf (a.drop i) with
    | false => rfl
    | true =>
      have h2 := isPrefixOf_append_of_isPrefixOf b hp
      rw [← hdrop] at h2
      rw [h i] at h2
      exact absurd h2 (by simp)
  · have : a.drop i = [] := List.drop_eq_nil_of_le (by omega)
    rw [this]
    have h2 := h (a.length + b.length)
    rw [List.drop_eq_nil_of_le (by simp)] at h2
    exact h2

/-- Absence of a pattern in a concatenation gives absence in the right part. -/
theorem occursIn_append_right_false {pat a b : List Char}
    (h : occursIn pat (a ++ b) = false) : occursIn pat b = false := by
  rw [occursIn_eq_false_iff] at h ⊢
  intro i
  have := h (a.length + i)
  rwa [List.drop_append_eq_append_drop, List.drop_eq_nil_of_le (by omega),
    List.nil_append, Nat.add_sub_cancel_left] at this

/-- Two-character patterns: absence in both parts plus a clean seam gives
absence in the concatenation. -/
theorem occursIn_two_append {x y : Char} :
    ∀ {a b : List Char}, occursIn [x, y] a = false → occursIn [x, y] b = false →
      ¬(a.getLast? = some x ∧ b.head? = some y) →
      occursIn [x, y] (a ++ b) = false := by
  intro a
  induction a with
  | nil => intro b _ hb _; simpa using hb
  | cons c a' ih =>
    intro b ha hb hseam
    simp only [occursIn, Bool.or_eq_false_iff] at ha
    obtain ⟨ha0, ha'⟩ := ha
    simp only [List.cons_append, occursIn, Bool.or_eq_false_iff]
    constructor
    · cases a'h : a' with
      | cons d a'' =>
        subst a'h
        have h0 := ha0
        simp only [List.isPrefixOf] at h0 ⊢
        simpa using h0
      | nil =>
        subst a'h
        cases hby : b.head? with
        | none =>
          have : b = [] := by cases b <;> simp_all
          subst this
          simp [List.isPrefixOf]
        | some d =>
          obtain ⟨b', rfl⟩ : ∃ b', b = d :: b' := by
            cases b <;> simp_all
          by_cases hcx : c = x
          · subst hcx
            have hdy : d ≠ y := by
              intro hdy
              exact hseam ⟨rfl, by rw [hby, hdy]⟩
            simp [List.isPrefixOf, Ne.symm hdy]
          · simp only [List.isPrefixOf]
            simp only [Bool.and_eq_false_iff]
            left
            simp only [beq_eq_false_iff_ne, ne_eq]
            exact fun hxc => hcx hxc.symm
    · refine ih ha' hb ?_
      rintro ⟨hlast, hhead⟩
      refine hseam ⟨?_, hhead⟩
      cases a' with
      | nil => simp at hlast
      | cons d a'' => simpa [List.getLast?_cons_cons] using hlast

/-- A two-character pattern whose first character is absent never occurs. -/
theorem occursIn_two_false_of_not_mem {x y : Char} :
    ∀ {a : List Char}, x ∉ a → occursIn [x, y] a = false := by
  intro a
  induction a with
  | nil => intro _; simp [occursIn, List.isPrefixOf]
  | cons c a' ih =>
    intro h
    simp only [occursIn, Bool.or_eq_false_iff]
    refine ⟨?_, ih (fun hx => h (List.mem_cons_of_mem c hx))⟩
    have hcx : c ≠ x := fun hc => h (hc ▸ List.mem_cons_self c a')
    have hxc : x ≠ c := fun hx => hcx hx.symm
    simp [List.isPrefixOf, hxc]

/-- A primary-pattern match can only start at `//`. -/
theorem matchAt_none_of_not_slashes {s : List Char}
    (h : "//".data.isPrefixOf s = false) : matchAt s = none := by
  simp [matchAt, h]

/-- In a segment free of `//` (and with no `//` straddling the seam), no
primary-pattern match can start. -/
theorem noSS_NoMatch :
    ∀ (a b : List Char), occursIn ['/', '/'] a = false →
      (a.getLast? = some '/' → b.head? ≠ some '/') → NoMatchIn a b := by
  intro a
  induction a with
  | nil => intro b _ _ i hi; simp at hi
  | cons c a' ih =>
    intro b ha hseam i hi
    simp only [occursIn, Bool.or_eq_false_iff] at ha
    obtain ⟨ha0, ha'⟩ := ha
    cases i with
    | zero =>
      simp only [List.drop_zero, List.cons_append]
      refine matchAt_none_of_not_slashes ?_
      show ['/', '/'].isPrefixOf (c :: (a' ++ b)) = false
      cases a'h : a' with
      | cons d a'' =>
        subst a'h
        have h0 := ha0
        simp only [List.isPrefixOf] at h0 ⊢
        simpa using h0
      | nil =>
        subst a'h
        by_cases hc : c = '/'
        · subst hc
          have hb : b.head? ≠ some '/' := hseam rfl
          cases b with
          | nil => simp [List.isPrefixOf]
          | cons d b' =>
            have hd : d ≠ '/' := by
              intro hd
              exact hb (by simp [hd])
            simp only [List.nil_append, List.isPrefixOf]
            simp [Ne.symm hd]
        · simp [List.isPrefixOf, Ne.symm hc]
    | succ j =>
      simp only [List.drop_succ_cons]
      refine ih b ha' ?_ j (by simpa using hi)
      intro hlast
      refine hseam ?_
      cases a' with
      | nil => simp at hlast
      | cons d a'' => simpa [List.getLast?_cons_cons] using hlast

/-! ## Computing greedy munches across concatenations -/

/-- A while-drop whose result on the concrete left part is non-empty ignores
the abstract right part. -/
theorem dropWhile_append_left {q : Char → Bool} {x y : List Char} (r : List Char)
    (h : x.dropWhile q = y) (hne : y.isEmpty = false) :
    (x ++ r).dropWhile q = y ++ r := by
  rw [List.dropWhile_append, h, hne]
  simp

/-- A while-take that stops inside the concrete left part ignores the abstract
right part. -/
theorem takeWhile_append_left {q : Char → Bool} {x : List Char} (r : List Char)
    (h : (x.takeWhile q).length ≠ x.length) :
    (x ++ r).takeWhile q = x.takeWhile q := by
  rw [List.takeWhile_append, if_neg h]

/-- A while-take over a run entirely inside the class, stopped by an explicit
out-of-class character. -/
theorem takeWhile_all_append {q : Char → Bool} :
    ∀ {p : List Char} {d : Char} (r : List Char),
      (∀ c ∈ p, q c = true) → q d = false →
      (p ++ d :: r).takeWhile q = p := by
  intro p
  induction p with
  | nil => intro d r _ hd; simp [List.takeWhile_cons, hd]
  | cons c p' ih =>
    intro d r hall hd
    have hc : q c = true := hall c (List.mem_cons_self c p')
    simp only [List.cons_append, List.takeWhile_cons, hc, if_true]
    rw [ih r (fun e he => hall e (List.mem_cons_of_mem c he)) hd]

/-- The while-drop counterpart of `takeWhile_all_append`. -/
theorem dropWhile_all_append {q : Char → Bool} :
    ∀ {p : List Char} {d : Char} (r : List Char),
      (∀ c ∈ p, q c = true) → q d = false →
      (p ++ d :: r).dropWhile q = d :: r := by
  intro p
  induction p with
  | nil => intro d r _ hd; simp [List.dropWhile_cons, hd]
  | cons c p' ih =>
    intro d r hall hd
    have hc : q c = true := hall c (List.mem_cons_self c p')
    simp only [List.cons_append, List.dropWhile_cons, hc, if_true]
    exact ih r (fun e he => hall e (List.mem_cons_of_mem c he)) hd

/-- Unfolding a match attempt at an explicit `//`. -/
theorem matchAt_cons2 (rest : List Char) :
    matchAt ('/' :: '/' :: rest) = matchIdAt rest := by
  simp [matchAt, List.isPrefixOf]

/-- No match can start at the first header comment line: the word munch after
`// ` stops at a blank, not at a `:`. -/
theorem matchAt_hdrline1 (tail : List Char) :
    matchAt ('/' :: '/' :: (" Auto-generated ".data ++ tail)) = none := by
  rw [matchAt_cons2]
  simp only [matchIdAt]
  rw [dropWhile_append_left tail
    (show (" Auto-generated ".data : List Char).dropWhile isSpaceC =
      "Auto-generated ".data by decide) (by decide)]
  rw [takeWhile_append_left tail
    (show (("Auto-generated ".data : List Char).takeWhile isIdC1).length ≠
      ("Auto-generated ".data : List Char).length by decide)]
  rw [dropWhile_append_left tail
    (show ("Auto-generated ".data : List Char).dropWhile isIdC1 = " ".data by decide)
    (by decide)]
  simp only [List.cons_append]
  rw [if_neg (by decide)]
  rw [if_neg (by simp)]

/-- No match can start at the second header comment line. -/
theorem matchAt_hdrline2 (tail : List Char) :
    matchAt ('/' :: '/' :: (" Do ".data ++ tail)) = none := by
  rw [matchAt_cons2]
  simp only [matchIdAt]
  rw [dropWhile_append_left tail
    (show (" Do ".data : List Char).dropWhile isSpaceC = "Do ".data by decide)
    (by decide)]
  rw [takeWhile_append_left tail
    (show (("Do ".data : List Char).takeWhile isIdC1).length ≠
      ("Do ".data : List Char).length by decide)]
  rw [dropWhile_append_left tail
    (show ("Do ".data : List Char).dropWhile isIdC1 = " ".data by decide)
    (by decide)]
  simp only [List.cons_append]
  rw [if_neg (by decide)]
  rw [if_neg (by simp)]

/-- No match can start at the svelte usage comment line: the `Usage:` token
reaches the colon, but the following blank cannot start the name class. -/
theorem matchAt_hdrline3 (tail : List Char) :
    matchAt ('/' :: '/' :: (" Usage: ".data ++ tail)) = none := by
  rw [matchAt_cons2]
  simp only [matchIdAt]
  rw [dropWhile_append_left tail
    (show (" Usage: ".data : List Char).dropWhile isSpaceC = "Usage: ".data by decide)
    (by decide)]
  rw [takeWhile_append_left tail
    (show (("Usage: ".data : List Char).takeWhile isIdC1).length ≠
      ("Usage: ".data : List Char).length by decide)]
  rw [dropWhile_append_left tail
    (show ("Usage: ".data : List Char).dropWhile isIdC1 = ": ".data by decide)
    (by decide)]
  simp only [List.cons_append]
  rw [if_neg (by decide)]
  rw [if_pos (by simp)]
  simp only [List.tail_cons, matchNameAt]
  rw [show (' ' :: ([] ++ tail)).takeWhile isIdC2 = ([] : List Char) from by
    rw [List.takeWhile_cons, if_neg (by decide)]]
  simp

/-- A `//` comment segment whose decision point lies inside its own text
admits no match at any of its positions. -/
theorem seg2_NoMatch (L : List Char) (b : List Char)
    (hL : ∀ tail, matchAt ('/' :: '/' :: (L ++ tail)) = none)
    (hmem : '/' ∉ L) (hne : L ≠ []) :
    NoMatchIn ('/' :: '/' :: L) b := by
  intro i hi
  match i with
  | 0 =>
    simp only [List.drop_zero, List.cons_append]
    exact hL b
  | 1 =>
    simp only [List.drop_succ_cons, List.drop_zero, List.cons_append]
    refine matchAt_none_of_not_slashes ?_
    cases L with
    | nil => exact absurd rfl hne
    | cons d L' =>
      have hd : d ≠ '/' := fun h => hmem (h ▸ List.mem_cons_self d L')
      simp only [List.cons_append, List.isPrefixOf]
      simp [Ne.symm hd]
  | j + 2 =>
    simp only [List.drop_succ_cons]
    refine noSS_NoMatch L b (occursIn_two_false_of_not_mem hmem) ?_ j (by
      simp only [List.length_cons] at hi
      omega)
    intro hlast
    exact absurd (List.mem_of_mem_getLast? (by simp [hlast])) hmem

/-- No primary-pattern match can start anywhere inside a trimmed flavor
header, whatever follows it. -/
theorem header_NoMatch (fw : IconFramework) (b : List Char) :
    NoMatchIn (jsTrimEnd (getFileHeader fw)).data b := by
  cases fw with
  | react =>
    have hdecomp : (jsTrimEnd (getFileHeader .react)).data =
        ('/' :: '/' :: " Auto-generated ".data) ++
          (("icons file - managed by better-icons\n".data) ++
            (('/' :: '/' :: " Do ".data) ++
              "not edit manually - use sync_icon to add new icons\n\nimport type React from \"react\";".data)) := by
      decide
    rw [hdecomp]
    exact NoMatchIn.append (seg2_NoMatch _ _ matchAt_hdrline1 (by decide) (by decide))
      (NoMatchIn.append
        (noSS_NoMatch _ _ (by decide) (fun h => absurd h (by decide)))
        (NoMatchIn.append (seg2_NoMatch _ _ matchAt_hdrline2 (by decide) (by decide))
          (noSS_NoMatch _ _ (by decide) (fun h => absurd h (by decide)))))
  | solid =>
    have hdecomp : (jsTrimEnd (getFileHeader .solid)).data =
        ('/' :: '/' :: " Auto-generated ".data) ++
          (("icons file - managed by better-icons\n".data) ++
            (('/' :: '/' :: " Do ".data) ++
              "not edit manually - use sync_icon to add new icons\n\nimport type \x7b JSX \x7d from \"solid-js\";".data)) := by
      decide
    rw [hdecomp]
    exact NoMatchIn.append (seg2_NoMatch _ _ matchAt_hdrline1 (by decide) (by decide))
      (NoMatchIn.append
        (noSS_NoMatch _ _ (by decide) (fun h => absurd h (by decide)))
        (NoMatchIn.append (seg2_NoMatch _ _ matchAt_hdrline2 (by decide) (by decide))
          (noSS_NoMatch _ _ (by decide) (fun h => absurd h (by decide)))))
  | vue =>
    have hdecomp : (jsTrimEnd (getFileHeader .vue)).data =
        ('/' :: '/' :: " Auto-generated ".data) ++
          (("icons file - managed by better-icons\n".data) ++
            (('/' :: '/' :: " Do ".data) ++
              "not edit manually - use sync_icon to add new icons".data)) := by
      decide
    rw [hdecomp]
    exact NoMatchIn.append (seg2_NoMatch _ _ matchAt_hdrline1 (by decide) (by decide))
      (NoMatchIn.append
        (noSS_NoMatch _ _ (by decide) (fun h => absurd h (by decide)))
        (NoMatchIn.append (seg2_NoMatch _ _ matchAt_hdrline2 (by decide) (by decide))
          (noSS_NoMatch _ _ (by decide) (fun h => absurd h (by decide)))))
  | svg =>
    have hdecomp : (jsTrimEnd (getFileHeader .svg)).data =
        ('/' :: '/' :: " Auto-generated ".data) ++
          (("icons file - managed by better-icons\n".data) ++
            (('/' :: '/' :: " Do ".data) ++
              "not edit manually - use sync_icon to add new icons".data)) := by
      decide
    rw [hdecomp]
    exact NoMatchIn.append (seg2_NoMatch _ _ matchAt_hdrline1 (by decide) (by decide))
      (NoMatchIn.append
        (noSS_NoMatch _ _ (by decide) (fun h => absurd h (by decide)))
        (NoMatchIn.append (seg2_NoMatch _ _ matchAt_hdrline2 (by decide) (by decide))
          (noSS_NoMatch _ _ (by decide) (fun h => absurd h (by decide)))))
  | svelte =>
    have hdecomp : (jsTrimEnd (getFileHeader .svelte)).data =
        ('/' :: '/' :: " Auto-generated ".data) ++
          (("icons file - managed by better-icons\n".data) ++
            (('/' :: '/' :: " Do ".data) ++
              (("not edit manually - use sync_icon to add new icons\n".data) ++
                (('/' :: '/' :: " Usage: ".data) ++
                  "\x7b@html IconName\x7d or \x7b@html IconNameWithClass(\"my-class\")\x7d".data)))) := by
      decide
    rw [hdecomp]
    exact NoMatchIn.append (seg2_NoMatch _ _ matchAt_hdrline1 (by decide) (by decide))
      (NoMatchIn.append
        (noSS_NoMatch _ _ (by decide) (fun h => absurd h (by decide)))
        (NoMatchIn.append (seg2_NoMatch _ _ matchAt_hdrline2 (by decide) (by decide))
          (NoMatchIn.append
            (noSS_NoMatch _ _ (by decide) (fun h => absurd h (by decide)))
            (NoMatchIn.append (seg2_NoMatch _ _ matchAt_hdrline3 (by decide) (by decide))
              (noSS_NoMatch _ _ (by decide) (fun h => absurd h (by decide)))))))

/-! ## Matching a generated block head -/

/-- Space characters are outside every identifier class. -/
theorem isSpaceC_false_of_isIdC1 {c : Char} (h : isIdC1 c = true) :
    isSpaceC c = false := by
  cases hs : isSpaceC c with
  | false => rfl
  | true =>
    have hs' : c = ' ' ∨ c = '\t' ∨ c = '\n' ∨ c = '\r' ∨ c = '\x0b' ∨ c = '\x0c' := by
      simpa [isSpaceC, or_assoc] using hs
    rcases hs' with h1 | h1 | h1 | h1 | h1 | h1 <;> subst h1 <;> simp [isIdC1, isWordC] at h

/-- Space characters are outside the name class. -/
theorem isSpaceC_false_of_isIdC2 {c : Char} (h : isIdC2 c = true) :
    isSpaceC c = false := by
  cases hs : isSpaceC c with
  | false => rfl
  | true =>
    have hs' : c = ' ' ∨ c = '\t' ∨ c = '\n' ∨ c = '\r' ∨ c = '\x0b' ∨ c = '\x0c' := by
      simpa [isSpaceC, or_assoc] using hs
    rcases hs' with h1 | h1 | h1 | h1 | h1 | h1 <;> subst h1 <;> simp [isIdC2, isWordC] at h

/-- Space characters are outside the word class. -/
theorem isSpaceC_false_of_isWordC {c : Char} (h : isWordC c = true) :
    isSpaceC c = false := by
  cases hs : isSpaceC c with
  | false => rfl
  | true =>
    have hs' : c = ' ' ∨ c = '\t' ∨ c = '\n' ∨ c = '\r' ∨ c = '\x0b' ∨ c = '\x0c' := by
      simpa [isSpaceC, or_assoc] using hs
    rcases hs' with h1 | h1 | h1 | h1 | h1 | h1 <;> subst h1 <;> simp [isWordC] at h

/-- A while-drop is the identity when the head is outside the class. -/
theorem dropWhile_eq_self_of_head {q : Char → Bool} {l : List Char} {c : Char}
    (hhead : l.head? = some c) (hc : q c = false) : l.dropWhile q = l := by
  cases l with
  | nil => rfl
  | cons d rest =>
    simp only [List.head?_cons, Option.some.injEq] at hhead
    subst hhead
    simp [List.dropWhile_cons, hc]

/-- The head of an append with a non-empty left part. -/
theorem head?_append_left {l r : List Char} (h : l ≠ []) :
    (l ++ r).head? = l.head? := by
  cases l with
  | nil => exact absurd rfl h
  | cons c rest => rfl

/-- `consumeLine` runs through a newline-free block to the first newline. -/
theorem consumeLine_through :
    ∀ (A B : List Char), (∀ c ∈ A, c ≠ '\n') →
      consumeLine (A ++ '\n' :: B) = some B := by
  intro A
  induction A with
  | nil => intro B _; simp [consumeLine]
  | cons c A' ih =>
    intro B h
    have hc : c ≠ '\n' := h c (List.mem_cons_self c A')
    simp only [List.cons_append]
    rw [show consumeLine (c :: (A' ++ '\n' :: B)) = consumeLine (A' ++ '\n' :: B) by
      simp [consumeLine, hc]]
    exact ih B (fun e he => h e (List.mem_cons_of_mem c he))


/-- The export sub-pattern consumes `export const ` and captures a word-class
name terminated by an out-of-class character. -/
theorem matchExportC_block (name : List Char) (hd : Char) (X : List Char)
    (hname : name ≠ []) (hnamec : ∀ c ∈ name, isWordC c = true)
    (hhd : isWordC hd = false) :
    matchExportC ("export const ".data ++ (name ++ hd :: X)) =
      some (name, hd :: X) := by
  have hpre : "export".data.isPrefixOf
      ("export const ".data ++ (name ++ hd :: X)) = true :=
    isPrefixOf_append_of_isPrefixOf _ (by decide)
  simp only [matchExportC, hpre, if_true]
  have hdrop : ("export const ".data ++ (name ++ hd :: X)).drop 6 =
      ' ' :: ("const ".data ++ (name ++ hd :: X)) := by
    rw [List.drop_append_of_le_length (by decide)]
    rfl
  rw [hdrop]
  obtain ⟨c₀, rest₀, hN⟩ : ∃ c₀ rest₀, name = c₀ :: rest₀ := by
    cases name with
    | nil => exact absurd rfl hname
    | cons a b => exact ⟨a, b, rfl⟩
  have hc₀ : isWordC c₀ = true := hnamec c₀ (by rw [hN]; exact List.mem_cons_self _ _)
  have hsp : isSpaceC c₀ = false := isSpaceC_false_of_isWordC hc₀
  have htw1 : ((' ' :: ("const ".data ++ (name ++ hd :: X))).takeWhile
      isSpaceC).isEmpty = false := by
    rw [List.takeWhile_cons, if_pos (by decide)]
    rfl
  rw [htw1]
  simp only [Bool.false_eq_true, if_false]
  have hdw1 : (' ' :: ("const ".data ++ (name ++ hd :: X))).dropWhile isSpaceC =
      "const ".data ++ (name ++ hd :: X) := by
    rw [List.dropWhile_cons, if_pos (by decide)]
    exact dropWhile_eq_self_of_head (by rw [show ("const ".data : List Char) ++
      (name ++ hd :: X) = 'c' :: ("onst ".data ++ (name ++ hd :: X)) from rfl]; rfl)
      (by decide)
  rw [hdw1]
  have hcf : constOrFunction ("const ".data ++ (name ++ hd :: X)) =
      some (' ' :: (name ++ hd :: X)) := by
    have hpre2 : "const".data.isPrefixOf ("const ".data ++ (name ++ hd :: X)) = true :=
      isPrefixOf_append_of_isPrefixOf _ (by decide)
    simp only [constOrFunction, hpre2, if_true]
    rw [List.drop_append_of_le_length (by decide)]
    rfl
  rw [hcf]
  show (if ((' ' :: (name ++ hd :: X)).takeWhile isSpaceC).isEmpty = true then none
    else
      if (((' ' :: (name ++ hd :: X)).dropWhile isSpaceC).takeWhile
          isWordC).isEmpty = true then none
      else
        some ((((' ' :: (name ++ hd :: X)).dropWhile isSpaceC).takeWhile isWordC),
          (((' ' :: (name ++ hd :: X)).dropWhile isSpaceC).dropWhile isWordC))) =
    some (name, hd :: X)
  have htw2 : ((' ' :: (name ++ hd :: X)).takeWhile isSpaceC).isEmpty = false := by
    rw [List.takeWhile_cons, if_pos (by decide)]
    rfl
  rw [htw2]
  simp only [Bool.false_eq_true, if_false]
  have hdw2 : (' ' :: (name ++ hd :: X)).dropWhile isSpaceC = name ++ hd :: X := by
    rw [List.dropWhile_cons, if_pos (by decide)]
    refine dropWhile_eq_self_of_head (c := c₀) ?_ hsp
    rw [hN]
    rfl
  rw [hdw2]
  rw [takeWhile_all_append X hnamec hhd, dropWhile_all_append X hnamec hhd]
  rw [if_neg (by simp [hname])]

/-- One comment-line iteration of the comment loop. -/
theorem matchCommentsC_step (fuel : Nat) (s rest : List Char)
    (hpre : "//".data.isPrefixOf s = true)
    (hcl : consumeLine (s.drop 2) = some rest) :
    matchCommentsC (fuel + 1) s = matchCommentsC fuel (rest.dropWhile isSpaceC) := by
  simp only [matchCommentsC, hpre, if_true, hcl]

/-- Exiting the comment loop at a non-comment position. -/
theorem matchCommentsC_exit (fuel : Nat) (s : List Char)
    (hpre : "//".data.isPrefixOf s = false) :
    matchCommentsC (fuel + 1) s = matchExportC s := by
  simp only [matchCommentsC, hpre, Bool.false_eq_true, if_false]

/-- A primary-pattern match at the head of a directly-exporting generated
block (react, vue, solid, svg flavors) captures exactly the icon id and the
component name and stops right after the name. -/
theorem matchAt_block_direct
    (p n name R : List Char)
    (hp : p ≠ []) (hpc : ∀ c ∈ p, isIdC1 c = true)
    (hn : n ≠ []) (hnc : ∀ c ∈ n, isIdC2 c = true)
    (hname : name ≠ []) (hnamec : ∀ c ∈ name, isWordC c = true) :
    matchAt ('/' :: '/' :: ' ' :: (p ++ ':' :: (n ++ '\n' ::
        ("export const ".data ++ (name ++ ' ' :: R))))) =
      some ((p ++ ':' :: n).asString, name.asString, ' ' :: R) := by
  obtain ⟨c₀, p₀, hP⟩ : ∃ c₀ p₀, p = c₀ :: p₀ := by
    cases p with
    | nil => exact absurd rfl hp
    | cons a b => exact ⟨a, b, rfl⟩
  have hc₀ : isIdC1 c₀ = true := hpc c₀ (by rw [hP]; exact List.mem_cons_self _ _)
  have hsp₀ : isSpaceC c₀ = false := isSpaceC_false_of_isIdC1 hc₀
  rw [matchAt_cons2]
  simp only [matchIdAt]
  have hdw : (' ' :: (p ++ ':' :: (n ++ '\n' ::
      ("export const ".data ++ (name ++ ' ' :: R))))).dropWhile isSpaceC =
      p ++ ':' :: (n ++ '\n' :: ("export const ".data ++ (name ++ ' ' :: R))) := by
    rw [List.dropWhile_cons, if_pos (by decide)]
    refine dropWhile_eq_self_of_head (c := c₀) ?_ hsp₀
    rw [hP]
    rfl
  rw [hdw]
  rw [takeWhile_all_append _ hpc (by decide), dropWhile_all_append _ hpc (by decide)]
  rw [if_neg (by simp [hp])]
  rw [if_pos (by simp)]
  simp only [List.tail_cons]
  simp only [matchNameAt]
  rw [takeWhile_all_append _ hnc (by decide), dropWhile_all_append _ hnc (by decide)]
  rw [if_neg (by simp [hn])]
  have htw : ('\n' :: ("export const ".data ++ (name ++ ' ' :: R))).takeWhile
      isSpaceC = ['\n'] := by
    rw [List.takeWhile_cons, if_pos (by decide)]
    rw [show ("export const ".data : List Char) ++ (name ++ ' ' :: R) =
      'e' :: ("xport const ".data ++ (name ++ ' ' :: R)) from rfl]
    rw [List.takeWhile_cons, if_neg (by decide)]
  rw [htw]
  rw [if_pos (by decide)]
  have hdwn : ('\n' :: ("export const ".data ++ (name ++ ' ' :: R))).dropWhile
      isSpaceC = "export const ".data ++ (name ++ ' ' :: R) := by
    rw [List.dropWhile_cons, if_pos (by decide)]
    refine dropWhile_eq_self_of_head (c := 'e') ?_ (by decide)
    rfl
  rw [hdwn]
  rw [show ('\n' :: ("export const ".data ++ (name ++ ' ' :: R))).length =
    ("export const ".data ++ (name ++ ' ' :: R)).length + 1 from rfl]
  simp only [matchCommentsC]
  rw [show ("//".data : List Char).isPrefixOf
    ("export const ".data ++ (name ++ ' ' :: R)) = false from by
      rw [show ("export const ".data : List Char) ++ (name ++ ' ' :: R) =
        'e' :: ("xport const ".data ++ (name ++ ' ' :: R)) from rfl]
      simp [List.isPrefixOf]]
  simp only [Bool.false_eq_true, if_false]
  rw [matchExportC_block name ' ' R hname hnamec (by decide)]

/-- A primary-pattern match at the head of a generated svelte block: the
usage comment line is consumed by the comment loop before the export. -/
theorem matchAt_block_svelte
    (p n name R : List Char)
    (hp : p ≠ []) (hpc : ∀ c ∈ p, isIdC1 c = true)
    (hn : n ≠ []) (hnc : ∀ c ∈ n, isIdC2 c = true)
    (hname : name ≠ []) (hnamec : ∀ c ∈ name, isWordC c = true) :
    matchAt ('/' :: '/' :: ' ' :: (p ++ ':' :: (n ++ '\n' ::
        ('/' :: '/' :: (" Use with: \x7b@html ".data ++ (name ++
          ("\x7d or \x7b@html ".data ++ (name ++
            ("WithClass(\"my-class\")\x7d".data ++ '\n' ::
              ("export const ".data ++ (name ++ ' ' :: R)))))))))))
      = some ((p ++ ':' :: n).asString, name.asString, ' ' :: R) := by
  obtain ⟨c₀, p₀, hP⟩ : ∃ c₀ p₀, p = c₀ :: p₀ := by
    cases p with
    | nil => exact absurd rfl hp
    | cons a b => exact ⟨a, b, rfl⟩
  have hc₀ : isIdC1 c₀ = true := hpc c₀ (by rw [hP]; exact List.mem_cons_self _ _)
  have hsp₀ : isSpaceC c₀ = false := isSpaceC_false_of_isIdC1 hc₀
  rw [matchAt_cons2]
  simp only [matchIdAt]
  have hdw : (' ' :: (p ++ ':' :: (n ++ '\n' ::
      ('/' :: '/' :: (" Use with: \x7b@html ".data ++ (name ++
        ("\x7d or \x7b@html ".data ++ (name ++
          ("WithClass(\"my-class\")\x7d".data ++ '\n' ::
            ("export const ".data ++ (name ++ ' ' :: R))))))))))).dropWhile isSpaceC =
      p ++ ':' :: (n ++ '\n' ::
      ('/' :: '/' :: (" Use with: \x7b@html ".data ++ (name ++
        ("\x7d or \x7b@html ".data ++ (name ++
          ("WithClass(\"my-class\")\x7d".data ++ '\n' ::
            ("export const ".data ++ (name ++ ' ' :: R))))))))) := by
    rw [List.dropWhile_cons, if_pos (by decide)]
    refine dropWhile_eq_self_of_head (c := c₀) ?_ hsp₀
    rw [hP]
    rfl
  rw [hdw]
  rw [takeWhile_all_append _ hpc (by decide), dropWhile_all_append _ hpc (by decide)]
  rw [if_neg (by simp [hp])]
  rw [if_pos (by simp)]
  simp only [List.tail_cons]
  simp only [matchNameAt]
  rw [takeWhile_all_append _ hnc (by decide), dropWhile_all_append _ hnc (by decide)]
  rw [if_neg (by simp [hn])]
  have htw : ('\n' :: ('/' :: '/' :: (" Use with: \x7b@html ".data ++ (name ++
      ("\x7d or \x7b@html ".data ++ (name ++
        ("WithClass(\"my-class\")\x7d".data ++ '\n' ::
          ("export const ".data ++ (name ++ ' ' :: R))))))))).takeWhile
      isSpaceC = ['\n'] := by
    rw [List.takeWhile_cons, if_pos (by decide)]
    rw [List.takeWhile_cons, if_neg (by decide)]
  rw [htw]
  rw [if_pos (by decide)]
  have hdwn : ('\n' :: ('/' :: '/' :: (" Use with: \x7b@html ".data ++ (name ++
      ("\x7d or \x7b@html ".data ++ (name ++
        ("WithClass(\"my-class\")\x7d".data ++ '\n' ::
          ("export const ".data ++ (name ++ ' ' :: R))))))))).dropWhile isSpaceC =
      '/' :: '/' :: (" Use with: \x7b@html ".data ++ (name ++
      ("\x7d or \x7b@html ".data ++ (name ++
        ("WithClass(\"my-class\")\x7d".data ++ '\n' ::
          ("export const ".data ++ (name ++ ' ' :: R))))))) := by
    rw [List.dropWhile_cons, if_pos (by decide)]
    rw [List.dropWhile_cons, if_neg (by decide)]
  rw [hdwn]
  rw [show ('\n' :: ('/' :: '/' :: (" Use with: \x7b@html ".data ++ (name ++
      ("\x7d or \x7b@html ".data ++ (name ++
        ("WithClass(\"my-class\")\x7d".data ++ '\n' ::
          ("export const ".data ++ (name ++ ' ' :: R))))))))).length =
    ('/' :: '/' :: (" Use with: \x7b@html ".data ++ (name ++
      ("\x7d or \x7b@html ".data ++ (name ++
        ("WithClass(\"my-class\")\x7d".data ++ '\n' ::
          ("export const ".data ++ (name ++ ' ' :: R)))))))).length + 1 from rfl]
  have hnonl : ∀ c ∈ (" Use with: \x7b@html ".data ++ (name ++
      ("\x7d or \x7b@html ".data ++ (name ++ "WithClass(\"my-class\")\x7d".data)))),
      c ≠ '\n' := by
    intro c hc he
    subst he
    simp only [List.mem_append] at hc
    rcases hc with hc | hc | hc | hc | hc
    · exact absurd hc (by decide)
    · have := hnamec _ hc; simp [isWordC] at this
    · exact absurd hc (by decide)
    · have := hnamec _ hc; simp [isWordC] at this
    · exact absurd hc (by decide)
  have hcl : consumeLine (('/' :: '/' :: (" Use with: \x7b@html ".data ++ (name ++
      ("\x7d or \x7b@html ".data ++ (name ++
        ("WithClass(\"my-class\")\x7d".data ++ '\n' ::
          ("export const ".data ++ (name ++ ' ' :: R)))))))).drop 2) =
      some ("export const ".data ++ (name ++ ' ' :: R)) := by
    have h0 := consumeLine_through
      (" Use with: \x7b@html ".data ++ (name ++
        ("\x7d or \x7b@html ".data ++ (name ++ "WithClass(\"my-class\")\x7d".data))))
      ("export const ".data ++ (name ++ ' ' :: R)) hnonl
    rw [List.drop_succ_cons, List.drop_succ_cons, List.drop_zero]
    simpa [List.append_assoc] using h0
  rw [matchCommentsC_step _ _ _ (by simp [List.isPrefixOf]) hcl]
  have hdwe : ("export const ".data ++ (name ++ ' ' :: R)).dropWhile isSpaceC =
      "export const ".data ++ (name ++ ' ' :: R) := by
    refine dropWhile_eq_self_of_head (c := 'e') ?_ (by decide)
    rfl
  rw [hdwe]
  rw [show ('/' :: '/' :: (" Use with: \x7b@html ".data ++ (name ++
      ("\x7d or \x7b@html ".data ++ (name ++
        ("WithClass(\"my-class\")\x7d".data ++ '\n' ::
          ("export const ".data ++ (name ++ ' ' :: R)))))))).length =
    ('/' :: (" Use with: \x7b@html ".data ++ (name ++
      ("\x7d or \x7b@html ".data ++ (name ++
        ("WithClass(\"my-class\")\x7d".data ++ '\n' ::
          ("export const ".data ++ (name ++ ' ' :: R)))))))).length + 1 from rfl]
  rw [matchCommentsC_exit _ _ (by
    rw [show ("export const ".data : List Char) ++ (name ++ ' ' :: R) =
      'e' :: ("xport const ".data ++ (name ++ ' ' :: R)) from rfl]
    simp [List.isPrefixOf])]
  rw [matchExportC_block name ' ' R hname hnamec (by decide)]

/-! ## Pattern absence through the replace primitives -/

/-- Absence of a pattern survives dropping a prefix. -/
theorem occursIn_drop_false {pat s : List Char} (k : Nat)
    (h : occursIn pat s = false) : occursIn pat (s.drop k) = false := by
  rw [occursIn_eq_false_iff] at h ⊢
  intro i
  rw [List.drop_drop]
  exact h (k + i)

/-- The head of a global replace is the head of the input or of the
replacement. -/
theorem replaceAllGo_head (pat rep : List Char) (hrep : rep ≠ []) :
    ∀ fuel s, (replaceAllGo pat rep fuel s).head? = s.head? ∨
      (replaceAllGo pat rep fuel s).head? = rep.head? := by
  intro fuel s
  cases fuel with
  | zero => exact Or.inl rfl
  | succ f =>
    cases s with
    | nil => exact Or.inl rfl
    | cons c rest =>
      by_cases hpre : pat.isPrefixOf (c :: rest) = true
      · right
        simp only [replaceAllGo, hpre, if_true]
        exact head?_append_left hrep
      · left
        simp only [replaceAllGo, hpre, Bool.false_eq_true, if_false]
        rfl

/-- A two-character pattern absent from the input, the replacement and the
replacement's boundaries stays absent after a global replace. -/
theorem occursIn_two_replaceAllGo {x y : Char} (pat rep : List Char)
    (hrep : rep ≠ []) (hrx : rep.getLast? ≠ some x) (hry : rep.head? ≠ some y)
    (hocc : occursIn [x, y] rep = false) :
    ∀ fuel s, occursIn [x, y] s = false →
      occursIn [x, y] (replaceAllGo pat rep fuel s) = false := by
  intro fuel
  induction fuel with
  | zero => intro s hs; exact hs
  | succ f ih =>
    intro s hs
    cases s with
    | nil => simpa using hs
    | cons c rest =>
      have hs' := hs
      simp only [occursIn, Bool.or_eq_false_iff] at hs'
      obtain ⟨hs0, hstail⟩ := hs'
      by_cases hpre : pat.isPrefixOf (c :: rest) = true
      · simp only [replaceAllGo, hpre, if_true]
        refine occursIn_two_append hocc
          (ih _ (occursIn_drop_false pat.length hs)) ?_
        rintro ⟨hl, _⟩
        exact hrx hl
      · simp only [replaceAllGo, hpre, Bool.false_eq_true, if_false]
        have hrec := ih rest hstail
        simp only [occursIn, Bool.or_eq_false_iff]
        refine ⟨?_, hrec⟩
        cases hR : (replaceAllGo pat rep f rest) with
        | nil => simp [List.isPrefixOf]
        | cons d R' =>
          by_cases hcx : c = x
          · subst hcx
            have hd : d ≠ y := by
              intro hdy
              subst hdy
              rcases replaceAllGo_head pat rep hrep f rest with hh | hh
              · rw [hR] at hh
                cases rest with
                | nil => simp at hh
                | cons e rest' =>
                  simp only [List.head?_cons, Option.some.injEq] at hh
                  subst hh
                  simp [List.isPrefixOf] at hs0
              · rw [hR] at hh
                exact hry hh.symm
            simp [List.isPrefixOf, Ne.symm hd]
          · simp [List.isPrefixOf, Ne.symm hcx]

/-- The head of a first-occurrence replace is the head of the input or of the
replacement. -/
theorem replaceFirstL_head (pat rep : List Char) (hrep : rep ≠ []) :
    ∀ s, (replaceFirstL pat rep s).head? = s.head? ∨
      (replaceFirstL pat rep s).head? = rep.head? := by
  intro s
  cases s with
  | nil =>
    by_cases hpre : pat.isPrefixOf ([] : List Char) = true
    · right; simp only [replaceFirstL, hpre, if_true]
    · left; simp only [replaceFirstL, hpre, Bool.false_eq_true, if_false]
  | cons c rest =>
    by_cases hpre : pat.isPrefixOf (c :: rest) = true
    · right
      simp only [replaceFirstL, hpre, if_true]
      exact head?_append_left hrep
    · left
      simp only [replaceFirstL, hpre, Bool.false_eq_true, if_false]
      rfl

/-- A two-character pattern absent from the input and the replacement stays
absent after a first-occurrence replace. -/
theorem occursIn_two_replaceFirstL {x y : Char} (pat rep : List Char)
    (hrep : rep ≠ []) (hrx : rep.getLast? ≠ some x) (hry : rep.head? ≠ some y)
    (hocc : occursIn [x, y] rep = false) :
    ∀ s, occursIn [x, y] s = false →
      occursIn [x, y] (replaceFirstL pat rep s) = false := by
  intro s
  induction s with
  | nil =>
    intro hs
    by_cases hpre : pat.isPrefixOf ([] : List Char) = true
    · simpa only [replaceFirstL, hpre, if_true] using hocc
    · simpa only [replaceFirstL, hpre, Bool.false_eq_true, if_false] using hs
  | cons c rest ih =>
    intro hs
    have hs' := hs
    simp only [occursIn, Bool.or_eq_false_iff] at hs'
    obtain ⟨hs0, hstail⟩ := hs'
    by_cases hpre : pat.isPrefixOf (c :: rest) = true
    · simp only [replaceFirstL, hpre, if_true]
      refine occursIn_two_append hocc (occursIn_drop_false pat.length hs) ?_
      rintro ⟨hl, _⟩
      exact hrx hl
    · simp only [replaceFirstL, hpre, Bool.false_eq_true, if_false]
      have hrec := ih hstail
      simp only [occursIn, Bool.or_eq_false_iff]
      refine ⟨?_, hrec⟩
      cases hR : (replaceFirstL pat rep rest) with
      | nil => simp [List.isPrefixOf]
      | cons d R' =>
        by_cases hcx : c = x
        · subst hcx
          have hd : d ≠ y := by
            intro hdy
            subst hdy
            rcases replaceFirstL_head pat rep hrep rest with hh | hh
            · rw [hR] at hh
              cases rest with
              | nil => simp at hh
              | cons e rest' =>
                simp only [List.head?_cons, Option.some.injEq] at hh
                subst hh
                simp [List.isPrefixOf] at hs0
            · rw [hR] at hh
              exact hry hh.symm
          simp [List.isPrefixOf, Ne.symm hd]
        · simp [List.isPrefixOf, Ne.symm hcx]

/-- The Vue-style scan finds nothing when `<!--` never occurs. -/
theorem vueScanGo_nil :
    ∀ (fuel : Nat) (s : List Char),
      (∀ i, "<!--".data.isPrefixOf (s.drop i) = false) → vueScanGo fuel s = [] := by
  intro fuel
  induction fuel with
  | zero => intro s _; rfl
  | succ f ih =>
    intro s h
    cases s with
    | nil => rfl
    | cons c rest =>
      have h0' : (['<', '!', '-', '-'] : List Char).isPrefixOf (c :: rest) = false := by
        simpa using h 0
      have h0 : vueMatchAt (c :: rest) = none := by
        simp only [vueMatchAt]
        simp [h0']
      simp only [vueScanGo, h0]
      exact ih rest (fun i => by
        have := h (i + 1)
        simpa using this)

/-- Absence of `<!` in a content rules out every Vue-style comment. -/
theorem vueScan_nil {s : List Char} (h : occursIn ['<', '!'] s = false) :
    vueScan s = [] := by
  refine vueScanGo_nil s.length s ?_
  intro i
  rw [occursIn_eq_false_iff] at h
  cases hp : ("<!--".data : List Char).isPrefixOf (s.drop i) with
  | false => rfl
  | true =>
    have h2 : (['<', '!'] : List Char).isPrefixOf (s.drop i) = true :=
      List.isPrefixOf_iff_prefix.mpr
        (List.IsPrefix.trans ⟨['-', '-'], rfl⟩ (List.isPrefixOf_iff_prefix.mp hp))
    rw [h i] at h2
    exact absurd h2 (by simp)

/-- Stepping a global replace over a non-matching head. -/
theorem replaceAllGo_cons_of_not_prefix {pat rep : List Char} {c : Char}
    {s : List Char} (f : Nat) (h : pat.isPrefixOf (c :: s) = false) :
    replaceAllGo pat rep (f + 1) (c :: s) = c :: replaceAllGo pat rep f s := by
  simp [replaceAllGo, h]

/-- A first-occurrence replace at a matching position. -/
theorem replaceFirstL_at_prefix {pat rep : List Char} {s : List Char}
    (h : pat.isPrefixOf s = true) :
    replaceFirstL pat rep s = rep ++ s.drop pat.length := by
  cases s with
  | nil =>
    have : pat = [] := by
      cases pat with
      | nil => rfl
      | cons a b => simp [List.isPrefixOf] at h
    subst this
    simp [replaceFirstL]
  | cons c rest => simp [replaceFirstL, h]

/-! ## Managed-file model: entries and validity -/

/-- An icon id in the exact shape the identifier-comment pattern captures in
full: a non-empty `[\w-]+` collection, a colon, and a non-empty `[\w\d.-]+`
name. -/
def validIconId (iconId : String) : Bool :=
  !(iconId.data.takeWhile isIdC1).isEmpty &&
    ((iconId.data.dropWhile isIdC1).head? = some ':') &&
    !((iconId.data.dropWhile isIdC1).tail).isEmpty &&
    ((iconId.data.dropWhile isIdC1).tail).all isIdC2

/-- A component name the export pattern captures in full: non-empty and all
word characters. -/
def validName (nm : String) : Bool :=
  !nm.data.isEmpty && nm.data.all isWordC

/-- Markup whose cleaned form (after XML-declaration stripping and trimming)
contains neither `//` nor `<!`, so it can neither produce nor break an
identifier-comment marker. -/
def benignMarkup (svg : String) : Bool :=
  !occursIn ['/', '/'] (cleanSvgOf svg).data &&
    !occursIn ['<', '!'] (cleanSvgOf svg).data

/-- One managed-file block: the flavor it was generated for, its icon id, its
component name and its raw markup argument. -/
structure IconEntry where
  framework : IconFramework
  iconId : String
  componentName : String
  markup : String

/-- The code block of an entry. -/
def renderEntry (e : IconEntry) : String :=
  generateIconComponent e.componentName e.markup e.iconId e.framework

/-- The concatenated blocks of a managed file, each preceded by one blank
line. -/
def blocksData (entries : List IconEntry) : List Char :=
  match entries with
  | [] => []
  | e :: rest => '\n' :: '\n' :: ((renderEntry e).data ++ blocksData rest)

/-- The managed file produced by appending each entry's block after one blank
line to the trimmed header, with a final newline. -/
def renderFile (hfw : IconFramework) (entries : List IconEntry) : String :=
  ((jsTrimEnd (getFileHeader hfw)).data ++ blocksData entries ++ ['\n']).asString

/-- Entry validity: parse-exact id and name, benign markup. -/
def validEntry (e : IconEntry) : Bool :=
  validIconId e.iconId && validName e.componentName && benignMarkup e.markup

/-- Unpacking `validIconId` into the shape used by the match lemmas. -/
theorem validIconId_decomp {iconId : String} (h : validIconId iconId = true) :
    ∃ p n : List Char, iconId.data = p ++ ':' :: n ∧ p ≠ [] ∧
      (∀ c ∈ p, isIdC1 c = true) ∧ n ≠ [] ∧ (∀ c ∈ n, isIdC2 c = true) := by
  simp only [validIconId, Bool.and_eq_true, Bool.not_eq_true'] at h
  obtain ⟨⟨⟨hp, hcolon⟩, hn⟩, hnall⟩ := h
  refine ⟨iconId.data.takeWhile isIdC1, (iconId.data.dropWhile isIdC1).tail,
    ?_, ?_, ?_, ?_, ?_⟩
  · conv_lhs => rw [← List.takeWhile_append_dropWhile (p := isIdC1) (l := iconId.data)]
    congr 1
    cases hdw : iconId.data.dropWhile isIdC1 with
    | nil => rw [hdw] at hcolon; simp at hcolon
    | cons a t =>
      rw [hdw] at hcolon
      simp only [List.head?_cons, Option.some.injEq, decide_eq_true_eq] at hcolon
      subst hcolon
      rfl
  · intro hcon
    rw [hcon] at hp
    simp at hp
  · intro c hc
    exact List.mem_takeWhile_imp hc
  · intro hcon
    rw [hcon] at hn
    simp at hn
  · exact fun c hc => (List.all_eq_true.mp hnall) c hc

/-- Unpacking `validName`. -/
theorem validName_decomp {nm : String} (h : validName nm = true) :
    nm.data ≠ [] ∧ ∀ c ∈ nm.data, isWordC c = true := by
  simp only [validName, Bool.and_eq_true, Bool.not_eq_true'] at h
  obtain ⟨h1, h2⟩ := h
  exact ⟨by simpa using h1, fun c hc => (List.all_eq_true.mp h2) c hc⟩

/-- Characters of a word-class list never include a given non-word
character. -/
theorem not_mem_of_all_class {q : Char → Bool} {l : List Char} {c : Char}
    (hall : ∀ d ∈ l, q d = true) (hc : q c = false) : c ∉ l := by
  intro hmem
  rw [hall c hmem] at hc
  exact absurd hc (by simp)

/-- String-level transport of pattern absence through a global replace. -/
theorem occursIn_two_jsReplaceAll {x y : Char} (s pat rep : String)
    (hrep : rep.data ≠ []) (hrx : rep.data.getLast? ≠ some x)
    (hry : rep.data.head? ≠ some y) (hocc : occursIn [x, y] rep.data = false)
    (hs : occursIn [x, y] s.data = false) :
    occursIn [x, y] (jsReplaceAll s pat rep).data = false := by
  by_cases hp : pat.data.isEmpty = true
  · simpa [jsReplaceAll, hp] using hs
  · simp only [jsReplaceAll, hp, Bool.false_eq_true, if_false]
    exact occursIn_two_replaceAllGo pat.data rep.data hrep hrx hry hocc _ _ hs

/-- String-level transport of pattern absence through a first-occurrence
replace. -/
theorem occursIn_two_jsReplaceFirst {x y : Char} (s pat rep : String)
    (hrep : rep.data ≠ []) (hrx : rep.data.getLast? ≠ some x)
    (hry : rep.data.head? ≠ some y) (hocc : occursIn [x, y] rep.data = false)
    (hs : occursIn [x, y] s.data = false) :
    occursIn [x, y] (jsReplaceFirst s pat rep).data = false :=
  occursIn_two_replaceFirstL pat.data rep.data hrep hrx hry hocc _ hs

/-- Matching the head of any directly-exporting block
`// id\nexport const name<POST>` (with `POST` starting at a blank) captures
exactly the id and the name, leaving `POST`. -/
theorem block_parse_of_shape (id name POST : String) (P' : List Char)
    (hid : validIconId id = true) (hname : validName name = true)
    (hPOST : POST.data = ' ' :: P') :
    ∀ tail, matchAt (("// " ++ id ++ "\nexport const " ++ name ++ POST).data ++ tail) =
      some (id, name, POST.data ++ tail) := by
  obtain ⟨p, n, hdec, hp, hpc, hn, hnc⟩ := validIconId_decomp hid
  obtain ⟨hnm, hnmc⟩ := validName_decomp hname
  intro tail
  have hdata : ("// " ++ id ++ "\nexport const " ++ name ++ POST).data ++ tail =
      '/' :: '/' :: ' ' :: (p ++ ':' :: (n ++ '\n' ::
        ("export const ".data ++ (name.data ++ ' ' :: (P' ++ tail))))) := by
    simp only [String.data_append, hdec, hPOST]
    simp [List.append_assoc]
  rw [hdata]
  rw [matchAt_block_direct p n name.data (P' ++ tail) hp hpc hn hnc hnm hnmc]
  have h1 : (p ++ ':' :: n).asString = id := by
    rw [← hdec]
    rfl
  have h2 : name.data.asString = name := rfl
  rw [h1, h2, hPOST]
  simp

/-- Matching the head of a svelte block captures exactly the id and the name
(the usage comment line is absorbed by the comment loop), leaving `POST`. -/
theorem block_parse_svelte_shape (id name POST : String) (P' : List Char)
    (hid : validIconId id = true) (hname : validName name = true)
    (hPOST : POST.data = ' ' :: P') :
    ∀ tail, matchAt (("// " ++ id ++ "\n// Use with: \x7b@html " ++ name ++
        "\x7d or \x7b@html " ++ name ++ "WithClass(\"my-class\")\x7d\nexport const " ++
        name ++ POST).data ++ tail) =
      some (id, name, POST.data ++ tail) := by
  obtain ⟨p, n, hdec, hp, hpc, hn, hnc⟩ := validIconId_decomp hid
  obtain ⟨hnm, hnmc⟩ := validName_decomp hname
  intro tail
  have hdata : ("// " ++ id ++ "\n// Use with: \x7b@html " ++ name ++
      "\x7d or \x7b@html " ++ name ++ "WithClass(\"my-class\")\x7d\nexport const " ++
      name ++ POST).data ++ tail =
      '/' :: '/' :: ' ' :: (p ++ ':' :: (n ++ '\n' ::
        ('/' :: '/' :: (" Use with: \x7b@html ".data ++ (name.data ++
          ("\x7d or \x7b@html ".data ++ (name.data ++
            ("WithClass(\"my-class\")\x7d".data ++ '\n' ::
              ("export const ".data ++ (name.data ++ ' ' :: (P' ++ tail))))))))))) := by
    simp only [String.data_append, hdec, hPOST]
    simp [List.append_assoc]
  rw [hdata]
  rw [matchAt_block_svelte p n name.data (P' ++ tail) hp hpc hn hnc hnm hnmc]
  have h1 : (p ++ ':' :: n).asString = id := by
    rw [← hdec]
    rfl
  have h2 : name.data.asString = name := rfl
  rw [h1, h2, hPOST]
  simp

/-- A list with a known head splits into head and tail. -/
theorem cons_head_tail {l : List Char} {c : Char} (h : l.head? = some c) :
    l = c :: l.tail := by
  cases l with
  | nil => simp at h
  | cons d r => simp_all

/-- Unpacking `benignMarkup`. -/
theorem benignMarkup_decomp {svg : String} (h : benignMarkup svg = true) :
    occursIn ['/', '/'] (cleanSvgOf svg).data = false ∧
      occursIn ['<', '!'] (cleanSvgOf svg).data = false := by
  simp only [benignMarkup, Bool.and_eq_true, Bool.not_eq_true'] at h
  exact h

/-- The last element of an append with a non-empty right part. -/
theorem getLast_append_right {α : Type} (a b : List α) (h : b ≠ []) :
    (a ++ b).getLast? = b.getLast? :=
  List.getLast?_append_of_ne_nil a h

/-- Parsing behaviour of a react block: the head match captures the id and
name, and the remainder of the block is marker-free and ends in a
semicolon. -/
theorem renderEntry_parse_react (e : IconEntry) (hfw : e.framework = .react)
    (he : validEntry e = true) :
    ∃ rest : List Char,
      (∀ tail, matchAt ((renderEntry e).data ++ tail) =
        some (e.iconId, e.componentName, rest ++ tail)) ∧
      occursIn ['/', '/'] rest = false ∧
      rest.getLast? = some ';' := by
  simp only [validEntry, Bool.and_eq_true] at he
  obtain ⟨⟨hid, hname⟩, hbenign⟩ := he
  obtain ⟨hb1, _⟩ := benignMarkup_decomp hbenign
  have hbody : occursIn ['/', '/']
      (jsReplaceFirst
        (jsReplaceAll (jsReplaceAll (jsReplaceAll (jsReplaceAll (jsReplaceAll
          (jsReplaceAll (cleanSvgOf e.markup) "class=" "className=")
          "clip-path=" "clipPath=")
          "fill-rule=" "fillRule=")
          "stroke-width=" "strokeWidth=")
          "stroke-linecap=" "strokeLinecap=")
          "stroke-linejoin=" "strokeLinejoin=")
        "<svg" "<svg \x7b...props\x7d").data = false := by
    refine occursIn_two_jsReplaceFirst _ _ _ (by decide) (by decide) (by decide)
      (by decide) ?_
    refine occursIn_two_jsReplaceAll _ _ _ (by decide) (by decide) (by decide)
      (by decide) ?_
    refine occursIn_two_jsReplaceAll _ _ _ (by decide) (by decide) (by decide)
      (by decide) ?_
    refine occursIn_two_jsReplaceAll _ _ _ (by decide) (by decide) (by decide)
      (by decide) ?_
    refine occursIn_two_jsReplaceAll _ _ _ (by decide) (by decide) (by decide)
      (by decide) ?_
    refine occursIn_two_jsReplaceAll _ _ _ (by decide) (by decide) (by decide)
      (by decide) ?_
    refine occursIn_two_jsReplaceAll _ _ _ (by decide) (by decide) (by decide)
      (by decide) ?_
    exact hb1
  refine ⟨(" = (props: React.SVGProps<SVGSVGElement>) => (\n  " ++
      (jsReplaceFirst
        (jsReplaceAll (jsReplaceAll (jsReplaceAll (jsReplaceAll (jsReplaceAll
          (jsReplaceAll (cleanSvgOf e.markup) "class=" "className=")
          "clip-path=" "clipPath=")
          "fill-rule=" "fillRule=")
          "stroke-width=" "strokeWidth=")
          "stroke-linecap=" "strokeLinecap=")
          "stroke-linejoin=" "strokeLinejoin=")
        "<svg" "<svg \x7b...props\x7d") ++ "\n);").data, ?_, ?_, ?_⟩
  · intro tail
    have hre : (renderEntry e).data =
        ("// " ++ e.iconId ++ "\nexport const " ++ e.componentName ++
          (" = (props: React.SVGProps<SVGSVGElement>) => (\n  " ++
            (jsReplaceFirst
              (jsReplaceAll (jsReplaceAll (jsReplaceAll (jsReplaceAll (jsReplaceAll
                (jsReplaceAll (cleanSvgOf e.markup) "class=" "className=")
                "clip-path=" "clipPath=")
                "fill-rule=" "fillRule=")
                "stroke-width=" "strokeWidth=")
                "stroke-linecap=" "strokeLinecap=")
                "stroke-linejoin=" "strokeLinejoin=")
              "<svg" "<svg \x7b...props\x7d") ++ "\n);")).data := by
      simp [renderEntry, generateIconComponent, hfw, generateReactComponent,
        String.data_append, List.append_assoc]
    rw [hre]
    exact block_parse_of_shape e.iconId e.componentName _ _ hid hname rfl tail
  · rw [String.data_append, String.data_append]
    refine occursIn_two_append ?_ (by decide) ?_
    · refine occursIn_two_append (by decide) hbody ?_
      rintro ⟨h1, _⟩
      exact absurd h1 (by decide)
    · rintro ⟨_, h2⟩
      exact absurd h2 (by decide)
  · rw [String.data_append, String.data_append]
    rw [getLast_append_right _ (("\n);".data : List Char)) (by decide)]
    decide

/-- Parsing behaviour of a solid block. -/
theorem renderEntry_parse_solid (e : IconEntry) (hfw : e.framework = .solid)
    (he : validEntry e = true) :
    ∃ rest : List Char,
      (∀ tail, matchAt ((renderEntry e).data ++ tail) =
        some (e.iconId, e.componentName, rest ++ tail)) ∧
      occursIn ['/', '/'] rest = false ∧
      rest.getLast? = some ';' := by
  simp only [validEntry, Bool.and_eq_true] at he
  obtain ⟨⟨hid, hname⟩, hbenign⟩ := he
  obtain ⟨hb1, _⟩ := benignMarkup_decomp hbenign
  have hbody : occursIn ['/', '/']
      (jsReplaceFirst (cleanSvgOf e.markup) "<svg" "<svg \x7b...props\x7d").data =
      false :=
    occursIn_two_jsReplaceFirst _ _ _ (by decide) (by decide) (by decide)
      (by decide) hb1
  refine ⟨(" = (props: JSX.IntrinsicElements[\"svg\"]) => (\n  " ++
      jsReplaceFirst (cleanSvgOf e.markup) "<svg" "<svg \x7b...props\x7d" ++
      "\n);").data, ?_, ?_, ?_⟩
  · intro tail
    have hre : (renderEntry e).data =
        ("// " ++ e.iconId ++ "\nexport const " ++ e.componentName ++
          (" = (props: JSX.IntrinsicElements[\"svg\"]) => (\n  " ++
            jsReplaceFirst (cleanSvgOf e.markup) "<svg" "<svg \x7b...props\x7d" ++
            "\n);")).data := by
      simp [renderEntry, generateIconComponent, hfw, generateSolidComponent,
        String.data_append, List.append_assoc]
    rw [hre]
    exact block_parse_of_shape e.iconId e.componentName _ _ hid hname rfl tail
  · rw [String.data_append, String.data_append]
    refine occursIn_two_append ?_ (by decide) ?_
    · refine occursIn_two_append (by decide) hbody ?_
      rintro ⟨h1, _⟩
      exact absurd h1 (by decide)
    · rintro ⟨_, h2⟩
      exact absurd h2 (by decide)
  · rw [String.data_append, String.data_append]
    rw [getLast_append_right _ (("\n);".data : List Char)) (by decide)]
    decide

/-- Parsing behaviour of a raw-markup-export block. -/
theorem renderEntry_parse_svg (e : IconEntry) (hfw : e.framework = .svg)
    (he : validEntry e = true) :
    ∃ rest : List Char,
      (∀ tail, matchAt ((renderEntry e).data ++ tail) =
        some (e.iconId, e.componentName, rest ++ tail)) ∧
      occursIn ['/', '/'] rest = false ∧
      rest.getLast? = some ';' := by
  simp only [validEntry, Bool.and_eq_true] at he
  obtain ⟨⟨hid, hname⟩, hbenign⟩ := he
  obtain ⟨hb1, _⟩ := benignMarkup_decomp hbenign
  refine ⟨(" = `" ++ cleanSvgOf e.markup ++ "`;").data, ?_, ?_, ?_⟩
  · intro tail
    have hre : (renderEntry e).data =
        ("// " ++ e.iconId ++ "\nexport const " ++ e.componentName ++
          (" = `" ++ cleanSvgOf e.markup ++ "`;")).data := by
      simp [renderEntry, generateIconComponent, hfw, generateSvgExport,
        String.data_append, List.append_assoc]
    rw [hre]
    exact block_parse_of_shape e.iconId e.componentName _ _ hid hname rfl tail
  · rw [String.data_append, String.data_append]
    refine occursIn_two_append ?_ (by decide) ?_
    · refine occursIn_two_append (by decide) hb1 ?_
      rintro ⟨h1, _⟩
      exact absurd h1 (by decide)
    · rintro ⟨_, h2⟩
      exact absurd h2 (by decide)
  · rw [String.data_append, String.data_append]
    rw [getLast_append_right _ (("`;".data : List Char)) (by decide)]
    decide

/-- Parsing behaviour of a vue block. -/
theorem renderEntry_parse_vue (e : IconEntry) (hfw : e.framework = .vue)
    (he : validEntry e = true) :
    ∃ rest : List Char,
      (∀ tail, matchAt ((renderEntry e).data ++ tail) =
        some (e.iconId, e.componentName, rest ++ tail)) ∧
      occursIn ['/', '/'] rest = false ∧
      rest.getLast? = some ';' := by
  simp only [validEntry, Bool.and_eq_true] at he
  obtain ⟨⟨hid, hname⟩, hbenign⟩ := he
  obtain ⟨hb1, _⟩ := benignMarkup_decomp hbenign
  obtain ⟨hnm, hnmc⟩ := validName_decomp hname
  have hbody : occursIn ['/', '/']
      (jsReplaceFirst (jsReplaceAll (cleanSvgOf e.markup) "`" "\\`")
        "<svg" "<svg v-bind=\"$attrs\"").data = false := by
    refine occursIn_two_jsReplaceFirst _ _ _ (by decide) (by decide) (by decide)
      (by decide) ?_
    exact occursIn_two_jsReplaceAll _ _ _ (by decide) (by decide) (by decide)
      (by decide) hb1
  have hnameocc : occursIn ['/', '/'] e.componentName.data = false :=
    occursIn_two_false_of_not_mem (not_mem_of_all_class hnmc (by decide))
  refine ⟨(" = \x7b\n  name: \"" ++ e.componentName ++
      "\",\n  inheritAttrs: false,\n  template: `" ++
      jsReplaceFirst (jsReplaceAll (cleanSvgOf e.markup) "`" "\\`")
        "<svg" "<svg v-bind=\"$attrs\"" ++ "`,\n\x7d;").data, ?_, ?_, ?_⟩
  · intro tail
    have hre : (renderEntry e).data =
        ("// " ++ e.iconId ++ "\nexport const " ++ e.componentName ++
          (" = \x7b\n  name: \"" ++ e.componentName ++
            "\",\n  inheritAttrs: false,\n  template: `" ++
            jsReplaceFirst (jsReplaceAll (cleanSvgOf e.markup) "`" "\\`")
              "<svg" "<svg v-bind=\"$attrs\"" ++ "`,\n\x7d;")).data := by
      simp [renderEntry, generateIconComponent, hfw, generateVueComponent,
        String.data_append, List.append_assoc]
    rw [hre]
    exact block_parse_of_shape e.iconId e.componentName _ _ hid hname rfl tail
  · rw [String.data_append, String.data_append, String.data_append,
      String.data_append]
    refine occursIn_two_append ?_ (by decide) ?_
    · refine occursIn_two_append ?_ hbody ?_
      · refine occursIn_two_append ?_ (by decide) ?_
        · refine occursIn_two_append (by decide) hnameocc ?_
          rintro ⟨h1, _⟩
          exact absurd h1 (by decide)
        · rintro ⟨_, h2⟩
          exact absurd h2 (by decide)
      · rintro ⟨h1, _⟩
        rw [getLast_append_right _
          (("\",\n  inheritAttrs: false,\n  template: `".data : List Char))
          (by decide)] at h1
        exact absurd h1 (by decide)
    · rintro ⟨_, h2⟩
      exact absurd h2 (by decide)
  · rw [String.data_append, String.data_append, String.data_append,
      String.data_append]
    rw [getLast_append_right _ (("`,\n\x7d;".data : List Char))
      (by decide)]
    decide

/-- Parsing behaviour of a svelte block. -/
theorem renderEntry_parse_svelte (e : IconEntry) (hfw : e.framework = .svelte)
    (he : validEntry e = true) :
    ∃ rest : List Char,
      (∀ tail, matchAt ((renderEntry e).data ++ tail) =
        some (e.iconId, e.componentName, rest ++ tail)) ∧
      occursIn ['/', '/'] rest = false ∧
      rest.getLast? = some ';' := by
  simp only [validEntry, Bool.and_eq_true] at he
  obtain ⟨⟨hid, hname⟩, hbenign⟩ := he
  obtain ⟨hb1, _⟩ := benignMarkup_decomp hbenign
  obtain ⟨hnm, hnmc⟩ := validName_decomp hname
  have hesc : occursIn ['/', '/']
      (jsReplaceAll (cleanSvgOf e.markup) "`" "\\`").data = false :=
    occursIn_two_jsReplaceAll _ _ _ (by decide) (by decide) (by decide)
      (by decide) hb1
  have hcls : occursIn ['/', '/']
      (jsReplaceFirst (jsReplaceAll (cleanSvgOf e.markup) "`" "\\`")
        "<svg" "<svg class=\"$\x7bclassName\x7d\"").data = false :=
    occursIn_two_jsReplaceFirst _ _ _ (by decide) (by decide) (by decide)
      (by decide) hesc
  have hnameocc : occursIn ['/', '/'] e.componentName.data = false :=
    occursIn_two_false_of_not_mem (not_mem_of_all_class hnmc (by decide))
  refine ⟨(" = `" ++ jsReplaceAll (cleanSvgOf e.markup) "`" "\\`" ++
      "`;\nexport const " ++ e.componentName ++
      "WithClass = (className: string) => `" ++
      jsReplaceFirst (jsReplaceAll (cleanSvgOf e.markup) "`" "\\`")
        "<svg" "<svg class=\"$\x7bclassName\x7d\"" ++ "`;").data, ?_, ?_, ?_⟩
  · intro tail
    have hre : (renderEntry e).data =
        ("// " ++ e.iconId ++ "\n// Use with: \x7b@html " ++ e.componentName ++
          "\x7d or \x7b@html " ++ e.componentName ++
          "WithClass(\"my-class\")\x7d\nexport const " ++ e.componentName ++
          (" = `" ++ jsReplaceAll (cleanSvgOf e.markup) "`" "\\`" ++
            "`;\nexport const " ++ e.componentName ++
            "WithClass = (className: string) => `" ++
            jsReplaceFirst (jsReplaceAll (cleanSvgOf e.markup) "`" "\\`")
              "<svg" "<svg class=\"$\x7bclassName\x7d\"" ++ "`;")).data := by
      simp [renderEntry, generateIconComponent, hfw, generateSvelteComponent,
        String.data_append, List.append_assoc]
    rw [hre]
    exact block_parse_svelte_shape e.iconId e.componentName _ _ hid hname rfl tail
  · rw [String.data_append, String.data_append, String.data_append,
      String.data_append, String.data_append]
    refine occursIn_two_append ?_ (by decide) ?_
    · refine occursIn_two_append ?_ hcls ?_
      · refine occursIn_two_append ?_ (by decide) ?_
        · refine occursIn_two_append ?_ hnameocc ?_
          · refine occursIn_two_append ?_ (by decide) ?_
            · refine occursIn_two_append (by decide) hesc ?_
              rintro ⟨h1, _⟩
              exact absurd h1 (by decide)
            · rintro ⟨_, h2⟩
              exact absurd h2 (by decide)
          · rintro ⟨h1, _⟩
            rw [getLast_append_right _
              (("`;\nexport const ".data : List Char)) (by decide)] at h1
            exact absurd h1 (by decide)
        · rintro ⟨_, h2⟩
          exact absurd h2 (by decide)
      · rintro ⟨h1, _⟩
        rw [getLast_append_right _
          (("WithClass = (className: string) => `".data : List Char))
          (by decide)] at h1
        exact absurd h1 (by decide)
    · rintro ⟨_, h2⟩
      exact absurd h2 (by decide)
  · rw [String.data_append, String.data_append, String.data_append,
      String.data_append, String.data_append]
    rw [getLast_append_right _ (("`;".data : List Char)) (by decide)]
    decide

/-- Parsing behaviour of any valid block: the head match captures the entry's
id and name, and the remainder of the block is free of `//` and ends in a
semicolon. -/
theorem renderEntry_parse (e : IconEntry) (he : validEntry e = true) :
    ∃ rest : List Char,
      (∀ tail, matchAt ((renderEntry e).data ++ tail) =
        some (e.iconId, e.componentName, rest ++ tail)) ∧
      occursIn ['/', '/'] rest = false ∧
      rest.getLast? = some ';' := by
  cases hfw : e.framework with
  | react => exact renderEntry_parse_react e hfw he
  | vue => exact renderEntry_parse_vue e hfw he
  | svelte => exact renderEntry_parse_svelte e hfw he
  | solid => exact renderEntry_parse_solid e hfw he
  | svg => exact renderEntry_parse_svg e hfw he

/-- A character outside both identifier classes and distinct from the colon
never occurs in a valid icon id. -/
theorem validIconId_not_mem {id : String} (h : validIconId id = true) {c : Char}
    (hc1 : isIdC1 c = false) (hc2 : isIdC2 c = false) (hcolon : c ≠ ':') :
    c ∉ id.data := by
  obtain ⟨p, n, hdec, _, hpc, _, hnc⟩ := validIconId_decomp h
  rw [hdec]
  intro hmem
  rcases List.mem_append.mp hmem with hp | hn
  · rw [hpc c hp] at hc1; exact absurd hc1 (by simp)
  · rcases List.mem_cons.mp hn with hcol | hn'
    · exact hcolon hcol
    · rw [hnc c hn'] at hc2; exact absurd hc2 (by simp)

/-- Round trip of a character list through `String`. -/
theorem asString_data (l : List Char) : l.asString.data = l := rfl

/-- Every generated block ends in a semicolon. -/
theorem renderEntry_getLast (e : IconEntry) :
    (renderEntry e).data.getLast? = some ';' := by
  cases hfw : e.framework with
  | react =>
    have hre : renderEntry e =
        "// " ++ e.iconId ++ "\nexport const " ++ e.componentName ++
          " = (props: React.SVGProps<SVGSVGElement>) => (\n  " ++
          jsReplaceFirst
            (jsReplaceAll (jsReplaceAll (jsReplaceAll (jsReplaceAll (jsReplaceAll
              (jsReplaceAll (cleanSvgOf e.markup) "class=" "className=")
              "clip-path=" "clipPath=")
              "fill-rule=" "fillRule=")
              "stroke-width=" "strokeWidth=")
              "stroke-linecap=" "strokeLinecap=")
              "stroke-linejoin=" "strokeLinejoin=")
            "<svg" "<svg \x7b...props\x7d" ++ "\n);" := by
      simp only [renderEntry, generateIconComponent, hfw, generateReactComponent]
    rw [hre, String.data_append]
    rw [getLast_append_right _ (("\n);".data : List Char)) (by decide)]
    decide
  | vue =>
    have hre : renderEntry e =
        "// " ++ e.iconId ++ "\nexport const " ++ e.componentName ++
          " = \x7b\n  name: \"" ++ e.componentName ++
          "\",\n  inheritAttrs: false,\n  template: `" ++
          jsReplaceFirst (jsReplaceAll (cleanSvgOf e.markup) "`" "\\`")
            "<svg" "<svg v-bind=\"$attrs\"" ++ "`,\n\x7d;" := by
      simp only [renderEntry, generateIconComponent, hfw, generateVueComponent]
    rw [hre, String.data_append]
    rw [getLast_append_right _ (("`,\n\x7d;".data : List Char)) (by decide)]
    decide
  | svelte =>
    have hre : renderEntry e =
        "// " ++ e.iconId ++ "\n// Use with: \x7b@html " ++ e.componentName ++
          "\x7d or \x7b@html " ++ e.componentName ++
          "WithClass(\"my-class\")\x7d\nexport const " ++ e.componentName ++
          " = `" ++ jsReplaceAll (cleanSvgOf e.markup) "`" "\\`" ++
          "`;\nexport const " ++ e.componentName ++
          "WithClass = (className: string) => `" ++
          jsReplaceFirst (jsReplaceAll (cleanSvgOf e.markup) "`" "\\`")
            "<svg" "<svg class=\"$\x7bclassName\x7d\"" ++ "`;" := by
      simp only [renderEntry, generateIconComponent, hfw, generateSvelteComponent]
    rw [hre, String.data_append]
    rw [getLast_append_right _ (("`;".data : List Char)) (by decide)]
    decide
  | solid =>
    have hre : renderEntry e =
        "// " ++ e.iconId ++ "\nexport const " ++ e.componentName ++
          " = (props: JSX.IntrinsicElements[\"svg\"]) => (\n  " ++
          jsReplaceFirst (cleanSvgOf e.markup) "<svg" "<svg \x7b...props\x7d" ++
          "\n);" := by
      simp only [renderEntry, generateIconComponent, hfw, generateSolidComponent]
    rw [hre, String.data_append]
    rw [getLast_append_right _ (("\n);".data : List Char)) (by decide)]
    decide
  | svg =>
    have hre : renderEntry e =
        "// " ++ e.iconId ++ "\nexport const " ++ e.componentName ++ " = `" ++
          cleanSvgOf e.markup ++ "`;" := by
      simp only [renderEntry, generateIconComponent, hfw, generateSvgExport]
    rw [hre, String.data_append]
    rw [getLast_append_right _ (("`;".data : List Char)) (by decide)]
    decide

/-- A generated block is never empty. -/
theorem renderEntry_ne_nil (e : IconEntry) : (renderEntry e).data ≠ [] := by
  intro h
  have hl := renderEntry_getLast e
  rw [h] at hl
  exact absurd hl (by decide)

/-- No `<!` occurs anywhere in a valid react block. -/
theorem renderEntry_noBang_react (e : IconEntry) (hfw : e.framework = .react)
    (he : validEntry e = true) :
    occursIn ['<', '!'] (renderEntry e).data = false := by
  simp only [validEntry, Bool.and_eq_true] at he
  obtain ⟨⟨hid, hname⟩, hbenign⟩ := he
  obtain ⟨_, hb2⟩ := benignMarkup_decomp hbenign
  obtain ⟨_, hnmc⟩ := validName_decomp hname
  have hidB : occursIn ['<', '!'] e.iconId.data = false :=
    occursIn_two_false_of_not_mem
      (validIconId_not_mem hid (by decide) (by decide) (by decide))
  have hnmB : occursIn ['<', '!'] e.componentName.data = false :=
    occursIn_two_false_of_not_mem (not_mem_of_all_class hnmc (by decide))
  have hbody : occursIn ['<', '!']
      (jsReplaceFirst
        (jsReplaceAll (jsReplaceAll (jsReplaceAll (jsReplaceAll (jsReplaceAll
          (jsReplaceAll (cleanSvgOf e.markup) "class=" "className=")
          "clip-path=" "clipPath=")
          "fill-rule=" "fillRule=")
          "stroke-width=" "strokeWidth=")
          "stroke-linecap=" "strokeLinecap=")
          "stroke-linejoin=" "strokeLinejoin=")
        "<svg" "<svg \x7b...props\x7d").data = false := by
    refine occursIn_two_jsReplaceFirst _ _ _ (by decide) (by decide) (by decide)
      (by decide) ?_
    refine occursIn_two_jsReplaceAll _ _ _ (by decide) (by decide) (by decide)
      (by decide) ?_
    refine occursIn_two_jsReplaceAll _ _ _ (by decide) (by decide) (by decide)
      (by decide) ?_
    refine occursIn_two_jsReplaceAll _ _ _ (by decide) (by decide) (by decide)
      (by decide) ?_
    refine occursIn_two_jsReplaceAll _ _ _ (by decide) (by decide) (by decide)
      (by decide) ?_
    refine occursIn_two_jsReplaceAll _ _ _ (by decide) (by decide) (by decide)
      (by decide) ?_
    refine occursIn_two_jsReplaceAll _ _ _ (by decide) (by decide) (by decide)
      (by decide) ?_
    exact hb2
  have hre : renderEntry e =
      "// " ++ e.iconId ++ "\nexport const " ++ e.componentName ++
        " = (props: React.SVGProps<SVGSVGElement>) => (\n  " ++
        jsReplaceFirst
          (jsReplaceAll (jsReplaceAll (jsReplaceAll (jsReplaceAll (jsReplaceAll
            (jsReplaceAll (cleanSvgOf e.markup) "class=" "className=")
            "clip-path=" "clipPath=")
            "fill-rule=" "fillRule=")
            "stroke-width=" "strokeWidth=")
            "stroke-linecap=" "strokeLinecap=")
            "stroke-linejoin=" "strokeLinejoin=")
          "<svg" "<svg \x7b...props\x7d" ++ "\n);" := by
    simp only [renderEntry, generateIconComponent, hfw, generateReactComponent]
  rw [hre, String.data_append, String.data_append, String.data_append,
    String.data_append, String.data_append, String.data_append]
  refine occursIn_two_append ?_ (by decide) ?_
  · refine occursIn_two_append ?_ hbody ?_
    · refine occursIn_two_append ?_ (by decide) ?_
      · refine occursIn_two_append ?_ hnmB ?_
        · refine occursIn_two_append ?_ (by decide) ?_
          · refine occursIn_two_append (by decide) hidB ?_
            rintro ⟨h1, _⟩
            exact absurd h1 (by decide)
          · rintro ⟨_, h2⟩
            exact absurd h2 (by decide)
        · rintro ⟨h1, _⟩
          rw [getLast_append_right _ (("\nexport const ".data : List Char))
            (by decide)] at h1
          exact absurd h1 (by decide)
      · rintro ⟨_, h2⟩
        exact absurd h2 (by decide)
    · rintro ⟨h1, _⟩
      rw [getLast_append_right _
        ((" = (props: React.SVGProps<SVGSVGElement>) => (\n  ".data : List Char))
        (by decide)] at h1
      exact absurd h1 (by decide)
  · rintro ⟨_, h2⟩
    exact absurd h2 (by decide)

/-- No `<!` occurs anywhere in a valid solid block. -/
theorem renderEntry_noBang_solid (e : IconEntry) (hfw : e.framework = .solid)
    (he : validEntry e = true) :
    occursIn ['<', '!'] (renderEntry e).data = false := by
  simp only [validEntry, Bool.and_eq_true] at he
  obtain ⟨⟨hid, hname⟩, hbenign⟩ := he
  obtain ⟨_, hb2⟩ := benignMarkup_decomp hbenign
  obtain ⟨_, hnmc⟩ := validName_decomp hname
  have hidB : occursIn ['<', '!'] e.iconId.data = false :=
    occursIn_two_false_of_not_mem
      (validIconId_not_mem hid (by decide) (by decide) (by decide))
  have hnmB : occursIn ['<', '!'] e.componentName.data = false :=
    occursIn_two_false_of_not_mem (not_mem_of_all_class hnmc (by decide))
  have hbody : occursIn ['<', '!']
      (jsReplaceFirst (cleanSvgOf e.markup) "<svg" "<svg \x7b...props\x7d").data =
      false :=
    occursIn_two_jsReplaceFirst _ _ _ (by decide) (by decide) (by decide)
      (by decide) hb2
  have hre : renderEntry e =
      "// " ++ e.iconId ++ "\nexport const " ++ e.componentName ++
        " = (props: JSX.IntrinsicElements[\"svg\"]) => (\n  " ++
        jsReplaceFirst (cleanSvgOf e.markup) "<svg" "<svg \x7b...props\x7d" ++
        "\n);" := by
    simp only [renderEntry, generateIconComponent, hfw, generateSolidComponent]
  rw [hre, String.data_append, String.data_append, String.data_append,
    String.data_append, String.data_append, String.data_append]
  refine occursIn_two_append ?_ (by decide) ?_
  · refine occursIn_two_append ?_ hbody ?_
    · refine occursIn_two_append ?_ (by decide) ?_
      · refine occursIn_two_append ?_ hnmB ?_
        · refine occursIn_two_append ?_ (by decide) ?_
          · refine occursIn_two_append (by decide) hidB ?_
            rintro ⟨h1, _⟩
            exact absurd h1 (by decide)
          · rintro ⟨_, h2⟩
            exact absurd h2 (by decide)
        · rintro ⟨h1, _⟩
          rw [getLast_append_right _ (("\nexport const ".data : List Char))
            (by decide)] at h1
          exact absurd h1 (by decide)
      · rintro ⟨_, h2⟩
        exact absurd h2 (by decide)
    · rintro ⟨h1, _⟩
      rw [getLast_append_right _
        ((" = (props: JSX.IntrinsicElements[\"svg\"]) => (\n  ".data : List Char))
        (by decide)] at h1
      exact absurd h1 (by decide)
  · rintro ⟨_, h2⟩
    exact absurd h2 (by decide)

/-- No `<!` occurs anywhere in a valid raw-markup block. -/
theorem renderEntry_noBang_svg (e : IconEntry) (hfw : e.framework = .svg)
    (he : validEntry e = true) :
    occursIn ['<', '!'] (renderEntry e).data = false := by
  simp only [validEntry, Bool.and_eq_true] at he
  obtain ⟨⟨hid, hname⟩, hbenign⟩ := he
  obtain ⟨_, hb2⟩ := benignMarkup_decomp hbenign
  obtain ⟨_, hnmc⟩ := validName_decomp hname
  have hidB : occursIn ['<', '!'] e.iconId.data = false :=
    occursIn_two_false_of_not_mem
      (validIconId_not_mem hid (by decide) (by decide) (by decide))
  have hnmB : occursIn ['<', '!'] e.componentName.data = false :=
    occursIn_two_false_of_not_mem (not_mem_of_all_class hnmc (by decide))
  have hre : renderEntry e =
      "// " ++ e.iconId ++ "\nexport const " ++ e.componentName ++ " = `" ++
        cleanSvgOf e.markup ++ "`;" := by
    simp only [renderEntry, generateIconComponent, hfw, generateSvgExport]
  rw [hre, String.data_append, String.data_append, String.data_append,
    String.data_append, String.data_append, String.data_append]
  refine occursIn_two_append ?_ (by decide) ?_
  · refine occursIn_two_append ?_ hb2 ?_
    · refine occursIn_two_append ?_ (by decide) ?_
      · refine occursIn_two_append ?_ hnmB ?_
        · refine occursIn_two_append ?_ (by decide) ?_
          · refine occursIn_two_append (by decide) hidB ?_
            rintro ⟨h1, _⟩
            exact absurd h1 (by decide)
          · rintro ⟨_, h2⟩
            exact absurd h2 (by decide)
        · rintro ⟨h1, _⟩
          rw [getLast_append_right _ (("\nexport const ".data : List Char))
            (by decide)] at h1
          exact absurd h1 (by decide)
      · rintro ⟨_, h2⟩
        exact absurd h2 (by decide)
    · rintro ⟨h1, _⟩
      rw [getLast_append_right _ ((" = `".data : List Char)) (by decide)] at h1
      exact absurd h1 (by decide)
  · rintro ⟨_, h2⟩
    exact absurd h2 (by decide)

/-- No `<!` occurs anywhere in a valid vue block. -/
theorem renderEntry_noBang_vue (e : IconEntry) (hfw : e.framework = .vue)
    (he : validEntry e = true) :
    occursIn ['<', '!'] (renderEntry e).data = false := by
  simp only [validEntry, Bool.and_eq_true] at he
  obtain ⟨⟨hid, hname⟩, hbenign⟩ := he
  obtain ⟨_, hb2⟩ := benignMarkup_decomp hbenign
  obtain ⟨_, hnmc⟩ := validName_decomp hname
  have hidB : occursIn ['<', '!'] e.iconId.data = false :=
    occursIn_two_false_of_not_mem
      (validIconId_not_mem hid (by decide) (by decide) (by decide))
  have hnmB : occursIn ['<', '!'] e.componentName.data = false :=
    occursIn_two_false_of_not_mem (not_mem_of_all_class hnmc (by decide))
  have hbody : occursIn ['<', '!']
      (jsReplaceFirst (jsReplaceAll (cleanSvgOf e.markup) "`" "\\`")
        "<svg" "<svg v-bind=\"$attrs\"").data = false := by
    refine occursIn_two_jsReplaceFirst _ _ _ (by decide) (by decide) (by decide)
      (by decide) ?_
    exact occursIn_two_jsReplaceAll _ _ _ (by decide) (by decide) (by decide)
      (by decide) hb2
  have hre : renderEntry e =
      "// " ++ e.iconId ++ "\nexport const " ++ e.componentName ++
        " = \x7b\n  name: \"" ++ e.componentName ++
        "\",\n  inheritAttrs: false,\n  template: `" ++
        jsReplaceFirst (jsReplaceAll (cleanSvgOf e.markup) "`" "\\`")
          "<svg" "<svg v-bind=\"$attrs\"" ++ "`,\n\x7d;" := by
    simp only [renderEntry, generateIconComponent, hfw, generateVueComponent]
  rw [hre, String.data_append, String.data_append, String.data_append,
    String.data_append, String.data_append, String.data_append,
    String.data_append, String.data_append]
  refine occursIn_two_append ?_ (by decide) ?_
  · refine occursIn_two_append ?_ hbody ?_
    · refine occursIn_two_append ?_ (by decide) ?_
      · refine occursIn_two_append ?_ hnmB ?_
        · refine occursIn_two_append ?_ (by decide) ?_
          · refine occursIn_two_append ?_ hnmB ?_
            · refine occursIn_two_append ?_ (by decide) ?_
              · refine occursIn_two_append (by decide) hidB ?_
                rintro ⟨h1, _⟩
                exact absurd h1 (by decide)
              · rintro ⟨_, h2⟩
                exact absurd h2 (by decide)
            · rintro ⟨h1, _⟩
              rw [getLast_append_right _ (("\nexport const ".data : List Char))
                (by decide)] at h1
              exact absurd h1 (by decide)
          · rintro ⟨_, h2⟩
            exact absurd h2 (by decide)
        · rintro ⟨h1, _⟩
          rw [getLast_append_right _ ((" = \x7b\n  name: \"".data : List Char))
            (by decide)] at h1
          exact absurd h1 (by decide)
      · rintro ⟨_, h2⟩
        exact absurd h2 (by decide)
    · rintro ⟨h1, _⟩
      rw [getLast_append_right _
        (("\",\n  inheritAttrs: false,\n  template: `".data : List Char))
        (by decide)] at h1
      exact absurd h1 (by decide)
  · rintro ⟨_, h2⟩
    exact absurd h2 (by decide)

/-- No `<!` occurs anywhere in a valid svelte block. -/
theorem renderEntry_noBang_svelte (e : IconEntry) (hfw : e.framework = .svelte)
    (he : validEntry e = true) :
    occursIn ['<', '!'] (renderEntry e).data = false := by
  simp only [validEntry, Bool.and_eq_true] at he
  obtain ⟨⟨hid, hname⟩, hbenign⟩ := he
  obtain ⟨_, hb2⟩ := benignMarkup_decomp hbenign
  obtain ⟨_, hnmc⟩ := validName_decomp hname
  have hidB : occursIn ['<', '!'] e.iconId.data = false :=
    occursIn_two_false_of_not_mem
      (validIconId_not_mem hid (by decide) (by decide) (by decide))
  have hnmB : occursIn ['<', '!'] e.componentName.data = false :=
    occursIn_two_false_of_not_mem (not_mem_of_all_class hnmc (by decide))
  have hesc : occursIn ['<', '!']
      (jsReplaceAll (cleanSvgOf e.markup) "`" "\\`").data = false :=
    occursIn_two_jsReplaceAll _ _ _ (by decide) (by decide) (by decide)
      (by decide) hb2
  have hcls : occursIn ['<', '!']
      (jsReplaceFirst (jsReplaceAll (cleanSvgOf e.markup) "`" "\\`")
        "<svg" "<svg class=\"$\x7bclassName\x7d\"").data = false :=
    occursIn_two_jsReplaceFirst _ _ _ (by decide) (by decide) (by decide)
      (by decide) hesc
  have hre : renderEntry e =
      "// " ++ e.iconId ++ "\n// Use with: \x7b@html " ++ e.componentName ++
        "\x7d or \x7b@html " ++ e.componentName ++
        "WithClass(\"my-class\")\x7d\nexport const " ++ e.componentName ++
        " = `" ++ jsReplaceAll (cleanSvgOf e.markup) "`" "\\`" ++
        "`;\nexport const " ++ e.componentName ++
        "WithClass = (className: string) => `" ++
        jsReplaceFirst (jsReplaceAll (cleanSvgOf e.markup) "`" "\\`")
          "<svg" "<svg class=\"$\x7bclassName\x7d\"" ++ "`;" := by
    simp only [renderEntry, generateIconComponent, hfw, generateSvelteComponent]
  rw [hre, String.data_append, String.data_append, String.data_append,
    String.data_append, String.data_append, String.data_append,
    String.data_append, String.data_append, String.data_append,
    String.data_append, String.data_append, String.data_append,
    String.data_append, String.data_append]
  refine occursIn_two_append ?_ (by decide) ?_
  · refine occursIn_two_append ?_ hcls ?_
    · refine occursIn_two_append ?_ (by decide) ?_
      · refine occursIn_two_append ?_ hnmB ?_
        · refine occursIn_two_append ?_ (by decide) ?_
          · refine occursIn_two_append ?_ hesc ?_
            · refine occursIn_two_append ?_ (by decide) ?_
              · refine occursIn_two_append ?_ hnmB ?_
                · refine occursIn_two_append ?_ (by decide) ?_
                  · refine occursIn_two_append ?_ hnmB ?_
                    · refine occursIn_two_append ?_ (by decide) ?_
                      · refine occursIn_two_append ?_ hnmB ?_
                        · refine occursIn_two_append ?_ (by decide) ?_
                          · refine occursIn_two_append (by decide) hidB ?_
                            rintro ⟨h1, _⟩
                            exact absurd h1 (by decide)
                          · rintro ⟨_, h2⟩
                            exact absurd h2 (by decide)
                        · rintro ⟨h1, _⟩
                          rw [getLast_append_right _
                            (("\n// Use with: \x7b@html ".data : List Char))
                            (by decide)] at h1
                          exact absurd h1 (by decide)
                      · rintro ⟨_, h2⟩
                        exact absurd h2 (by decide)
                    · rintro ⟨h1, _⟩
                      rw [getLast_append_right _
                        (("\x7d or \x7b@html ".data : List Char))
                        (by decide)] at h1
                      exact absurd h1 (by decide)
                  · rintro ⟨_, h2⟩
                    exact absurd h2 (by decide)
                · rintro ⟨h1, _⟩
                  rw [getLast_append_right _
                    (("WithClass(\"my-class\")\x7d\nexport const ".data : List Char))
                    (by decide)] at h1
                  exact absurd h1 (by decide)
              · rintro ⟨_, h2⟩
                exact absurd h2 (by decide)
            · rintro ⟨h1, _⟩
              rw [getLast_append_right _ ((" = `".data : List Char))
                (by decide)] at h1
              exact absurd h1 (by decide)
          · rintro ⟨_, h2⟩
            exact absurd h2 (by decide)
        · rintro ⟨h1, _⟩
          rw [getLast_append_right _ (("`;\nexport const ".data : List Char))
            (by decide)] at h1
          exact absurd h1 (by decide)
      · rintro ⟨_, h2⟩
        exact absurd h2 (by decide)
    · rintro ⟨h1, _⟩
      rw [getLast_append_right _
        (("WithClass = (className: string) => `".data : List Char))
        (by decide)] at h1
      exact absurd h1 (by decide)
  · rintro ⟨_, h2⟩
    exact absurd h2 (by decide)

/-- No `<!` occurs anywhere in any valid block, so the Vue-style pattern never fires inside one. -/
theorem renderEntry_noBang (e : IconEntry) (he : validEntry e = true) :
    occursIn ['<', '!'] (renderEntry e).data = false := by
  cases hfw : e.framework with
  | react => exact renderEntry_noBang_react e hfw he
  | vue => exact renderEntry_noBang_vue e hfw he
  | svelte => exact renderEntry_noBang_svelte e hfw he
  | solid => exact renderEntry_noBang_solid e hfw he
  | svg => exact renderEntry_noBang_svg e hfw he

/-- No `<!` occurs in the block section of a valid managed file. -/
theorem blocksData_noBang (entries : List IconEntry)
    (hval : ∀ e ∈ entries, validEntry e = true) :
    occursIn ['<', '!'] (blocksData entries) = false := by
  induction entries with
  | nil => decide
  | cons e rest ih =>
    have hrw : blocksData (e :: rest) =
        ['\n', '\n'] ++ ((renderEntry e).data ++ blocksData rest) := rfl
    rw [hrw]
    refine occursIn_two_append (by decide) ?_ ?_
    · refine occursIn_two_append (renderEntry_noBang e (hval e (by simp)))
        (ih (fun e' h' => hval e' (by simp [h']))) ?_
      rintro ⟨h1, _⟩
      rw [renderEntry_getLast e] at h1
      exact absurd h1 (by decide)
    · rintro ⟨h1, _⟩
      exact absurd h1 (by decide)

/-- A non-empty block section ends in the last block’s semicolon. -/
theorem blocksData_getLast (entries : List IconEntry) (h : entries ≠ []) :
    (blocksData entries).getLast? = some ';' := by
  induction entries with
  | nil => exact absurd rfl h
  | cons e rest ih =>
    have hrw : blocksData (e :: rest) =
        ['\n', '\n'] ++ ((renderEntry e).data ++ blocksData rest) := rfl
    rw [hrw, getLast_append_right _ ((renderEntry e).data ++ blocksData rest)
      (fun hc => renderEntry_ne_nil e (List.append_eq_nil.mp hc).1)]
    cases rest with
    | nil =>
      have hb : blocksData ([] : List IconEntry) = [] := rfl
      rw [hb, List.append_nil]
      exact renderEntry_getLast e
    | cons r rs =>
      rw [getLast_append_right _ (blocksData (r :: rs)) (by
        intro hc
        have hrw2 : blocksData (r :: rs) =
            '\n' :: '\n' :: ((renderEntry r).data ++ blocksData rs) := rfl
        rw [hrw2] at hc
        exact absurd hc (by simp))]
      exact ih (by simp)

/-- Trailing-whitespace trim against an explicit split: the whitespace tail is removed exactly. -/
theorem trimEnd_data_of_split (s : String) (a b : List Char)
    (hs : s.data = a ++ b) (hball : ∀ c ∈ b, isSpaceC c = true)
    (ha : ∀ c, a.getLast? = some c → isSpaceC c = false) :
    (jsTrimEnd s).data = a := by
  simp only [jsTrimEnd, asString_data, hs]
  rw [List.reverse_append]
  rcases List.eq_nil_or_concat a with rfl | ⟨L, cl, rfl⟩
  · simp only [List.reverse_nil, List.append_nil]
    rw [(List.dropWhile_eq_nil_iff).mpr
      (fun x hx => hball x (List.mem_reverse.mp hx))]
    rfl
  · simp only [List.concat_eq_append] at ha ⊢
    have hcl : isSpaceC cl = false := ha cl (by rw [List.getLast?_concat])
    have hrv : (L ++ [cl]).reverse = cl :: L.reverse := by simp
    rw [hrv]
    rw [dropWhile_all_append L.reverse
      (fun c hc => hball c (List.mem_reverse.mp hc)) hcl]
    simp

/-- The raw characters of a rendered managed file. -/
theorem renderFile_data (hfw : IconFramework) (entries : List IconEntry) :
    (renderFile hfw entries).data =
      (jsTrimEnd (getFileHeader hfw)).data ++ blocksData entries ++ ['\n'] := rfl

/-- Re-trimming a rendered managed file strips exactly the final newline, as `addIconToFile` does before appending. -/
theorem renderFile_trim (hfw : IconFramework) (entries : List IconEntry)
    (hval : ∀ e ∈ entries, validEntry e = true) :
    (jsTrimEnd (renderFile hfw entries)).data =
      (jsTrimEnd (getFileHeader hfw)).data ++ blocksData entries := by
  refine trimEnd_data_of_split _
    ((jsTrimEnd (getFileHeader hfw)).data ++ blocksData entries) ['\n']
    (renderFile_data hfw entries) ?_ ?_
  · intro c hc
    rcases List.mem_singleton.mp hc with rfl
    decide
  · intro c hc
    by_cases hn : entries = []
    · subst hn
      have hb0 : blocksData ([] : List IconEntry) = [] := rfl
      rw [hb0, List.append_nil] at hc
      cases hfw with
      | react =>
        rw [show (jsTrimEnd (getFileHeader .react)).data.getLast? = some ';'
          from by decide] at hc
        injection hc with h
        rw [← h]; decide
      | vue =>
        rw [show (jsTrimEnd (getFileHeader .vue)).data.getLast? = some 's'
          from by decide] at hc
        injection hc with h
        rw [← h]; decide
      | svelte =>
        rw [show (jsTrimEnd (getFileHeader .svelte)).data.getLast? = some '\x7d'
          from by decide] at hc
        injection hc with h
        rw [← h]; decide
      | solid =>
        rw [show (jsTrimEnd (getFileHeader .solid)).data.getLast? = some ';'
          from by decide] at hc
        injection hc with h
        rw [← h]; decide
      | svg =>
        rw [show (jsTrimEnd (getFileHeader .svg)).data.getLast? = some 's'
          from by decide] at hc
        injection hc with h
        rw [← h]; decide
    · have hbne : blocksData entries ≠ [] := by
        cases entries with
        | nil => exact absurd rfl hn
        | cons e r =>
          have hrw : blocksData (e :: r) =
              '\n' :: '\n' :: ((renderEntry e).data ++ blocksData r) := rfl
          rw [hrw]; simp
      rw [getLast_append_right _ (blocksData entries) hbne,
        blocksData_getLast entries hn] at hc
      injection hc with h
      rw [← h]; decide

/-- The primary scan over the block section recovers exactly the entries’ (id, name) pairs in order. -/
theorem scanPairs_blocks (entries : List IconEntry)
    (hval : ∀ e ∈ entries, validEntry e = true) :
    scanPairs (blocksData entries ++ ['\n']) =
      entries.map (fun e => (e.iconId, e.componentName)) := by
  induction entries with
  | nil => decide
  | cons e rest ih =>
    have hrw : blocksData (e :: rest) ++ ['\n'] =
        '\n' :: '\n' :: ((renderEntry e).data ++ (blocksData rest ++ ['\n'])) := by
      have h0 : blocksData (e :: rest) =
          '\n' :: '\n' :: ((renderEntry e).data ++ blocksData rest) := rfl
      rw [h0]
      simp [List.append_assoc]
    rw [hrw]
    obtain ⟨restB, hmatch, hnoss, hlast⟩ := renderEntry_parse e (hval e (by simp))
    rw [scanPairs_cons_none (matchAt_none_of_not_slashes (by simp [List.isPrefixOf]))]
    rw [scanPairs_cons_none (matchAt_none_of_not_slashes (by simp [List.isPrefixOf]))]
    obtain ⟨c, l, hcl⟩ := List.exists_cons_of_ne_nil (renderEntry_ne_nil e)
    have hm := hmatch (blocksData rest ++ ['\n'])
    rw [hcl] at hm
    rw [hcl, List.cons_append]
    rw [List.cons_append] at hm
    rw [scanPairs_cons_some hm]
    rw [scanPairs_skip (noSS_NoMatch restB _ hnoss (fun hsl => by
      rw [hlast] at hsl
      exact absurd hsl (by decide)))]
    rw [List.map_cons, ih (fun e' h' => hval e' (by simp [h']))]

/-- parseExistingIcons over a valid rendered managed file yields exactly the entries’ (id, name) pairs in order. -/
theorem parse_renderFile (hfw : IconFramework) (entries : List IconEntry)
    (hval : ∀ e ∈ entries, validEntry e = true) :
    parsePairs (renderFile hfw entries) =
      entries.map (fun e => (e.iconId, e.componentName)) := by
  have hnb : occursIn ['<', '!'] (renderFile hfw entries).data = false := by
    rw [renderFile_data, List.append_assoc]
    refine occursIn_two_append ?_ ?_ ?_
    · cases hfw <;> decide
    · refine occursIn_two_append (blocksData_noBang entries hval) (by decide) ?_
      rintro ⟨h1, _⟩
      cases entries with
      | nil => exact absurd h1 (by decide)
      | cons e r =>
        rw [blocksData_getLast (e :: r) (by simp)] at h1
        exact absurd h1 (by decide)
    · rintro ⟨_, h2⟩
      cases entries with
      | nil => exact absurd h2 (by decide)
      | cons e r =>
        have hh : (blocksData (e :: r) ++ ['\n']).head? = some '\n' := rfl
        rw [hh] at h2
        exact absurd h2 (by decide)
  simp only [parsePairs]
  rw [vueScan_nil hnb, List.append_nil]
  rw [renderFile_data, List.append_assoc, scanPairs_skip (header_NoMatch hfw _)]
  exact scanPairs_blocks entries hval

/-- The component name `addIconToFile` settles on: a falsy (absent or empty) custom name falls back to the derived name. -/
def usedName (iconId : String) (customName : Option String) : String :=
  match customName with
  | some nm => if nm = "" then iconIdToComponentName iconId else nm
  | none => iconIdToComponentName iconId

/-- Strings with equal character data are equal. -/
theorem string_data_eq {s t : String} (h : s.data = t.data) : s = t := by
  cases s
  cases t
  exact congrArg String.mk h

/-- The block section splits over an entry-list append. -/
theorem blocksData_append (a b : List IconEntry) :
    blocksData (a ++ b) = blocksData a ++ blocksData b := by
  induction a with
  | nil => rfl
  | cons e r ih =>
    have h1 : blocksData ((e :: r) ++ b) =
        '\n' :: '\n' :: ((renderEntry e).data ++ blocksData (r ++ b)) := rfl
    have h2 : blocksData (e :: r) =
        '\n' :: '\n' :: ((renderEntry e).data ++ blocksData r) := rfl
    rw [h1, h2, ih]
    simp [List.append_assoc]

/-- On a valid managed file already containing the icon id, `addIconToFile` reports the last recorded component name for it and leaves the file untouched. -/
theorem addIcon_dup (hfw fw : IconFramework) (entries : List IconEntry)
    (id svg : String) (cn : Option String) (pr : String × String)
    (hval : ∀ e ∈ entries, validEntry e = true)
    (hlastm : ((entries.map (fun e => (e.iconId, e.componentName))).filter
      (fun q => q.1 == id)).getLast? = some pr) :
    addIconToFile (some (renderFile hfw entries)) id svg fw cn =
      ({ componentName := pr.2, alreadyExists := true,
          existingName := some pr.2 },
        some (renderFile hfw entries)) := by
  simp only [addIconToFile, parseFilePairs]
  rw [parse_renderFile hfw entries hval, hlastm]

/-- On a valid managed file not containing the icon id, `addIconToFile` appends exactly one block: the new state is the managed render of the old entries plus the new one. -/
theorem addIcon_fresh (hfw fw : IconFramework) (entries : List IconEntry)
    (id svg : String) (cn : Option String)
    (hval : ∀ e ∈ entries, validEntry e = true)
    (hfresh : ∀ e ∈ entries, e.iconId ≠ id) :
    addIconToFile (some (renderFile hfw entries)) id svg fw cn =
      ({ componentName := usedName id cn, alreadyExists := false,
          existingName := none },
        some (renderFile hfw (entries ++
          [⟨fw, id, usedName id cn, svg⟩]))) := by
  have hfilter : ((entries.map (fun e => (e.iconId, e.componentName))).filter
      (fun q => q.1 == id)) = [] := by
    rw [List.filter_eq_nil_iff]
    intro q hq
    obtain ⟨e, he, rfl⟩ := List.mem_map.mp hq
    simp [hfresh e he]
  have hcontent : jsTrimEnd (renderFile hfw entries) ++ "\n\n" ++
      generateIconComponent (usedName id cn) svg id fw ++ "\n" =
      renderFile hfw (entries ++ [⟨fw, id, usedName id cn, svg⟩]) := by
    apply string_data_eq
    rw [String.data_append, String.data_append, String.data_append]
    rw [renderFile_trim hfw entries hval, renderFile_data]
    rw [blocksData_append]
    have hb1 : blocksData [(⟨fw, id, usedName id cn, svg⟩ : IconEntry)] =
        '\n' :: '\n' ::
          ((renderEntry ⟨fw, id, usedName id cn, svg⟩).data ++ []) := rfl
    rw [hb1, List.append_nil]
    have hre : renderEntry (⟨fw, id, usedName id cn, svg⟩ : IconEntry) =
        generateIconComponent (usedName id cn) svg id fw := rfl
    rw [hre]
    have hnn : ("\n\n" : String).data = ['\n', '\n'] := rfl
    have hn1 : ("\n" : String).data = ['\n'] := rfl
    rw [hnn, hn1]
    simp [List.append_assoc]
  simp only [addIconToFile, parseFilePairs]
  rw [parse_renderFile hfw entries hval, hfilter]
  simp only [usedName] at hcontent
  rw [show (List.getLast? ([] : List (String × String))) = none from rfl]
  simp only [usedName]
  rw [hcontent]

/-- On an absent file, `addIconToFile` creates the managed render of the single new entry over a fresh flavor header. -/
theorem addIcon_none (id svg : String) (fw : IconFramework) (cn : Option String) :
    addIconToFile none id svg fw cn =
      ({ componentName := usedName id cn, alreadyExists := false,
          existingName := none },
        some (renderFile fw [⟨fw, id, usedName id cn, svg⟩])) := by
  have hcontent : jsTrimEnd (getFileHeader fw) ++ "\n\n" ++
      generateIconComponent (usedName id cn) svg id fw ++ "\n" =
      renderFile fw [⟨fw, id, usedName id cn, svg⟩] := by
    apply string_data_eq
    rw [String.data_append, String.data_append, String.data_append]
    rw [renderFile_data]
    have hb1 : blocksData [(⟨fw, id, usedName id cn, svg⟩ : IconEntry)] =
        '\n' :: '\n' ::
          ((renderEntry ⟨fw, id, usedName id cn, svg⟩).data ++ []) := rfl
    rw [hb1, List.append_nil]
    have hre : renderEntry (⟨fw, id, usedName id cn, svg⟩ : IconEntry) =
        generateIconComponent (usedName id cn) svg id fw := rfl
    rw [hre]
    have hnn : ("\n\n" : String).data = ['\n', '\n'] := rfl
    have hn1 : ("\n" : String).data = ['\n'] := rfl
    rw [hnn, hn1]
    simp [List.append_assoc]
  simp only [addIconToFile, parseFilePairs]
  rw [show ((([] : List (String × String)).filter
    (fun q => q.1 == id)).getLast?) = none from rfl]
  simp only [usedName] at hcontent
  simp only [usedName]
  rw [hcontent]


/-- Claim C1, amended: on a valid managed file, for a parse-exact icon id, a component name the export pattern captures in full and benign markup, invoking `addIconToFile` twice with the same icon id returns `alreadyExists = true` and the first call’s component name on the second call, and the file content after the second call equals the content after the first. (Without these validity bounds the contract fails: see the counterexample.) -/
theorem C1_addIconToFile_idempotent (hfw fw : IconFramework) (entries : List IconEntry)
    (id svg : String) (cn : Option String)
    (hval : ∀ e ∈ entries, validEntry e = true)
    (hid : validIconId id = true)
    (hnm : validName (usedName id cn) = true)
    (hmk : benignMarkup svg = true) :
    (addIconToFile (addIconToFile (some (renderFile hfw entries)) id svg fw cn).2
        id svg fw cn).1.alreadyExists = true ∧
    (addIconToFile (addIconToFile (some (renderFile hfw entries)) id svg fw cn).2
        id svg fw cn).1.componentName =
      (addIconToFile (some (renderFile hfw entries)) id svg fw cn).1.componentName ∧
    (addIconToFile (addIconToFile (some (renderFile hfw entries)) id svg fw cn).2
        id svg fw cn).2 =
      (addIconToFile (some (renderFile hfw entries)) id svg fw cn).2 := by
  cases hcase : ((entries.map (fun e => (e.iconId, e.componentName))).filter
      (fun q => q.1 == id)).getLast? with
  | some pr =>
    have h1 := addIcon_dup hfw fw entries id svg cn pr hval hcase
    simp [h1]
  | none =>
    have hfilter : ((entries.map (fun e => (e.iconId, e.componentName))).filter
        (fun q => q.1 == id)) = [] := by
      cases hf : ((entries.map (fun e => (e.iconId, e.componentName))).filter
          (fun q => q.1 == id)) with
      | nil => rfl
      | cons x xs =>
        rw [hf] at hcase
        exact absurd hcase (by simp)
    have hfresh : ∀ e ∈ entries, e.iconId ≠ id := by
      intro e he heq
      have hmem : (e.iconId, e.componentName) ∈
          ((entries.map (fun e => (e.iconId, e.componentName))).filter
            (fun q => q.1 == id)) :=
        List.mem_filter.mpr ⟨List.mem_map_of_mem _ he, by simp [heq]⟩
      rw [hfilter] at hmem
      exact absurd hmem (by simp)
    have h1 := addIcon_fresh hfw fw entries id svg cn hval hfresh
    have hval' : ∀ e ∈ entries ++ [(⟨fw, id, usedName id cn, svg⟩ : IconEntry)],
        validEntry e = true := by
      intro e he
      rcases List.mem_append.mp he with h | h
      · exact hval e h
      · rcases List.mem_singleton.mp h with rfl
        simp [validEntry, hid, hnm, hmk]
    have hlast2 : (((entries ++ [(⟨fw, id, usedName id cn, svg⟩ : IconEntry)]).map
        (fun e => (e.iconId, e.componentName))).filter
          (fun q => q.1 == id)).getLast? = some (id, usedName id cn) := by
      rw [List.map_append, List.filter_append, hfilter, List.nil_append]
      simp
    have h2 := addIcon_dup hfw fw (entries ++ [⟨fw, id, usedName id cn, svg⟩])
      id svg cn (id, usedName id cn) hval' hlast2
    simp [h1, h2]

/-- Unfolding one step of a call sequence. -/
theorem runAdds_cons (f : Option String)
    (op : String × String × IconFramework × Option String)
    (ops : List (String × String × IconFramework × Option String)) :
    runAdds f (op :: ops) =
      runAdds (addIconToFile f op.1 op.2.1 op.2.2.1 op.2.2.2).2 ops := rfl

/-- A sequence of calls starting from a valid managed state with pairwise-distinct icon ids ends in a valid managed state with pairwise-distinct icon ids. -/
theorem runAdds_from_managed
    (ops : List (String × String × IconFramework × Option String)) :
    ∀ (hfw : IconFramework) (entries : List IconEntry),
      (∀ op ∈ ops, validIconId op.1 = true ∧
        validName (usedName op.1 op.2.2.2) = true ∧
        benignMarkup op.2.1 = true) →
      (∀ e ∈ entries, validEntry e = true) →
      (entries.map IconEntry.iconId).Nodup →
      ∃ entries', runAdds (some (renderFile hfw entries)) ops =
          some (renderFile hfw entries') ∧
        (∀ e ∈ entries', validEntry e = true) ∧
        (entries'.map IconEntry.iconId).Nodup := by
  induction ops with
  | nil =>
    intro hfw entries _ hval hnd
    exact ⟨entries, rfl, hval, hnd⟩
  | cons op ops' ih =>
    intro hfw entries hops hval hnd
    obtain ⟨hid, hnm, hmk⟩ := hops op (by simp)
    rw [runAdds_cons]
    cases hcase : ((entries.map (fun e => (e.iconId, e.componentName))).filter
        (fun q => q.1 == op.1)).getLast? with
    | some pr =>
      have h1 := addIcon_dup hfw op.2.2.1 entries op.1 op.2.1 op.2.2.2 pr hval hcase
      rw [h1]
      exact ih hfw entries (fun op' h' => hops op' (by simp [h'])) hval hnd
    | none =>
      have hfilter : ((entries.map (fun e => (e.iconId, e.componentName))).filter
          (fun q => q.1 == op.1)) = [] := by
        cases hf : ((entries.map (fun e => (e.iconId, e.componentName))).filter
            (fun q => q.1 == op.1)) with
        | nil => rfl
        | cons x xs =>
          rw [hf] at hcase
          exact absurd hcase (by simp)
      have hfresh : ∀ e ∈ entries, e.iconId ≠ op.1 := by
        intro e he heq
        have hmem : (e.iconId, e.componentName) ∈
            ((entries.map (fun e => (e.iconId, e.componentName))).filter
              (fun q => q.1 == op.1)) :=
          List.mem_filter.mpr ⟨List.mem_map_of_mem _ he, by simp [heq]⟩
        rw [hfilter] at hmem
        exact absurd hmem (by simp)
      have h1 := addIcon_fresh hfw op.2.2.1 entries op.1 op.2.1 op.2.2.2 hval hfresh
      rw [h1]
      have hval' : ∀ e ∈ entries ++
          [(⟨op.2.2.1, op.1, usedName op.1 op.2.2.2, op.2.1⟩ : IconEntry)],
          validEntry e = true := by
        intro e he
        rcases List.mem_append.mp he with h | h
        · exact hval e h
        · rcases List.mem_singleton.mp h with rfl
          simp [validEntry, hid, hnm, hmk]
      have hnd' : ((entries ++
          [(⟨op.2.2.1, op.1, usedName op.1 op.2.2.2, op.2.1⟩ : IconEntry)]).map
            IconEntry.iconId).Nodup := by
        rw [List.map_append, List.nodup_append]
        refine ⟨hnd, by simp, ?_⟩
        intro a ha hb
        obtain ⟨e, he, rfl⟩ := List.mem_map.mp ha
        have hb' : e.iconId = op.1 := by simpa using hb
        exact hfresh e he hb'
      exact ih hfw _ (fun op' h' => hops op' (by simp [h'])) hval' hnd'

/-- Claim C3, amended: in every file produced by a sequence of `addIconToFile` calls from an absent file whose icon ids are parse-exact, whose settled component names are capture-exact and whose markups are benign, the parsed icon ids are pairwise distinct — iconId is unique within a managed file. (Component-name uniqueness fails: see the counterexample.) -/
theorem C3_iconId_unique (ops : List (String × String × IconFramework × Option String))
    (hops : ∀ op ∈ ops, validIconId op.1 = true ∧
      validName (usedName op.1 op.2.2.2) = true ∧
      benignMarkup op.2.1 = true) :
    ((parseFilePairs (runAdds none ops)).map Prod.fst).Nodup := by
  cases ops with
  | nil => simp [runAdds, parseFilePairs]
  | cons op ops' =>
    obtain ⟨hid, hnm, hmk⟩ := hops op (by simp)
    have h0 := addIcon_none op.1 op.2.1 op.2.2.1 op.2.2.2
    obtain ⟨entries', hrun, hval', hnd'⟩ := runAdds_from_managed ops' op.2.2.1
      [⟨op.2.2.1, op.1, usedName op.1 op.2.2.2, op.2.1⟩]
      (fun op' h' => hops op' (by simp [h']))
      (by
        intro e he
        rcases List.mem_singleton.mp he with rfl
        simp [validEntry, hid, hnm, hmk])
      (by simp)
    have hrun' : runAdds (addIconToFile none op.1 op.2.1 op.2.2.1 op.2.2.2).2 ops' =
        some (renderFile op.2.2.1 entries') := by
      rw [h0]
      exact hrun
    rw [runAdds_cons, hrun']
    simp only [parseFilePairs]
    rw [parse_renderFile _ _ hval']
    rw [List.map_map]
    exact hnd'

/-- A global replace whose pattern matches nowhere in the first four characters keeps a `<svg` prefix in place. -/
theorem jsReplaceAll_svg_prefix (s pat rep : String) (r : List Char)
    (hs : s.data = '<' :: 's' :: 'v' :: 'g' :: r)
    (hp : pat.data.isEmpty = false)
    (h0 : pat.data.isPrefixOf ('<' :: 's' :: 'v' :: 'g' :: r) = false)
    (h1 : pat.data.isPrefixOf ('s' :: 'v' :: 'g' :: r) = false)
    (h2 : pat.data.isPrefixOf ('v' :: 'g' :: r) = false)
    (h3 : pat.data.isPrefixOf ('g' :: r) = false) :
    (jsReplaceAll s pat rep).data =
      '<' :: 's' :: 'v' :: 'g' :: replaceAllGo pat.data rep.data r.length r := by
  simp only [jsReplaceAll, hp, Bool.false_eq_true, if_false, asString_data]
  rw [hs]
  simp only [List.length_cons]
  rw [ replaceAllGo_cons_of_not_prefix _ h0,
    replaceAllGo_cons_of_not_prefix _ h1,
    replaceAllGo_cons_of_not_prefix _ h2,
    replaceAllGo_cons_of_not_prefix _ h3]

/-- A first-occurrence replace of `<svg` on a string starting with `<svg` substitutes at position zero. -/
theorem jsReplaceFirst_svg (s rep : String) (r : List Char)
    (hs : s.data = '<' :: 's' :: 'v' :: 'g' :: r) :
    (jsReplaceFirst s "<svg" rep).data = rep.data ++ r := by
  simp only [jsReplaceFirst, asString_data]
  rw [hs]
  rw [ replaceFirstL_at_prefix (by simp [List.isPrefixOf])]
  simp

/-- Every generated declaration is preceded by the single-line comment `// iconId` recording the source icon id verbatim. -/
theorem generate_marker (name svg iconId : String) (fw : IconFramework) :
    ∃ t : List Char, (generateIconComponent name svg iconId fw).data =
      "// ".data ++ iconId.data ++ '\n' :: t := by
  have h1 : ("\nexport const " : String).data =
      '\n' :: ("export const " : String).data := rfl
  cases fw with
  | react =>
    refine ⟨("export const " ++ name ++
      " = (props: React.SVGProps<SVGSVGElement>) => (\n  " ++
      jsReplaceFirst
        (jsReplaceAll (jsReplaceAll (jsReplaceAll (jsReplaceAll (jsReplaceAll
          (jsReplaceAll (cleanSvgOf svg) "class=" "className=")
          "clip-path=" "clipPath=")
          "fill-rule=" "fillRule=")
          "stroke-width=" "strokeWidth=")
          "stroke-linecap=" "strokeLinecap=")
          "stroke-linejoin=" "strokeLinejoin=")
        "<svg" "<svg \x7b...props\x7d" ++ "\n);").data, ?_⟩
    simp [generateIconComponent, generateReactComponent, String.data_append,
      List.append_assoc, h1]
  | vue =>
    refine ⟨("export const " ++ name ++ " = \x7b\n  name: \"" ++ name ++
      "\",\n  inheritAttrs: false,\n  template: `" ++
      jsReplaceFirst (jsReplaceAll (cleanSvgOf svg) "`" "\\`")
        "<svg" "<svg v-bind=\"$attrs\"" ++ "`,\n\x7d;").data, ?_⟩
    simp [generateIconComponent, generateVueComponent, String.data_append,
      List.append_assoc, h1]
  | svelte =>
    have h2 : ("\n// Use with: \x7b@html " : String).data =
        '\n' :: ("// Use with: \x7b@html " : String).data := rfl
    refine ⟨("// Use with: \x7b@html " ++ name ++ "\x7d or \x7b@html " ++ name ++
      "WithClass(\"my-class\")\x7d\nexport const " ++ name ++ " = `" ++
      jsReplaceAll (cleanSvgOf svg) "`" "\\`" ++ "`;\nexport const " ++ name ++
      "WithClass = (className: string) => `" ++
      jsReplaceFirst (jsReplaceAll (cleanSvgOf svg) "`" "\\`")
        "<svg" "<svg class=\"$\x7bclassName\x7d\"" ++ "`;").data, ?_⟩
    simp [generateIconComponent, generateSvelteComponent, String.data_append,
      List.append_assoc, h2]
  | solid =>
    refine ⟨("export const " ++ name ++
      " = (props: JSX.IntrinsicElements[\"svg\"]) => (\n  " ++
      jsReplaceFirst (cleanSvgOf svg) "<svg" "<svg \x7b...props\x7d" ++
      "\n);").data, ?_⟩
    simp [generateIconComponent, generateSolidComponent, String.data_append,
      List.append_assoc, h1]
  | svg =>
    refine ⟨("export const " ++ name ++ " = `" ++ cleanSvgOf svg ++ "`;").data, ?_⟩
    simp [generateIconComponent, generateSvgExport, String.data_append,
      List.append_assoc, h1]

/-- A react component generated from markup whose cleaned form starts at its root `<svg` carries the `{...props}` spread on that root element. -/
theorem react_spread (name svg iconId : String)
    (hpre : "<svg".data.isPrefixOf (cleanSvgOf svg).data = true) :
    ∃ pre post : List Char,
      (generateIconComponent name svg iconId .react).data =
        pre ++ "<svg \x7b...props\x7d".data ++ post := by
  obtain ⟨r, hr⟩ := List.isPrefixOf_iff_prefix.mp hpre
  have hc : (cleanSvgOf svg).data = '<' :: 's' :: 'v' :: 'g' :: r := by
    rw [← hr]
    rfl
  have e1 := jsReplaceAll_svg_prefix (cleanSvgOf svg) "class=" "className=" r hc
    (by decide) (by simp [List.isPrefixOf]) (by simp [List.isPrefixOf])
    (by simp [List.isPrefixOf]) (by simp [List.isPrefixOf])
  have e2 := jsReplaceAll_svg_prefix _ "clip-path=" "clipPath=" _ e1
    (by decide) (by simp [List.isPrefixOf]) (by simp [List.isPrefixOf])
    (by simp [List.isPrefixOf]) (by simp [List.isPrefixOf])
  have e3 := jsReplaceAll_svg_prefix _ "fill-rule=" "fillRule=" _ e2
    (by decide) (by simp [List.isPrefixOf]) (by simp [List.isPrefixOf])
    (by simp [List.isPrefixOf]) (by simp [List.isPrefixOf])
  have e4 := jsReplaceAll_svg_prefix _ "stroke-width=" "strokeWidth=" _ e3
    (by decide) (by simp [List.isPrefixOf]) (by simp [List.isPrefixOf])
    (by simp [List.isPrefixOf]) (by simp [List.isPrefixOf])
  have e5 := jsReplaceAll_svg_prefix _ "stroke-linecap=" "strokeLinecap=" _ e4
    (by decide) (by simp [List.isPrefixOf]) (by simp [List.isPrefixOf])
    (by simp [List.isPrefixOf]) (by simp [List.isPrefixOf])
  have e6 := jsReplaceAll_svg_prefix _ "stroke-linejoin=" "strokeLinejoin=" _ e5
    (by decide) (by simp [List.isPrefixOf]) (by simp [List.isPrefixOf])
    (by simp [List.isPrefixOf]) (by simp [List.isPrefixOf])
  obtain ⟨R, hfirst⟩ : ∃ R', (jsReplaceFirst
      (jsReplaceAll (jsReplaceAll (jsReplaceAll (jsReplaceAll (jsReplaceAll
        (jsReplaceAll (cleanSvgOf svg) "class=" "className=")
        "clip-path=" "clipPath=")
        "fill-rule=" "fillRule=")
        "stroke-width=" "strokeWidth=")
        "stroke-linecap=" "strokeLinecap=")
        "stroke-linejoin=" "strokeLinejoin=")
      "<svg" "<svg \x7b...props\x7d").data =
      "<svg \x7b...props\x7d".data ++ R' :=
    ⟨_, jsReplaceFirst_svg _ "<svg \x7b...props\x7d" _ e6⟩
  refine ⟨("// " ++ iconId ++ "\nexport const " ++ name ++
    " = (props: React.SVGProps<SVGSVGElement>) => (\n  ").data,
    R ++ ("\n);" : String).data, ?_⟩
  simp only [generateIconComponent, generateReactComponent, String.data_append,
    List.append_assoc]
  rw [hfirst]
  simp [List.append_assoc]

/-- A vue component generated from markup whose cleaned form starts at its root `<svg` carries `v-bind="$attrs"` on that root element. -/
theorem vue_spread (name svg iconId : String)
    (hpre : "<svg".data.isPrefixOf (cleanSvgOf svg).data = true) :
    ∃ pre post : List Char,
      (generateIconComponent name svg iconId .vue).data =
        pre ++ "<svg v-bind=\"$attrs\"".data ++ post := by
  obtain ⟨r, hr⟩ := List.isPrefixOf_iff_prefix.mp hpre
  have hc : (cleanSvgOf svg).data = '<' :: 's' :: 'v' :: 'g' :: r := by
    rw [← hr]
    rfl
  have e1 := jsReplaceAll_svg_prefix (cleanSvgOf svg) "`" "\\`" r hc
    (by decide) (by simp [List.isPrefixOf]) (by simp [List.isPrefixOf])
    (by simp [List.isPrefixOf]) (by simp [List.isPrefixOf])
  obtain ⟨R, hfirst⟩ : ∃ R', (jsReplaceFirst
      (jsReplaceAll (cleanSvgOf svg) "`" "\\`")
      "<svg" "<svg v-bind=\"$attrs\"").data =
      "<svg v-bind=\"$attrs\"".data ++ R' :=
    ⟨_, jsReplaceFirst_svg _ "<svg v-bind=\"$attrs\"" _ e1⟩
  refine ⟨("// " ++ iconId ++ "\nexport const " ++ name ++
    " = \x7b\n  name: \"" ++ name ++
    "\",\n  inheritAttrs: false,\n  template: `").data,
    R ++ ("`,\n\x7d;" : String).data, ?_⟩
  simp only [generateIconComponent, generateVueComponent, String.data_append,
    List.append_assoc]
  rw [hfirst]
  simp [List.append_assoc]

/-- A solid component generated from markup whose cleaned form starts at its root `<svg` carries the `{...props}` spread on that root element. -/
theorem solid_spread (name svg iconId : String)
    (hpre : "<svg".data.isPrefixOf (cleanSvgOf svg).data = true) :
    ∃ pre post : List Char,
      (generateIconComponent name svg iconId .solid).data =
        pre ++ "<svg \x7b...props\x7d".data ++ post := by
  obtain ⟨r, hr⟩ := List.isPrefixOf_iff_prefix.mp hpre
  have hc : (cleanSvgOf svg).data = '<' :: 's' :: 'v' :: 'g' :: r := by
    rw [← hr]
    rfl
  obtain ⟨R, hfirst⟩ : ∃ R', (jsReplaceFirst (cleanSvgOf svg)
      "<svg" "<svg \x7b...props\x7d").data =
      "<svg \x7b...props\x7d".data ++ R' :=
    ⟨_, jsReplaceFirst_svg _ "<svg \x7b...props\x7d" _ hc⟩
  refine ⟨("// " ++ iconId ++ "\nexport const " ++ name ++
    " = (props: JSX.IntrinsicElements[\"svg\"]) => (\n  ").data,
    R ++ ("\n);" : String).data, ?_⟩
  simp only [generateIconComponent, generateSolidComponent, String.data_append,
    List.append_assoc]
  rw [hfirst]
  simp [List.append_assoc]

/-- Witness: the amended C1 statement holds at a concrete fresh managed file and icon. -/
theorem C1_addIconToFile_idempotent_witness :
    (addIconToFile (addIconToFile (some (renderFile .svg []))
        "lucide:home" "<svg/>" .svg none).2
        "lucide:home" "<svg/>" .svg none).1.alreadyExists = true ∧
    (addIconToFile (addIconToFile (some (renderFile .svg []))
        "lucide:home" "<svg/>" .svg none).2
        "lucide:home" "<svg/>" .svg none).1.componentName =
      (addIconToFile (some (renderFile .svg []))
        "lucide:home" "<svg/>" .svg none).1.componentName ∧
    (addIconToFile (addIconToFile (some (renderFile .svg []))
        "lucide:home" "<svg/>" .svg none).2
        "lucide:home" "<svg/>" .svg none).2 =
      (addIconToFile (some (renderFile .svg []))
        "lucide:home" "<svg/>" .svg none).2 :=
  C1_addIconToFile_idempotent .svg .svg [] "lucide:home" "<svg/>" none
    (by simp) (by decide) (by decide) (by decide)

/-- Counterexample to C1 as stated: with the malformed icon id `home` (no colon, so the marker comment never parses back), the second identical call reports `alreadyExists = false` again and grows the file. -/
theorem C1_counterexample :
    (addIconToFile (addIconToFile none "home" "<svg/>" .svg none).2
        "home" "<svg/>" .svg none).1.alreadyExists = false ∧
    (addIconToFile (addIconToFile none "home" "<svg/>" .svg none).2
        "home" "<svg/>" .svg none).2 ≠
      (addIconToFile none "home" "<svg/>" .svg none).2 := by
  refine ⟨by decide, by decide⟩

/-- Claim C2, amended: on a valid managed file, for a parse-exact icon id, a capture-exact settled component name and benign markup, a call returning `alreadyExists = false` leaves a file whose parse maps the icon id to the returned component name. (Without these validity bounds the postcondition fails: see the counterexample.) -/
theorem C2_parse_after_add (hfw fw : IconFramework) (entries : List IconEntry)
    (id svg : String) (cn : Option String)
    (hval : ∀ e ∈ entries, validEntry e = true)
    (hid : validIconId id = true)
    (hnm : validName (usedName id cn) = true)
    (hmk : benignMarkup svg = true)
    (hfresh : (addIconToFile (some (renderFile hfw entries))
      id svg fw cn).1.alreadyExists = false) :
    ∃ c : String,
      (addIconToFile (some (renderFile hfw entries)) id svg fw cn).2 = some c ∧
      parseGet c id = some ((addIconToFile (some (renderFile hfw entries))
        id svg fw cn).1.componentName) := by
  cases hcase : ((entries.map (fun e => (e.iconId, e.componentName))).filter
      (fun q => q.1 == id)).getLast? with
  | some pr =>
    have h1 := addIcon_dup hfw fw entries id svg cn pr hval hcase
    rw [h1] at hfresh
    simp at hfresh
  | none =>
    have hfilter : ((entries.map (fun e => (e.iconId, e.componentName))).filter
        (fun q => q.1 == id)) = [] := by
      cases hf : ((entries.map (fun e => (e.iconId, e.componentName))).filter
          (fun q => q.1 == id)) with
      | nil => rfl
      | cons x xs =>
        rw [hf] at hcase
        exact absurd hcase (by simp)
    have hfresh' : ∀ e ∈ entries, e.iconId ≠ id := by
      intro e he heq
      have hmem : (e.iconId, e.componentName) ∈
          ((entries.map (fun e => (e.iconId, e.componentName))).filter
            (fun q => q.1 == id)) :=
        List.mem_filter.mpr ⟨List.mem_map_of_mem _ he, by simp [heq]⟩
      rw [hfilter] at hmem
      exact absurd hmem (by simp)
    have h1 := addIcon_fresh hfw fw entries id svg cn hval hfresh'
    have hval' : ∀ e ∈ entries ++
        [(⟨fw, id, usedName id cn, svg⟩ : IconEntry)], validEntry e = true := by
      intro e he
      rcases List.mem_append.mp he with h | h
      · exact hval e h
      · rcases List.mem_singleton.mp h with rfl
        simp [validEntry, hid, hnm, hmk]
    have hlast2 : (((entries ++ [(⟨fw, id, usedName id cn, svg⟩ : IconEntry)]).map
        (fun e => (e.iconId, e.componentName))).filter
          (fun q => q.1 == id)).getLast? = some (id, usedName id cn) := by
      rw [List.map_append, List.filter_append, hfilter, List.nil_append]
      simp
    refine ⟨renderFile hfw (entries ++ [⟨fw, id, usedName id cn, svg⟩]), ?_, ?_⟩
    · rw [h1]
    · rw [h1]
      simp only [parseGet]
      rw [parse_renderFile hfw _ hval', hlast2]
      simp

/-- Witness: the amended C2 statement holds at a concrete fresh managed file and icon. -/
theorem C2_parse_after_add_witness :
    ∃ c : String,
      (addIconToFile (some (renderFile .svg []))
        "lucide:home" "<svg/>" .svg none).2 = some c ∧
      parseGet c "lucide:home" =
        some ((addIconToFile (some (renderFile .svg []))
          "lucide:home" "<svg/>" .svg none).1.componentName) :=
  C2_parse_after_add .svg .svg [] "lucide:home" "<svg/>" none
    (by simp) (by decide) (by decide) (by decide) (by decide)

/-- Counterexample to C2 as stated: adding the malformed icon id `home` returns `alreadyExists = false`, yet re-parsing the resulting file yields no mapping for `home`. -/
theorem C2_counterexample :
    (addIconToFile none "home" "<svg/>" .svg none).1.alreadyExists = false ∧
    parseGet ((addIconToFile none "home" "<svg/>" .svg none).2.getD "")
      "home" = none := by
  refine ⟨by decide, by decide⟩

/-- Witness: two adds with distinct valid ids produce a file with pairwise-distinct parsed icon ids. -/
theorem C3_iconId_unique_witness :
    ((parseFilePairs (runAdds none
      [("lucide:home", "<svg/>", .svg, none),
       ("mdi:arrow", "<svg/>", .svg, none)])).map Prod.fst).Nodup :=
  C3_iconId_unique
    [("lucide:home", "<svg/>", .svg, none), ("mdi:arrow", "<svg/>", .svg, none)]
    (by decide)

/-- Counterexample to C3 as stated: `lucide:home` and `mdi:home` both derive the component name `HomeIcon`, so a sequence of two successful calls produces a managed file with two blocks declaring the same component name. -/
theorem C3_counterexample :
    (addIconToFile (addIconToFile none "lucide:home" "<svg/>" .svg none).2
        "mdi:home" "<svg/>" .svg none).1.alreadyExists = false ∧
    ((parseFilePairs (runAdds none
      [("lucide:home", "<svg/>", .svg, none),
       ("mdi:home", "<svg/>", .svg, none)])).map Prod.snd) =
      ["HomeIcon", "HomeIcon"] ∧
    ¬ ((parseFilePairs (runAdds none
      [("lucide:home", "<svg/>", .svg, none),
       ("mdi:home", "<svg/>", .svg, none)])).map Prod.snd).Nodup := by
  refine ⟨by decide, by decide, by decide⟩

/-- Claim C5, corrected: every generated declaration is preceded by the verbatim `// iconId` marker comment, and for the react, vue and solid flavors (markup whose cleaned form starts at its root `<svg`) a spread-props point — `{...props}` or `v-bind="$attrs"` — is injected into the root element; the svelte and svg flavors export the markup as a template string with no spread point (see the counterexample). -/
theorem C5_marker_and_spread (name svg iconId : String) (fw : IconFramework)
    (hpre : "<svg".data.isPrefixOf (cleanSvgOf svg).data = true) :
    (∃ t : List Char, (generateIconComponent name svg iconId fw).data =
      "// ".data ++ iconId.data ++ '\n' :: t) ∧
    (fw = .react → ∃ pre post : List Char,
      (generateIconComponent name svg iconId fw).data =
        pre ++ "<svg \x7b...props\x7d".data ++ post) ∧
    (fw = .vue → ∃ pre post : List Char,
      (generateIconComponent name svg iconId fw).data =
        pre ++ "<svg v-bind=\"$attrs\"".data ++ post) ∧
    (fw = .solid → ∃ pre post : List Char,
      (generateIconComponent name svg iconId fw).data =
        pre ++ "<svg \x7b...props\x7d".data ++ post) := by
  refine ⟨generate_marker name svg iconId fw, ?_, ?_, ?_⟩
  · intro h
    subst h
    exact react_spread name svg iconId hpre
  · intro h
    subst h
    exact vue_spread name svg iconId hpre
  · intro h
    subst h
    exact solid_spread name svg iconId hpre

/-- Witness: the corrected C5 statement holds at a concrete react icon. -/
theorem C5_marker_and_spread_witness :
    (∃ t : List Char,
      (generateIconComponent "HomeIcon" "<svg></svg>" "lucide:home" .react).data =
        "// ".data ++ "lucide:home".data ++ '\n' :: t) ∧
    (IconFramework.react = .react → ∃ pre post : List Char,
      (generateIconComponent "HomeIcon" "<svg></svg>" "lucide:home" .react).data =
        pre ++ "<svg \x7b...props\x7d".data ++ post) ∧
    (IconFramework.react = .vue → ∃ pre post : List Char,
      (generateIconComponent "HomeIcon" "<svg></svg>" "lucide:home" .react).data =
        pre ++ "<svg v-bind=\"$attrs\"".data ++ post) ∧
    (IconFramework.react = .solid → ∃ pre post : List Char,
      (generateIconComponent "HomeIcon" "<svg></svg>" "lucide:home" .react).data =
        pre ++ "<svg \x7b...props\x7d".data ++ post) :=
  C5_marker_and_spread "HomeIcon" "<svg></svg>" "lucide:home" .react (by decide)

/-- Counterexample to C5 as stated: the svg flavor exports the cleaned markup verbatim with no spread-props point — the output contains neither a `...` spread nor `$attrs`. -/
theorem C5_counterexample :
    generateIconComponent "HomeIcon" "<svg></svg>" "lucide:home" .svg =
      "// lucide:home\nexport const HomeIcon = `<svg></svg>`;" ∧
    occursIn "...".data
      (generateIconComponent "HomeIcon" "<svg></svg>" "lucide:home" .svg).data =
      false ∧
    occursIn "$attrs".data
      (generateIconComponent "HomeIcon" "<svg></svg>" "lucide:home" .svg).data =
      false := by
  refine ⟨by decide, by decide, by decide⟩

/-- A fill-injection pass leaves any text without `<` unchanged. -/
theorem injectFillGo_id_noLt (e color : List Char) :
    ∀ (fuel : Nat) (s : List Char), (∀ ch ∈ s, ch ≠ '<') →
      injectFillGo e color fuel s = s := by
  intro fuel
  induction fuel with
  | zero => intro s _; rfl
  | succ f ih =>
    intro s h
    cases s with
    | nil => rfl
    | cons c rest =>
      have hc : c ≠ '<' := h c (List.mem_cons_self c rest)
      have hcond : (c = '<' && e.isPrefixOf rest) = false := by simp [hc]
      simp only [injectFillGo, hcond, Bool.false_eq_true, if_false]
      exact congrArg (c :: ·)
        (ih rest (fun ch hch => h ch (List.mem_cons_of_mem c hch)))

/-- A fill-injection pass walks over a `<`-free prefix unchanged and continues behind it. -/
theorem injectFillGo_pre (e color : List Char) :
    ∀ (pre : List Char) (fuel : Nat) (s : List Char), (∀ ch ∈ pre, ch ≠ '<') →
      injectFillGo e color (pre.length + fuel) (pre ++ s) =
        pre ++ injectFillGo e color fuel s := by
  intro pre
  induction pre with
  | nil => intro fuel s _; simp
  | cons c p ih =>
    intro fuel s h
    have hc : c ≠ '<' := h c (List.mem_cons_self c p)
    have hcond : (c = '<' && e.isPrefixOf (p ++ s)) = false := by simp [hc]
    have hlen : (c :: p).length + fuel = p.length + fuel + 1 := by
      show p.length + 1 + fuel = p.length + fuel + 1
      omega
    rw [hlen]
    simp only [List.cons_append]
    simp only [injectFillGo, hcond, Bool.false_eq_true, if_false]
    rw [ih fuel s (fun ch hch => h ch (List.mem_cons_of_mem c hch))]

/-- Splitting at the first `>` after a `>`-free segment cuts exactly there. -/
theorem splitAtGt_append :
    ∀ (a r : List Char), (∀ ch ∈ a, ch ≠ '>') →
      splitAtGt (a ++ '>' :: r) = some (a, r) := by
  intro a
  induction a with
  | nil => intro r _; simp [splitAtGt]
  | cons c a' ih =>
    intro r h
    have hc : c ≠ '>' := h c (List.mem_cons_self c a')
    rw [List.cons_append]
    simp only [splitAtGt]
    rw [if_neg hc]
    rw [ih r (fun ch hch => h ch (List.mem_cons_of_mem c hch))]

/-- A `>`-free pattern that fails on a `>`-free text still fails when the text continues with `>`. -/
theorem isPrefixOf_gt_break :
    ∀ (pat : List Char), (∀ ch ∈ pat, ch ≠ '>') →
      ∀ (a r : List Char), pat.isPrefixOf a = false →
        pat.isPrefixOf (a ++ '>' :: r) = false := by
  intro pat
  induction pat with
  | nil => intro _ a r hpa; simp [List.isPrefixOf] at hpa
  | cons p ps ih =>
    intro h a r hpa
    cases a with
    | nil =>
      have hp : p ≠ '>' := h p (List.mem_cons_self p ps)
      simp [List.isPrefixOf, hp]
    | cons c a' =>
      simp only [List.isPrefixOf, Bool.and_eq_false_iff] at hpa
      rw [List.cons_append]
      simp only [List.isPrefixOf, Bool.and_eq_false_iff]
      rcases hpa with hpc | hrec
      · exact Or.inl hpc
      · exact Or.inr
          (ih (fun ch hch => h ch (List.mem_cons_of_mem p hch)) a' r hrec)

/-- The lookahead rejects a tag whose text up to the closing `>` contains neither `fill=` nor `stroke=`. -/
theorem hasFillStroke_none :
    ∀ (a r : List Char), (∀ ch ∈ a, ch ≠ '>') →
      occursIn "fill=".data a = false → occursIn "stroke=".data a = false →
      hasFillStrokeBeforeGt (a ++ '>' :: r) = false := by
  intro a
  induction a with
  | nil =>
    intro r _ _ _
    simp [hasFillStrokeBeforeGt, List.isPrefixOf]
  | cons c a' ih =>
    intro r h hf hs
    simp only [occursIn, Bool.or_eq_false_iff] at hf hs
    rw [List.cons_append]
    simp only [hasFillStrokeBeforeGt, Bool.or_eq_false_iff]
    have hrec := ih r (fun ch hch => h ch (List.mem_cons_of_mem c hch)) hf.2 hs.2
    refine ⟨⟨isPrefixOf_gt_break _ (by decide) _ r hf.1,
      isPrefixOf_gt_break _ (by decide) _ r hs.1⟩, ?_⟩
    simp [hrec]

/-- The lookahead accepts a tag whose pre-`>` text contains `fill=` or `stroke=`. -/
theorem hasFillStroke_of_occurs :
    ∀ (a r : List Char), (∀ ch ∈ a, ch ≠ '>') →
      (occursIn "fill=".data a || occursIn "stroke=".data a) = true →
      hasFillStrokeBeforeGt (a ++ r) = true := by
  intro a
  induction a with
  | nil =>
    intro r _ h
    simp [occursIn, List.isPrefixOf] at h
  | cons c a' ih =>
    intro r h hocc
    have hc : c ≠ '>' := h c (List.mem_cons_self c a')
    rw [List.cons_append]
    simp only [hasFillStrokeBeforeGt]
    simp only [occursIn] at hocc
    rcases Bool.or_eq_true_iff.mp hocc with h1 | h2
    · rcases Bool.or_eq_true_iff.mp h1 with h1a | h1b
      · have hx : "fill=".data.isPrefixOf (c :: (a' ++ r)) = true :=
          isPrefixOf_append_of_isPrefixOf r h1a
        simp [hx]
      · have hrec := ih r (fun ch hch => h ch (List.mem_cons_of_mem c hch))
          (by simp [h1b])
        simp [hrec, hc]
    · rcases Bool.or_eq_true_iff.mp h2 with h2a | h2b
      · have hx : "stroke=".data.isPrefixOf (c :: (a' ++ r)) = true :=
          isPrefixOf_append_of_isPrefixOf r h2a
        simp [hx]
      · have hrec := ih r (fun ch hch => h ch (List.mem_cons_of_mem c hch))
          (by simp [h2b])
        simp [hrec, hc]

/-- Two lists neither of which is a prefix of the other disagree within their common length, so the mismatch survives any extension. -/
theorem isPrefixOf_append_false_of_neither :
    ∀ (p a : List Char), p.isPrefixOf a = false → a.isPrefixOf p = false →
      ∀ (X : List Char), p.isPrefixOf (a ++ X) = false := by
  intro p
  induction p with
  | nil => intro a hpa _ _; simp [List.isPrefixOf] at hpa
  | cons q ps ih =>
    intro a hpa hap X
    cases a with
    | nil => simp [List.isPrefixOf] at hap
    | cons c a' =>
      simp only [List.isPrefixOf, Bool.and_eq_false_iff] at hpa hap
      rw [List.cons_append]
      simp only [List.isPrefixOf, Bool.and_eq_false_iff]
      rcases hpa with hqc | hrec
      · exact Or.inl hqc
      · rcases hap with hcq | hrec2
        · refine Or.inl ?_
          cases hqq : (q == c) with
          | false => rfl
          | true =>
            have : q = c := by simpa using hqq
            subst this
            simp at hcq
        · exact Or.inr (ih a' hrec hrec2 X)

/-- A pass over a body with a single `<` leaves it unchanged when the element name does not match there or the lookahead blocks the match. -/
theorem injectFillGo_single_unchanged (e color : List Char) (pre rest : List Char)
    (hpre : ∀ ch ∈ pre, ch ≠ '<') (hrest : ∀ ch ∈ rest, ch ≠ '<')
    (hcase : e.isPrefixOf rest = false ∨
      hasFillStrokeBeforeGt (rest.drop e.length) = true) :
    injectFillGo e color ((pre ++ '<' :: rest).length) (pre ++ '<' :: rest) =
      pre ++ '<' :: rest := by
  have hlen : (pre ++ '<' :: rest).length = pre.length + (rest.length + 1) := by
    simp [List.length_append, List.length_cons]
  rw [hlen, injectFillGo_pre e color pre (rest.length + 1) ('<' :: rest) hpre]
  have hid := injectFillGo_id_noLt e color rest.length rest hrest
  by_cases hpf : e.isPrefixOf rest = true
  · have hla : hasFillStrokeBeforeGt (rest.drop e.length) = true := by
      rcases hcase with hnm | hla
      · rw [hpf] at hnm
        exact absurd hnm (by simp)
      · exact hla
    simp only [injectFillGo, hla, if_true]
    simp
    exact hid
  · have hpf' : e.isPrefixOf rest = false := by
      revert hpf
      cases e.isPrefixOf rest <;> simp
    simp only [injectFillGo]
    simp [hpf']
    exact hid

/-- A pass over a body with a single `<` followed by its element name and an undeclared tag inserts ` fill="color"` right after the name and leaves everything else in place. -/
theorem injectFillGo_single_insert (e color : List Char) (pre attrs post : List Char)
    (hpre : ∀ ch ∈ pre, ch ≠ '<')
    (ha2 : ∀ ch ∈ attrs, ch ≠ '>')
    (hpost : ∀ ch ∈ post, ch ≠ '<')
    (hf : occursIn "fill=".data attrs = false)
    (hs : occursIn "stroke=".data attrs = false) :
    injectFillGo e color ((pre ++ '<' :: (e ++ (attrs ++ '>' :: post))).length)
        (pre ++ '<' :: (e ++ (attrs ++ '>' :: post))) =
      pre ++ '<' :: ((e ++ (" fill=\"".data ++ color ++ ('"' :: attrs) ++ ['>'])) ++
        post) := by
  have hlen : (pre ++ '<' :: (e ++ (attrs ++ '>' :: post))).length =
      pre.length + ((e ++ (attrs ++ '>' :: post)).length + 1) := by
    simp [List.length_append, List.length_cons]
  rw [hlen, injectFillGo_pre e color pre _ _ hpre]
  have hpf : e.isPrefixOf (e ++ (attrs ++ '>' :: post)) = true :=
    isPrefixOf_append_of_isPrefixOf _
      (List.isPrefixOf_iff_prefix.mpr (List.prefix_refl e))
  have hcond : ('<' = '<' && e.isPrefixOf (e ++ (attrs ++ '>' :: post))) = true := by
    simp [hpf]
  have hdrop : (e ++ (attrs ++ '>' :: post)).drop e.length = attrs ++ '>' :: post :=
    List.drop_left e _
  have hla : hasFillStrokeBeforeGt
      ((e ++ (attrs ++ '>' :: post)).drop e.length) = false := by
    rw [hdrop]
    exact hasFillStroke_none attrs post ha2 hf hs
  have hsplit : splitAtGt ((e ++ (attrs ++ '>' :: post)).drop e.length) =
      some (attrs, post) := by
    rw [hdrop]
    exact splitAtGt_append attrs post ha2
  simp only [injectFillGo, hla, Bool.false_eq_true, if_false, hsplit]
  rw [injectFillGo_id_noLt e color _ post hpost]
  simp [hpf, List.append_assoc]

/-- String-level form of the unchanged single-`<` pass. -/
theorem injectFill_unchanged (el color : String) (pre rest : List Char)
    (hpre : ∀ ch ∈ pre, ch ≠ '<') (hrest : ∀ ch ∈ rest, ch ≠ '<')
    (hcase : el.data.isPrefixOf rest = false ∨
      hasFillStrokeBeforeGt (rest.drop el.data.length) = true) :
    injectFill el color (pre ++ '<' :: rest).asString =
      (pre ++ '<' :: rest).asString := by
  show (injectFillGo el.data color.data (pre ++ '<' :: rest).asString.data.length
    (pre ++ '<' :: rest).asString.data).asString = (pre ++ '<' :: rest).asString
  rw [asString_data]
  rw [injectFillGo_single_unchanged el.data color.data pre rest hpre hrest hcase]

/-- String-level form of the inserting single-`<` pass. -/
theorem injectFill_insert (el color : String) (pre attrs post : List Char)
    (hpre : ∀ ch ∈ pre, ch ≠ '<')
    (ha2 : ∀ ch ∈ attrs, ch ≠ '>')
    (hpost : ∀ ch ∈ post, ch ≠ '<')
    (hf : occursIn "fill=".data attrs = false)
    (hs : occursIn "stroke=".data attrs = false) :
    injectFill el color (pre ++ '<' :: (el.data ++ (attrs ++ '>' :: post))).asString =
      (pre ++ '<' :: ((el.data ++ (" fill=\"".data ++ color.data ++ ('"' :: attrs) ++
        ['>'])) ++ post)).asString := by
  show (injectFillGo el.data color.data
    (pre ++ '<' :: (el.data ++ (attrs ++ '>' :: post))).asString.data.length
    (pre ++ '<' :: (el.data ++ (attrs ++ '>' :: post))).asString.data).asString = _
  rw [asString_data]
  rw [injectFillGo_single_insert el.data color.data pre attrs post hpre ha2 hpost
    hf hs]

/-- Character bound for an unrewritten tag body. -/
theorem tag_no_lt (eD attrs post : List Char) (he : ∀ ch ∈ eD, ch ≠ '<')
    (ha : ∀ ch ∈ attrs, ch ≠ '<') (hp : ∀ ch ∈ post, ch ≠ '<') :
    ∀ ch ∈ eD ++ (attrs ++ '>' :: post), ch ≠ '<' := by
  intro ch hch
  rcases List.mem_append.mp hch with h | h
  · exact he ch h
  · rcases List.mem_append.mp h with h2 | h2
    · exact ha ch h2
    · rcases List.mem_cons.mp h2 with rfl | h3
      · decide
      · exact hp ch h3

/-- Character bound for the inserted `fill` attribute text. -/
theorem inner_no_lt (colD attrs : List Char) (hc : ∀ ch ∈ colD, ch ≠ '<')
    (ha : ∀ ch ∈ attrs, ch ≠ '<') :
    ∀ ch ∈ " fill=\"".data ++ colD ++ ('"' :: attrs) ++ ['>'], ch ≠ '<' := by
  intro ch hch
  rcases List.mem_append.mp hch with h | h
  · rcases List.mem_append.mp h with h2 | h2
    · rcases List.mem_append.mp h2 with h3 | h3
      · intro heq
        subst heq
        revert h3
        decide
      · exact hc ch h3
    · rcases List.mem_cons.mp h2 with rfl | h3
      · decide
      · exact ha ch h3
  · rcases List.mem_cons.mp h with rfl | h3
    · decide
    · simp at h3

/-- Character bound for a rewritten tag body. -/
theorem tag2_no_lt (eD inner post : List Char) (he : ∀ ch ∈ eD, ch ≠ '<')
    (hi : ∀ ch ∈ inner, ch ≠ '<') (hp : ∀ ch ∈ post, ch ≠ '<') :
    ∀ ch ∈ (eD ++ inner) ++ post, ch ≠ '<' := by
  intro ch hch
  rcases List.mem_append.mp hch with h | h
  · rcases List.mem_append.mp h with h2 | h2
    · exact he ch h2
    · exact hi ch h2
  · exact hp ch h

/-- The mismatch of two incomparable lists survives two extensions. -/
theorem isPrefixOf_append2_false (p a Y Z : List Char)
    (h1 : p.isPrefixOf a = false) (h2 : a.isPrefixOf p = false) :
    p.isPrefixOf ((a ++ Y) ++ Z) = false := by
  rw [List.append_assoc]
  exact isPrefixOf_append_false_of_neither p a h1 h2 (Y ++ Z)

/-- All seven passes leave a single-`<` body unchanged when each is blocked at the tag. -/
theorem applyFill_single_unchanged (col : String) (pre rest : List Char)
    (hpre : ∀ ch ∈ pre, ch ≠ '<') (hrest : ∀ ch ∈ rest, ch ≠ '<')
    (hall : ∀ el ∈ SVG_SHAPE_ELEMENTS, el.data.isPrefixOf rest = false ∨
      hasFillStrokeBeforeGt (rest.drop el.data.length) = true) :
    applyFillToBody (pre ++ '<' :: rest).asString col =
      (pre ++ '<' :: rest).asString := by
  simp only [applyFillToBody, SVG_SHAPE_ELEMENTS, List.foldl]
  rw [injectFill_unchanged "path" col pre rest hpre hrest (hall "path" (by decide)),
    injectFill_unchanged "circle" col pre rest hpre hrest (hall "circle" (by decide)),
    injectFill_unchanged "rect" col pre rest hpre hrest (hall "rect" (by decide)),
    injectFill_unchanged "polygon" col pre rest hpre hrest (hall "polygon" (by decide)),
    injectFill_unchanged "polyline" col pre rest hpre hrest (hall "polyline" (by decide)),
    injectFill_unchanged "line" col pre rest hpre hrest (hall "line" (by decide)),
    injectFill_unchanged "ellipse" col pre rest hpre hrest (hall "ellipse" (by decide))]

/-- A single shape-element tag already declaring `fill=` or `stroke=` before its `>` is left byte-for-byte untouched by `applyFillToBody`. -/
theorem applyFill_declared_skip (e : String) (hmem : e ∈ SVG_SHAPE_ELEMENTS)
    (col : String) (pre attrs post : List Char)
    (hpre : ∀ ch ∈ pre, ch ≠ '<') (ha1 : ∀ ch ∈ attrs, ch ≠ '<')
    (ha2 : ∀ ch ∈ attrs, ch ≠ '>') (hpost : ∀ ch ∈ post, ch ≠ '<')
    (hocc : (occursIn "fill=".data attrs || occursIn "stroke=".data attrs) = true) :
    applyFillToBody (pre ++ '<' :: (e.data ++ (attrs ++ '>' :: post))).asString col =
      (pre ++ '<' :: (e.data ++ (attrs ++ '>' :: post))).asString := by
  have hself : hasFillStrokeBeforeGt
      ((e.data ++ (attrs ++ '>' :: post)).drop e.data.length) = true := by
    rw [List.drop_left]
    exact hasFillStroke_of_occurs attrs ('>' :: post) ha2 hocc
  simp only [SVG_SHAPE_ELEMENTS, List.mem_cons, List.not_mem_nil, or_false] at hmem
  rcases hmem with rfl | rfl | rfl | rfl | rfl | rfl | rfl <;>
    · refine applyFill_single_unchanged col pre _ hpre
        (tag_no_lt _ attrs post (by decide) ha1 hpost) ?_
      intro el hel
      simp only [SVG_SHAPE_ELEMENTS, List.mem_cons, List.not_mem_nil, or_false] at hel
      rcases hel with rfl | rfl | rfl | rfl | rfl | rfl | rfl <;>
        first
          | exact Or.inr hself
          | exact Or.inl
              (isPrefixOf_append_false_of_neither _ _ (by decide) (by decide) _)


/-- A single shape-element tag declaring neither `fill=` nor `stroke=` receives ` fill="<color>"` immediately after its element name, with every existing attribute character kept in place and in order. -/
theorem applyFill_insert_spec (e : String) (hmem : e ∈ SVG_SHAPE_ELEMENTS)
    (col : String) (pre attrs post : List Char)
    (hpre : ∀ ch ∈ pre, ch ≠ '<') (ha1 : ∀ ch ∈ attrs, ch ≠ '<')
    (ha2 : ∀ ch ∈ attrs, ch ≠ '>') (hpost : ∀ ch ∈ post, ch ≠ '<')
    (hcol : ∀ ch ∈ col.data, ch ≠ '<')
    (hf : occursIn "fill=".data attrs = false)
    (hs : occursIn "stroke=".data attrs = false) :
    applyFillToBody (pre ++ '<' :: (e.data ++ (attrs ++ '>' :: post))).asString col =
      (pre ++ '<' :: ((e.data ++ (" fill=\"".data ++ col.data ++ ('"' :: attrs) ++
        ['>'])) ++ post)).asString := by
  simp only [SVG_SHAPE_ELEMENTS, List.mem_cons, List.not_mem_nil, or_false] at hmem
  rcases hmem with rfl | rfl | rfl | rfl | rfl | rfl | rfl

  · have hrest : ∀ ch ∈ "path".data ++ (attrs ++ '>' :: post), ch ≠ '<' :=
      tag_no_lt _ attrs post (by decide) ha1 hpost
    have hrest2 : ∀ ch ∈ ("path".data ++ (" fill=\"".data ++ col.data ++
        ('"' :: attrs) ++ ['>'])) ++ post, ch ≠ '<' :=
      tag2_no_lt _ _ post (by decide) (inner_no_lt col.data attrs hcol ha1) hpost
    simp only [applyFillToBody, SVG_SHAPE_ELEMENTS, List.foldl]
    rw [injectFill_insert "path" col pre attrs post hpre ha2 hpost hf hs,
      injectFill_unchanged "circle" col pre
        (("path".data ++ (" fill=\"".data ++ col.data ++ ('"' :: attrs) ++ ['>'])) ++ post) hpre hrest2
        (Or.inl (isPrefixOf_append2_false _ _ _ _ (by decide) (by decide))),
      injectFill_unchanged "rect" col pre
        (("path".data ++ (" fill=\"".data ++ col.data ++ ('"' :: attrs) ++ ['>'])) ++ post) hpre hrest2
        (Or.inl (isPrefixOf_append2_false _ _ _ _ (by decide) (by decide))),
      injectFill_unchanged "polygon" col pre
        (("path".data ++ (" fill=\"".data ++ col.data ++ ('"' :: attrs) ++ ['>'])) ++ post) hpre hrest2
        (Or.inl (isPrefixOf_append2_false _ _ _ _ (by decide) (by decide))),
      injectFill_unchanged "polyline" col pre
        (("path".data ++ (" fill=\"".data ++ col.data ++ ('"' :: attrs) ++ ['>'])) ++ post) hpre hrest2
        (Or.inl (isPrefixOf_append2_false _ _ _ _ (by decide) (by decide))),
      injectFill_unchanged "line" col pre
        (("path".data ++ (" fill=\"".data ++ col.data ++ ('"' :: attrs) ++ ['>'])) ++ post) hpre hrest2
        (Or.inl (isPrefixOf_append2_false _ _ _ _ (by decide) (by decide))),
      injectFill_unchanged "ellipse" col pre
        (("path".data ++ (" fill=\"".data ++ col.data ++ ('"' :: attrs) ++ ['>'])) ++ post) hpre hrest2
        (Or.inl (isPrefixOf_append2_false _ _ _ _ (by decide) (by decide)))]
  · have hrest : ∀ ch ∈ "circle".data ++ (attrs ++ '>' :: post), ch ≠ '<' :=
      tag_no_lt _ attrs post (by decide) ha1 hpost
    have hrest2 : ∀ ch ∈ ("circle".data ++ (" fill=\"".data ++ col.data ++
        ('"' :: attrs) ++ ['>'])) ++ post, ch ≠ '<' :=
      tag2_no_lt _ _ post (by decide) (inner_no_lt col.data attrs hcol ha1) hpost
    simp only [applyFillToBody, SVG_SHAPE_ELEMENTS, List.foldl]
    rw [injectFill_unchanged "path" col pre ("circle".data ++ (attrs ++ '>' :: post)) hpre hrest
        (Or.inl (isPrefixOf_append_false_of_neither _ _ (by decide) (by decide) _)),
      injectFill_insert "circle" col pre attrs post hpre ha2 hpost hf hs,
      injectFill_unchanged "rect" col pre
        (("circle".data ++ (" fill=\"".data ++ col.data ++ ('"' :: attrs) ++ ['>'])) ++ post) hpre hrest2
        (Or.inl (isPrefixOf_append2_false _ _ _ _ (by decide) (by decide))),
      injectFill_unchanged "polygon" col pre
        (("circle".data ++ (" fill=\"".data ++ col.data ++ ('"' :: attrs) ++ ['>'])) ++ post) hpre hrest2
        (Or.inl (isPrefixOf_append2_false _ _ _ _ (by decide) (by decide))),
      injectFill_unchanged "polyline" col pre
        (("circle".data ++ (" fill=\"".data ++ col.data ++ ('"' :: attrs) ++ ['>'])) ++ post) hpre hrest2
        (Or.inl (isPrefixOf_append2_false _ _ _ _ (by decide) (by decide))),
      injectFill_unchanged "line" col pre
        (("circle".data ++ (" fill=\"".data ++ col.data ++ ('"' :: attrs) ++ ['>'])) ++ post) hpre hrest2
        (Or.inl (isPrefixOf_append2_false _ _ _ _ (by decide) (by decide))),
      injectFill_unchanged "ellipse" col pre
        (("circle".data ++ (" fill=\"".data ++ col.data ++ ('"' :: attrs) ++ ['>'])) ++ post) hpre hrest2
        (Or.inl (isPrefixOf_append2_false _ _ _ _ (by decide) (by decide)))]
  · have hrest : ∀ ch ∈ "rect".data ++ (attrs ++ '>' :: post), ch ≠ '<' :=
      tag_no_lt _ attrs post (by decide) ha1 hpost
    have hrest2 : ∀ ch ∈ ("rect".data ++ (" fill=\"".data ++ col.data ++
        ('"' :: attrs) ++ ['>'])) ++ post, ch ≠ '<' :=
      tag2_no_lt _ _ post (by decide) (inner_no_lt col.data attrs hcol ha1) hpost
    simp only [applyFillToBody, SVG_SHAPE_ELEMENTS, List.foldl]
    rw [injectFill_unchanged "path" col pre ("rect".data ++ (attrs ++ '>' :: post)) hpre hrest
        (Or.inl (isPrefixOf_append_false_of_neither _ _ (by decide) (by decide) _)),
      injectFill_unchanged "circle" col pre ("rect".data ++ (attrs ++ '>' :: post)) hpre hrest
        (Or.inl (isPrefixOf_append_false_of_neither _ _ (by decide) (by decide) _)),
      injectFill_insert "rect" col pre attrs post hpre ha2 hpost hf hs,
      injectFill_unchanged "polygon" col pre
        (("rect".data ++ (" fill=\"".data ++ col.data ++ ('"' :: attrs) ++ ['>'])) ++ post) hpre hrest2
        (Or.inl (isPrefixOf_append2_false _ _ _ _ (by decide) (by decide))),
      injectFill_unchanged "polyline" col pre
        (("rect".data ++ (" fill=\"".data ++ col.data ++ ('"' :: attrs) ++ ['>'])) ++ post) hpre hrest2
        (Or.inl (isPrefixOf_append2_false _ _ _ _ (by decide) (by decide))),
      injectFill_unchanged "line" col pre
        (("rect".data ++ (" fill=\"".data ++ col.data ++ ('"' :: attrs) ++ ['>'])) ++ post) hpre hrest2
        (Or.inl (isPrefixOf_append2_false _ _ _ _ (by decide) (by decide))),
      injectFill_unchanged "ellipse" col pre
        (("rect".data ++ (" fill=\"".data ++ col.data ++ ('"' :: attrs) ++ ['>'])) ++ post) hpre hrest2
        (Or.inl (isPrefixOf_append2_false _ _ _ _ (by decide) (by decide)))]
  · have hrest : ∀ ch ∈ "polygon".data ++ (attrs ++ '>' :: post), ch ≠ '<' :=
      tag_no_lt _ attrs post (by decide) ha1 hpost
    have hrest2 : ∀ ch ∈ ("polygon".data ++ (" fill=\"".data ++ col.data ++
        ('"' :: attrs) ++ ['>'])) ++ post, ch ≠ '<' :=
      tag2_no_lt _ _ post (by decide) (inner_no_lt col.data attrs hcol ha1) hpost
    simp only [applyFillToBody, SVG_SHAPE_ELEMENTS, List.foldl]
    rw [injectFill_unchanged "path" col pre ("polygon".data ++ (attrs ++ '>' :: post)) hpre hrest
        (Or.inl (isPrefixOf_append_false_of_neither _ _ (by decide) (by decide) _)),
      injectFill_unchanged "circle" col pre ("polygon".data ++ (attrs ++ '>' :: post)) hpre hrest
        (Or.inl (isPrefixOf_append_false_of_neither _ _ (by decide) (by decide) _)),
      injectFill_unchanged "rect" col pre ("polygon".data ++ (attrs ++ '>' :: post)) hpre hrest
        (Or.inl (isPrefixOf_append_false_of_neither _ _ (by decide) (by decide) _)),
      injectFill_insert "polygon" col pre attrs post hpre ha2 hpost hf hs,
      injectFill_unchanged "polyline" col pre
        (("polygon".data ++ (" fill=\"".data ++ col.data ++ ('"' :: attrs) ++ ['>'])) ++ post) hpre hrest2
        (Or.inl (isPrefixOf_append2_false _ _ _ _ (by decide) (by decide))),
      injectFill_unchanged "line" col pre
        (("polygon".data ++ (" fill=\"".data ++ col.data ++ ('"' :: attrs) ++ ['>'])) ++ post) hpre hrest2
        (Or.inl (isPrefixOf_append2_false _ _ _ _ (by decide) (by decide))),
      injectFill_unchanged "ellipse" col pre
        (("polygon".data ++ (" fill=\"".data ++ col.data ++ ('"' :: attrs) ++ ['>'])) ++ post) hpre hrest2
        (Or.inl (isPrefixOf_append2_false _ _ _ _ (by decide) (by decide)))]
  · have hrest : ∀ ch ∈ "polyline".data ++ (attrs ++ '>' :: post), ch ≠ '<' :=
      tag_no_lt _ attrs post (by decide) ha1 hpost
    have hrest2 : ∀ ch ∈ ("polyline".data ++ (" fill=\"".data ++ col.data ++
        ('"' :: attrs) ++ ['>'])) ++ post, ch ≠ '<' :=
      tag2_no_lt _ _ post (by decide) (inner_no_lt col.data attrs hcol ha1) hpost
    simp only [applyFillToBody, SVG_SHAPE_ELEMENTS, List.foldl]
    rw [injectFill_unchanged "path" col pre ("polyline".data ++ (attrs ++ '>' :: post)) hpre hrest
        (Or.inl (isPrefixOf_append_false_of_neither _ _ (by decide) (by decide) _)),
      injectFill_unchanged "circle" col pre ("polyline".data ++ (attrs ++ '>' :: post)) hpre hrest
        (Or.inl (isPrefixOf_append_false_of_neither _ _ (by decide) (by decide) _)),
      injectFill_unchanged "rect" col pre ("polyline".data ++ (attrs ++ '>' :: post)) hpre hrest
        (Or.inl (isPrefixOf_append_false_of_neither _ _ (by decide) (by decide) _)),
      injectFill_unchanged "polygon" col pre ("polyline".data ++ (attrs ++ '>' :: post)) hpre hrest
        (Or.inl (isPrefixOf_append_false_of_neither _ _ (by decide) (by decide) _)),
      injectFill_insert "polyline" col pre attrs post hpre ha2 hpost hf hs,
      injectFill_unchanged "line" col pre
        (("polyline".data ++ (" fill=\"".data ++ col.data ++ ('"' :: attrs) ++ ['>'])) ++ post) hpre hrest2
        (Or.inl (isPrefixOf_append2_false _ _ _ _ (by decide) (by decide))),
      injectFill_unchanged "ellipse" col pre
        (("polyline".data ++ (" fill=\"".data ++ col.data ++ ('"' :: attrs) ++ ['>'])) ++ post) hpre hrest2
        (Or.inl (isPrefixOf_append2_false _ _ _ _ (by decide) (by decide)))]
  · have hrest : ∀ ch ∈ "line".data ++ (attrs ++ '>' :: post), ch ≠ '<' :=
      tag_no_lt _ attrs post (by decide) ha1 hpost
    have hrest2 : ∀ ch ∈ ("line".data ++ (" fill=\"".data ++ col.data ++
        ('"' :: attrs) ++ ['>'])) ++ post, ch ≠ '<' :=
      tag2_no_lt _ _ post (by decide) (inner_no_lt col.data attrs hcol ha1) hpost
    simp only [applyFillToBody, SVG_SHAPE_ELEMENTS, List.foldl]
    rw [injectFill_unchanged "path" col pre ("line".data ++ (attrs ++ '>' :: post)) hpre hrest
        (Or.inl (isPrefixOf_append_false_of_neither _ _ (by decide) (by decide) _)),
      injectFill_unchanged "circle" col pre ("line".data ++ (attrs ++ '>' :: post)) hpre hrest
        (Or.inl (isPrefixOf_append_false_of_neither _ _ (by decide) (by decide) _)),
      injectFill_unchanged "rect" col pre ("line".data ++ (attrs ++ '>' :: post)) hpre hrest
        (Or.inl (isPrefixOf_append_false_of_neither _ _ (by decide) (by decide) _)),
      injectFill_unchanged "polygon" col pre ("line".data ++ (attrs ++ '>' :: post)) hpre hrest
        (Or.inl (isPrefixOf_append_false_of_neither _ _ (by decide) (by decide) _)),
      injectFill_unchanged "polyline" col pre ("line".data ++ (attrs ++ '>' :: post)) hpre hrest
        (Or.inl (isPrefixOf_append_false_of_neither _ _ (by decide) (by decide) _)),
      injectFill_insert "line" col pre attrs post hpre ha2 hpost hf hs,
      injectFill_unchanged "ellipse" col pre
        (("line".data ++ (" fill=\"".data ++ col.data ++ ('"' :: attrs) ++ ['>'])) ++ post) hpre hrest2
        (Or.inl (isPrefixOf_append2_false _ _ _ _ (by decide) (by decide)))]
  · have hrest : ∀ ch ∈ "ellipse".data ++ (attrs ++ '>' :: post), ch ≠ '<' :=
      tag_no_lt _ attrs post (by decide) ha1 hpost
    have hrest2 : ∀ ch ∈ ("ellipse".data ++ (" fill=\"".data ++ col.data ++
        ('"' :: attrs) ++ ['>'])) ++ post, ch ≠ '<' :=
      tag2_no_lt _ _ post (by decide) (inner_no_lt col.data attrs hcol ha1) hpost
    simp only [applyFillToBody, SVG_SHAPE_ELEMENTS, List.foldl]
    rw [injectFill_unchanged "path" col pre ("ellipse".data ++ (attrs ++ '>' :: post)) hpre hrest
        (Or.inl (isPrefixOf_append_false_of_neither _ _ (by decide) (by decide) _)),
      injectFill_unchanged "circle" col pre ("ellipse".data ++ (attrs ++ '>' :: post)) hpre hrest
        (Or.inl (isPrefixOf_append_false_of_neither _ _ (by decide) (by decide) _)),
      injectFill_unchanged "rect" col pre ("ellipse".data ++ (attrs ++ '>' :: post)) hpre hrest
        (Or.inl (isPrefixOf_append_false_of_neither _ _ (by decide) (by decide) _)),
      injectFill_unchanged "polygon" col pre ("ellipse".data ++ (attrs ++ '>' :: post)) hpre hrest
        (Or.inl (isPrefixOf_append_false_of_neither _ _ (by decide) (by decide) _)),
      injectFill_unchanged "polyline" col pre ("ellipse".data ++ (attrs ++ '>' :: post)) hpre hrest
        (Or.inl (isPrefixOf_append_false_of_neither _ _ (by decide) (by decide) _)),
      injectFill_unchanged "line" col pre ("ellipse".data ++ (attrs ++ '>' :: post)) hpre hrest
        (Or.inl (isPrefixOf_append_false_of_neither _ _ (by decide) (by decide) _)),
      injectFill_insert "ellipse" col pre attrs post hpre ha2 hpost hf hs]

/-- Claim C4, amended: `applyFillToBody` is the identity on bodies with no occurrence of `<`+shape-name; on a body holding one tag (its only `<`) of one of the seven shape elements with `>`-free attribute text, the tag is untouched whenever that text declares `fill=` or `stroke=`, and otherwise `fill="<color>"` is inserted immediately after the element name with all existing attribute text kept byte-for-byte in place; `<path stroke="red" d="X"/>` is unchanged and `<path d="X"/>` becomes `<path fill="currentColor" d="X"/>`. The element-name match is a bare prefix match, so tags whose name merely begins with a shape name are rewritten as well: see the counterexample. -/
theorem C4_fill_injection_amended :
    (∀ body color : String,
      (∀ e ∈ SVG_SHAPE_ELEMENTS, occursIn ('<' :: e.data) body.data = false) →
      applyFillToBody body color = body) ∧
    (∀ e ∈ SVG_SHAPE_ELEMENTS, ∀ color : String, ∀ pre attrs post : List Char,
      (∀ ch ∈ pre, ch ≠ '<') → (∀ ch ∈ attrs, ch ≠ '<') →
      (∀ ch ∈ attrs, ch ≠ '>') → (∀ ch ∈ post, ch ≠ '<') →
      (occursIn "fill=".data attrs || occursIn "stroke=".data attrs) = true →
      applyFillToBody (pre ++ '<' :: (e.data ++ (attrs ++ '>' :: post))).asString
          color =
        (pre ++ '<' :: (e.data ++ (attrs ++ '>' :: post))).asString) ∧
    (∀ e ∈ SVG_SHAPE_ELEMENTS, ∀ color : String, ∀ pre attrs post : List Char,
      (∀ ch ∈ pre, ch ≠ '<') → (∀ ch ∈ attrs, ch ≠ '<') →
      (∀ ch ∈ attrs, ch ≠ '>') → (∀ ch ∈ post, ch ≠ '<') →
      (∀ ch ∈ color.data, ch ≠ '<') →
      occursIn "fill=".data attrs = false →
      occursIn "stroke=".data attrs = false →
      applyFillToBody (pre ++ '<' :: (e.data ++ (attrs ++ '>' :: post))).asString
          color =
        (pre ++ '<' :: ((e.data ++ (" fill=\"".data ++ color.data ++
          ('"' :: attrs) ++ ['>'])) ++ post)).asString) ∧
    applyFillToBody "<path stroke=\"red\" d=\"X\"/>" "currentColor" =
      "<path stroke=\"red\" d=\"X\"/>" ∧
    applyFillToBody "<path d=\"X\"/>" "currentColor" =
      "<path fill=\"currentColor\" d=\"X\"/>" :=
  ⟨fun body color h => foldl_injectFill_id SVG_SHAPE_ELEMENTS body color h,
   fun e hmem color pre attrs post h1 h2 h3 h4 h5 =>
     applyFill_declared_skip e hmem color pre attrs post h1 h2 h3 h4 h5,
   fun e hmem color pre attrs post h1 h2 h3 h4 h5 h6 h7 =>
     applyFill_insert_spec e hmem color pre attrs post h1 h2 h3 h4 h5 h6 h7,
   by decide, by decide⟩

/-- Witness: the amended C4 statement at concrete inputs — a body with no shape element is unchanged, a declared `circle` tag is untouched, and an undeclared `rect` tag receives the fill. -/
theorem C4_fill_injection_amended_witness :
    applyFillToBody "<g id=\"a\"/>" "blue" = "<g id=\"a\"/>" ∧
    applyFillToBody "<circle stroke=\"red\"/>" "blue" =
      "<circle stroke=\"red\"/>" ∧
    applyFillToBody "<rect width=\"4\"/>" "blue" =
      "<rect fill=\"blue\" width=\"4\"/>" :=
  ⟨C4_fill_injection_amended.1 "<g id=\"a\"/>" "blue" (by decide),
   C4_fill_injection_amended.2.1 "circle" (by decide) "blue" [] " stroke=\"red\"/".data []
     (by decide) (by decide) (by decide) (by decide) (by decide),
   C4_fill_injection_amended.2.2.1 "rect" (by decide) "blue" [] " width=\"4\"/".data []
     (by decide) (by decide) (by decide) (by decide) (by decide) (by decide)
     (by decide)⟩
